import Mathlib

/-!
Shallow embedding of the Xiangqi rules-and-search core of the
chinese-chess repository (src/shared/constants.js, src/shared/zobrist.js,
src/shared/rules.js (BoardLogic), src/shared/moves.js, the AI engine and
the dark-chess move logic), together with proofs checking the
specification's claims against these definitions.

Conventions of the embedding:
* JavaScript numbers used as board coordinates are modelled as `Int`
  (move deltas can be negative); 32-bit unsigned hash values as `Nat`
  taken modulo 2^32.
* In-place mutation of the board object becomes explicit state passing:
  `movePiece` returns the new board together with the captured piece
  (the JS method's return value), `undoMove` returns the new board.
* JS `while` loops over board rays are expressed with a fuel parameter
  that strictly exceeds the board diameter, so the fuel never runs out
  on the 10x9 (or 4x8) board.
-/

set_option maxHeartbeats 4000000

set_option maxRecDepth 100000

/-- Sides (constants.js RED / BLACK). -/
inductive Side where
  | red
  | black
deriving DecidableEq, Repr, Fintype

/-- Opposite side, the ubiquitous `side === 'red' ? 'black' : 'red'`. -/
def Side.opp : Side → Side
  | .red => .black
  | .black => .red

/-- Piece kinds (constants.js KING .. PAWN). -/
inductive PieceType where
  | king
  | advisor
  | elephant
  | rook
  | horse
  | cannon
  | pawn
deriving DecidableEq, Repr, Fintype

/-- A piece as stored in a grid cell: `{ type, side }`. -/
structure Piece where
  type : PieceType
  side : Side
deriving DecidableEq, Repr

/-- A cached king position `{ row, col }`. -/
structure Pos where
  row : Int
  col : Int
deriving DecidableEq, Repr

/-- Board dimensions (constants.js). -/
def ROWS : Int := 10

/-- Board dimensions (constants.js). -/
def COLS : Int := 9

/-- Palace rectangle record (constants.js PALACE entries). -/
structure PalaceRect where
  rowMin : Int
  rowMax : Int
  colMin : Int
  colMax : Int

/-- Palace boundaries (constants.js PALACE). -/
def PALACE : Side → PalaceRect
  | .red => ⟨7, 9, 3, 5⟩
  | .black => ⟨0, 2, 3, 5⟩

/-- River boundary (constants.js RIVER.redMin). -/
def RIVER_redMin : Int := 5

/-- River boundary (constants.js RIVER.blackMax). -/
def RIVER_blackMax : Int := 4

/-- Grid: the 10-row array of 9-column arrays of nullable pieces. -/
abbrev Grid := List (List (Option Piece))

/-- Raw grid read `grid[row][col]` (no bounds check, as in the JS
mutators); out-of-range indices read as empty. -/
def gridGet (g : Grid) (r c : Int) : Option Piece :=
  (List.getD (List.getD g r.toNat []) c.toNat none)

/-- Raw grid write `grid[row][col] = v` (no bounds check). -/
def gridSet (g : Grid) (r c : Int) (v : Option Piece) : Grid :=
  List.set g r.toNat (List.set (List.getD g r.toNat []) c.toNat v)

/-- Mulberry32 modulus 2^32. -/
def M32 : Nat := 4294967296

/-- Math.imul modelled modulo 2^32 (the signed result has the same
32-bit pattern as the unsigned product). -/
def imul32 (a b : Nat) : Nat := (a * b) % M32

/-- Mulberry32 state advance: `seed = seed + 0x6D2B79F5 | 0`. -/
def mstep (s : Nat) : Nat := (s + 0x6D2B79F5) % M32

/-- Mulberry32 output mixing of the advanced seed (zobrist.js):
`t = imul(seed ^ seed >>> 15, 1 | seed); t = t + imul(t ^ t >>> 7, 61 | t) ^ t;
return (t ^ t >>> 14) >>> 0`. -/
def mout (s : Nat) : Nat :=
  let t1 := imul32 (s ^^^ (s >>> 15)) (s ||| 1)
  let t2 := ((t1 + imul32 (t1 ^^^ (t1 >>> 7)) (t1 ||| 61)) % M32) ^^^ t1
  (t2 ^^^ (t2 >>> 14)) % M32

/-- Seed value after `n` PRNG calls starting from the fixed seed
0xDEADBEEF. -/
def seedAfter : Nat → Nat
  | 0 => 0xDEADBEEF
  | n + 1 => mstep (seedAfter n)

/-- Value produced by the (n+1)-th call of the seeded PRNG (0-indexed). -/
def rngOut (n : Nat) : Nat := mout (seedAfter (n + 1))

/-- Index of a piece type in zobrist.js PIECE_TYPES. -/
def typeIdx : PieceType → Nat
  | .king => 0
  | .advisor => 1
  | .elephant => 2
  | .rook => 3
  | .horse => 4
  | .cannon => 5
  | .pawn => 6

/-- Index of a side in zobrist.js SIDES. -/
def sideIdx : Side → Nat
  | .red => 0
  | .black => 1

/-- Zobrist key `pieceKeys[type][side][row][col]`: the keys are drawn
from the PRNG in the source's nested loop order (type, side, row, col). -/
def pieceKeys (t : PieceType) (s : Side) (r c : Nat) : Nat :=
  rngOut ((((typeIdx t) * 2 + sideIdx s) * 10 + r) * 9 + c)

/-- Zobrist side-to-move key: the PRNG value drawn right after the
7 * 2 * 10 * 9 = 1260 piece keys. -/
def sideKey : Nat := rngOut 1260

/-- Key of a concrete piece at Int coordinates. -/
def pieceKeyAt (p : Piece) (r c : Int) : Nat :=
  pieceKeys p.type p.side r.toNat c.toNat

/-- The board object: grid, incremental hash, piece count and the
cached king positions (`_kingPos`). -/
structure Board where
  grid : Grid
  hash : Nat
  pieceCount : Int
  kingRed : Option Pos
  kingBlack : Option Pos
deriving DecidableEq

/-- Read of the king-position cache `_kingPos[side]`. -/
def Board.kingPos (b : Board) : Side → Option Pos
  | .red => b.kingRed
  | .black => b.kingBlack

/-- Write of the king-position cache `_kingPos[side] = v`. -/
def Board.setKing (b : Board) (s : Side) (v : Option Pos) : Board :=
  match s with
  | .red => { b with kingRed := v }
  | .black => { b with kingBlack := v }

/-- BoardLogic.isInBoard. -/
def isInBoard (r c : Int) : Bool :=
  decide (0 ≤ r) && decide (r < ROWS) && decide (0 ≤ c) && decide (c < COLS)

/-- BoardLogic.getPiece: bounds-checked read, empty when out of range. -/
def getPiece (b : Board) (r c : Int) : Option Piece :=
  if isInBoard r c then gridGet b.grid r c else none

/-- BoardLogic.computeHash: XOR of the piece keys over all occupied
squares, from a zero accumulator. -/
def computeHash (g : Grid) : Nat :=
  (List.range 10).foldl (fun h (r : Nat) =>
    (List.range 9).foldl (fun h (c : Nat) =>
      match gridGet g (Int.ofNat r) (Int.ofNat c) with
      | some p => h ^^^ pieceKeys p.type p.side r c
      | none => h) h) 0

/-- BoardLogic.hasCrossedRiver. -/
def hasCrossedRiver (row : Int) (s : Side) : Bool :=
  match s with
  | .red => decide (row ≤ 4)
  | .black => decide (row ≥ 5)

/-- Record passed to `undoMove`: the move plus the captured piece. -/
structure MoveRecord where
  fromRow : Int
  fromCol : Int
  toRow : Int
  toCol : Int
  captured : Option Piece
deriving DecidableEq, Repr

/-- BoardLogic.movePiece: incremental hash update (moving piece out and
in, captured piece out, side key), piece count and king-cache update,
then the two grid writes.  Returns the new board and the captured
piece (the JS return value). -/
def movePiece (b : Board) (fromRow fromCol toRow toCol : Int) :
    Board × Option Piece :=
  let moving := gridGet b.grid fromRow fromCol
  let captured := gridGet b.grid toRow toCol
  let h1 :=
    match moving with
    | some m => (b.hash ^^^ pieceKeyAt m fromRow fromCol) ^^^ pieceKeyAt m toRow toCol
    | none => b.hash
  let h2 :=
    match captured with
    | some cp => h1 ^^^ pieceKeyAt cp toRow toCol
    | none => h1
  let pc :=
    match captured with
    | some _ => b.pieceCount - 1
    | none => b.pieceCount
  let b1 : Board := { b with hash := h2 ^^^ sideKey, pieceCount := pc }
  let b2 :=
    match captured with
    | some cp => if cp.type = PieceType.king then b1.setKing cp.side none else b1
    | none => b1
  let b3 :=
    match moving with
    | some m =>
      if m.type = PieceType.king then b2.setKing m.side (some ⟨toRow, toCol⟩) else b2
    | none => b2
  let g1 := gridSet b.grid toRow toCol moving
  let g2 := gridSet g1 fromRow fromCol none
  ({ b3 with grid := g2 }, captured)

/-- BoardLogic.undoMove: exact source order — XOR the side key, restore
the captured piece's key/count/king cache, reverse the moving piece's
two keys and king cache, then the two grid writes. -/
def undoMove (b : Board) (mr : MoveRecord) : Board :=
  let moving := gridGet b.grid mr.toRow mr.toCol
  let h1 := b.hash ^^^ sideKey
  let h2 :=
    match mr.captured with
    | some cp => h1 ^^^ pieceKeyAt cp mr.toRow mr.toCol
    | none => h1
  let pc :=
    match mr.captured with
    | some _ => b.pieceCount + 1
    | none => b.pieceCount
  let b1 : Board := { b with hash := h2, pieceCount := pc }
  let b2 :=
    match mr.captured with
    | some cp =>
      if cp.type = PieceType.king then
        b1.setKing cp.side (some ⟨mr.toRow, mr.toCol⟩)
      else b1
    | none => b1
  let h3 :=
    match moving with
    | some m =>
      (b2.hash ^^^ pieceKeyAt m mr.toRow mr.toCol) ^^^ pieceKeyAt m mr.fromRow mr.fromCol
    | none => b2.hash
  let b3 : Board := { b2 with hash := h3 }
  let b4 :=
    match moving with
    | some m =>
      if m.type = PieceType.king then
        b3.setKing m.side (some ⟨mr.fromRow, mr.fromCol⟩)
      else b3
    | none => b3
  let g1 := gridSet b.grid mr.fromRow mr.fromCol moving
  let g2 := gridSet g1 mr.toRow mr.toCol mr.captured
  { b4 with grid := g2 }

/-- BoardLogic.findKing: O(1) read of the cache (`|| null` is the
identity on the option). -/
def findKing (b : Board) (s : Side) : Option Pos := b.kingPos s

/-- A piece together with its square, as produced by getPieces
(`{ ...p, row, col }`). -/
structure PP where
  type : PieceType
  side : Side
  row : Int
  col : Int
deriving DecidableEq, Repr

/-- BoardLogic.getPieces: row-major scan collecting the given side's
pieces with their coordinates. -/
def getPieces (b : Board) (s : Side) : List PP :=
  (List.range 10).flatMap (fun r =>
    (List.range 9).flatMap (fun c =>
      match gridGet b.grid (r : Int) (c : Int) with
      | some p => if p.side = s then [⟨p.type, p.side, (r : Int), (c : Int)⟩] else []
      | none => []))

/-- Empty 10x9 grid (BoardLogic.init). -/
def emptyGrid : Grid := List.replicate 10 (List.replicate 9 none)

/-- Initial piece layout (constants.js INITIAL_POSITIONS), in source
order. -/
def INITIAL_POSITIONS : List (Piece × Int × Int) :=
  [(⟨.rook, .black⟩, 0, 0), (⟨.horse, .black⟩, 0, 1), (⟨.elephant, .black⟩, 0, 2),
   (⟨.advisor, .black⟩, 0, 3), (⟨.king, .black⟩, 0, 4), (⟨.advisor, .black⟩, 0, 5),
   (⟨.elephant, .black⟩, 0, 6), (⟨.horse, .black⟩, 0, 7), (⟨.rook, .black⟩, 0, 8),
   (⟨.cannon, .black⟩, 2, 1), (⟨.cannon, .black⟩, 2, 7),
   (⟨.pawn, .black⟩, 3, 0), (⟨.pawn, .black⟩, 3, 2), (⟨.pawn, .black⟩, 3, 4),
   (⟨.pawn, .black⟩, 3, 6), (⟨.pawn, .black⟩, 3, 8),
   (⟨.rook, .red⟩, 9, 0), (⟨.horse, .red⟩, 9, 1), (⟨.elephant, .red⟩, 9, 2),
   (⟨.advisor, .red⟩, 9, 3), (⟨.king, .red⟩, 9, 4), (⟨.advisor, .red⟩, 9, 5),
   (⟨.elephant, .red⟩, 9, 6), (⟨.horse, .red⟩, 9, 7), (⟨.rook, .red⟩, 9, 8),
   (⟨.cannon, .red⟩, 7, 1), (⟨.cannon, .red⟩, 7, 7),
   (⟨.pawn, .red⟩, 6, 0), (⟨.pawn, .red⟩, 6, 2), (⟨.pawn, .red⟩, 6, 4),
   (⟨.pawn, .red⟩, 6, 6), (⟨.pawn, .red⟩, 6, 8)]

/-- BoardLogic.setupInitialPosition: clear, place the initial pieces,
update piece count and king cache, then compute the hash from scratch. -/
def setupInitialPosition : Board :=
  let b0 : Board := { grid := emptyGrid, hash := 0, pieceCount := 0,
                      kingRed := none, kingBlack := none }
  let b1 := INITIAL_POSITIONS.foldl (fun b e =>
    let b' : Board := { b with grid := gridSet b.grid e.2.1 e.2.2 (some e.1),
                               pieceCount := b.pieceCount + 1 }
    if e.1.type = PieceType.king then b'.setKing e.1.side (some ⟨e.2.1, e.2.2⟩)
    else b') b0
  { b1 with hash := computeHash b1.grid }

/-- BoardLogic._rebuildMeta: recount pieces and rescan king positions
(row-major, a later king of the same side overwrites an earlier one). -/
def rebuildMeta (b : Board) : Board :=
  let b0 : Board := { b with pieceCount := 0, kingRed := none, kingBlack := none }
  (List.range 10).foldl (fun b r =>
    (List.range 9).foldl (fun b c =>
      match gridGet b.grid (r : Int) (c : Int) with
      | some p =>
        let b' : Board := { b with pieceCount := b.pieceCount + 1 }
        if p.type = PieceType.king then b'.setKing p.side (some ⟨(r : Int), (c : Int)⟩)
        else b'
      | none => b) b) b0

/-- BoardLogic.fromJSON: replace the grid by a cell-wise copy of the
serialized data, recompute the hash from scratch and rebuild the
metadata.  No validation is performed. -/
def fromJSON (b : Board) (data : Grid) : Board :=
  let g : Grid := data.map (fun row => row.map (fun cell => cell))
  let b1 : Board := { b with grid := g }
  let b2 : Board := { b1 with hash := computeHash b1.grid }
  rebuildMeta b2

/-- A pseudo-legal destination `{ toRow, toCol }` as produced by
generatePieceMoves. -/
structure MoveTo where
  toRow : Int
  toCol : Int
deriving DecidableEq, Repr

/-- A full move `{ fromRow, fromCol, toRow, toCol }` as produced by
generateAllLegalMoves. -/
structure Move where
  fromRow : Int
  fromCol : Int
  toRow : Int
  toCol : Int
deriving DecidableEq, Repr

/-- moves.js canMoveTo: destination is on the board and not occupied by
an own piece. -/
def canMoveTo (b : Board) (r c : Int) (s : Side) : Bool :=
  if isInBoard r c then
    match getPiece b r c with
    | none => true
    | some t => decide (t.side ≠ s)
  else false

/-- moves.js kingMoves: four orthogonal steps inside the palace. -/
def kingMoves (b : Board) (row col : Int) (s : Side) : List MoveTo :=
  let pal := PALACE s
  [((-1 : Int), (0 : Int)), (1, 0), (0, -1), (0, 1)].filterMap (fun d =>
    let nr := row + d.1
    let nc := col + d.2
    if decide (pal.rowMin ≤ nr) && decide (nr ≤ pal.rowMax) &&
       decide (pal.colMin ≤ nc) && decide (nc ≤ pal.colMax) &&
       canMoveTo b nr nc s then
      some ⟨nr, nc⟩
    else none)

/-- moves.js advisorMoves: four diagonal steps inside the palace. -/
def advisorMoves (b : Board) (row col : Int) (s : Side) : List MoveTo :=
  let pal := PALACE s
  [((-1 : Int), (-1 : Int)), (-1, 1), (1, -1), (1, 1)].filterMap (fun d =>
    let nr := row + d.1
    let nc := col + d.2
    if decide (pal.rowMin ≤ nr) && decide (nr ≤ pal.rowMax) &&
       decide (pal.colMin ≤ nc) && decide (nc ≤ pal.colMax) &&
       canMoveTo b nr nc s then
      some ⟨nr, nc⟩
    else none)

/-- moves.js elephantMoves: the four 2-square diagonals with their
"eye" midpoints, river-restricted, eye must be empty. -/
def elephantMoves (b : Board) (row col : Int) (s : Side) : List MoveTo :=
  [(((-2 : Int), (-2 : Int)), ((-1 : Int), (-1 : Int))),
   ((-2, 2), (-1, 1)), ((2, -2), (1, -1)), ((2, 2), (1, 1))].filterMap (fun de =>
    let nr := row + de.1.1
    let nc := col + de.1.2
    let er := row + de.2.1
    let ec := col + de.2.2
    if ¬ isInBoard nr nc then none
    else if s = Side.red ∧ nr < RIVER_redMin then none
    else if s = Side.black ∧ nr > RIVER_blackMax then none
    else if (getPiece b er ec).isSome then none
    else if canMoveTo b nr nc s then some ⟨nr, nc⟩
    else none)

/-- moves.js horseMoves: eight L-jumps, each with its fixed leg square
that must be empty. -/
def horseMoves (b : Board) (row col : Int) (s : Side) : List MoveTo :=
  [(((-2 : Int), (-1 : Int)), ((-1 : Int), (0 : Int))),
   ((-2, 1), (-1, 0)), ((-1, -2), (0, -1)), ((-1, 2), (0, 1)),
   ((1, -2), (0, -1)), ((1, 2), (0, 1)), ((2, -1), (1, 0)), ((2, 1), (1, 0))].filterMap
    (fun ml =>
      let nr := row + ml.1.1
      let nc := col + ml.1.2
      let lr := row + ml.2.1
      let lc := col + ml.2.2
      if ¬ isInBoard nr nc then none
      else if (getPiece b lr lc).isSome then none
      else if canMoveTo b nr nc s then some ⟨nr, nc⟩
      else none)

/-- Ray walk of moves.js rookMoves: slide until blocked, capture the
first enemy piece.  The fuel strictly exceeds the number of in-board
steps, so it mirrors the source's `while (board.isInBoard(nr, nc))`. -/
def rookRay (b : Board) (s : Side) (dr dc : Int) : Int → Int → Nat → List MoveTo
  | _, _, 0 => []
  | r, c, fuel + 1 =>
    if isInBoard r c then
      match getPiece b r c with
      | none => ⟨r, c⟩ :: rookRay b s dr dc (r + dr) (c + dc) fuel
      | some t => if t.side ≠ s then [⟨r, c⟩] else []
    else []

/-- moves.js rookMoves: the four orthogonal rays. -/
def rookMoves (b : Board) (row col : Int) (s : Side) : List MoveTo :=
  [((-1 : Int), (0 : Int)), (1, 0), (0, -1), (0, 1)].flatMap (fun d =>
    rookRay b s d.1 d.2 (row + d.1) (col + d.2) 16)

/-- Ray walk of moves.js cannonMoves with the `jumped` flag: before the
screen, empty squares are targets; after it, the next piece is captured
when it is an enemy. -/
def cannonRay (b : Board) (s : Side) (dr dc : Int) :
    Int → Int → Bool → Nat → List MoveTo
  | _, _, _, 0 => []
  | r, c, jumped, fuel + 1 =>
    if isInBoard r c then
      match jumped, getPiece b r c with
      | false, none => ⟨r, c⟩ :: cannonRay b s dr dc (r + dr) (c + dc) false fuel
      | false, some _ => cannonRay b s dr dc (r + dr) (c + dc) true fuel
      | true, none => cannonRay b s dr dc (r + dr) (c + dc) true fuel
      | true, some t => if t.side ≠ s then [⟨r, c⟩] else []
    else []

/-- moves.js cannonMoves: the four orthogonal rays with screen logic. -/
def cannonMoves (b : Board) (row col : Int) (s : Side) : List MoveTo :=
  [((-1 : Int), (0 : Int)), (1, 0), (0, -1), (0, 1)].flatMap (fun d =>
    cannonRay b s d.1 d.2 (row + d.1) (col + d.2) false 16)

/-- moves.js pawnMoves: one step forward; after crossing the river also
one step sideways. -/
def pawnMoves (b : Board) (row col : Int) (s : Side) : List MoveTo :=
  let forward : Int := if s = Side.red then -1 else 1
  let crossed := hasCrossedRiver row s
  let nr := row + forward
  let fwd :=
    if isInBoard nr col && canMoveTo b nr col s then [(⟨nr, col⟩ : MoveTo)] else []
  let side :=
    if crossed then
      [(-1 : Int), 1].filterMap (fun dc =>
        let nc := col + dc
        if isInBoard row nc && canMoveTo b row nc s then some (⟨row, nc⟩ : MoveTo)
        else none)
    else []
  fwd ++ side

/-- moves.js generatePieceMoves: dispatch on the piece kind at the
square; empty square yields no moves. -/
def generatePieceMoves (b : Board) (row col : Int) : List MoveTo :=
  match getPiece b row col with
  | none => []
  | some piece =>
    match piece.type with
    | .king => kingMoves b row col piece.side
    | .advisor => advisorMoves b row col piece.side
    | .elephant => elephantMoves b row col piece.side
    | .rook => rookMoves b row col piece.side
    | .horse => horseMoves b row col piece.side
    | .cannon => cannonMoves b row col piece.side
    | .pawn => pawnMoves b row col piece.side

/-- moves.js kingsAreFacing: both kings on one column with no piece
between them. -/
def kingsAreFacing (b : Board) : Bool :=
  match findKing b Side.red, findKing b Side.black with
  | some redKing, some blackKing =>
    if redKing.col ≠ blackKing.col then false
    else
      let minRow := min redKing.row blackKing.row
      let maxRow := max redKing.row blackKing.row
      (List.range ((maxRow - minRow - 1).toNat)).all (fun i =>
        (getPiece b (minRow + 1 + Int.ofNat i) redKing.col).isNone)
  | _, _ => false

/-- moves.js isUnderAttack: with no cached king the side counts as
attacked; otherwise enumerate the opponent's pseudo-legal moves and
look for a hit on the king square. -/
def isUnderAttack (b : Board) (s : Side) : Bool :=
  match findKing b s with
  | none => true
  | some kp =>
    (getPieces b s.opp).any (fun p =>
      (generatePieceMoves b p.row p.col).any (fun m =>
        decide (m.toRow = kp.row) && decide (m.toCol = kp.col)))

/-- moves.js wouldLeaveInCheck: make the move on a clone (value copy
here), then test kings-facing and king attack. -/
def wouldLeaveInCheck (b : Board) (fromRow fromCol toRow toCol : Int)
    (s : Side) : Bool :=
  let cloned := (movePiece b fromRow fromCol toRow toCol).1
  if kingsAreFacing cloned then true else isUnderAttack cloned s

/-- moves.js generateAllLegalMoves: all pseudo-legal moves of the
side's pieces that pass the legality filter. -/
def generateAllLegalMoves (b : Board) (s : Side) : List Move :=
  (getPieces b s).flatMap (fun p =>
    (generatePieceMoves b p.row p.col).filterMap (fun m =>
      if wouldLeaveInCheck b p.row p.col m.toRow m.toCol s then none
      else some ⟨p.row, p.col, m.toRow, m.toCol⟩))

/-- rules.js isInCheck. -/
def isInCheck (b : Board) (s : Side) : Bool := isUnderAttack b s

/-- Well-shapedness of a grid: 10 rows of 9 columns, as built by init
and maintained by every mutation. -/
def shapedB (g : Grid) : Bool :=
  (g.length == 10) && g.all (fun row => row.length == 9)

/-- Consistency of the king-position cache with the grid: every king in
the grid is where the cache says it is. -/
def cacheOkB (b : Board) : Bool :=
  (List.range 10).all (fun r =>
    (List.range 9).all (fun c =>
      match gridGet b.grid (Int.ofNat r) (Int.ofNat c) with
      | some p =>
        if p.type = PieceType.king then
          b.kingPos p.side == some ⟨(r : Int), (c : Int)⟩
        else true
      | none => true))

/-- Data-model well-formedness of a board: shaped grid plus a king
cache consistent with the grid. -/
def boardWF (b : Board) : Bool :=
  shapedB b.grid && cacheOkB b

/-- Absence of a given side's king anywhere on the grid (test
positions). -/
def noKingB (b : Board) (s : Side) : Bool :=
  (List.range 10).all (fun r =>
    (List.range 9).all (fun c =>
      match gridGet b.grid (Int.ofNat r) (Int.ofNat c) with
      | some p => decide (¬(p.side = s ∧ p.type = PieceType.king))
      | none => true))

/-- A small test board used as a witness: a lone red king faces a
black rook, black has no king.  Built through fromJSON so the
metadata is the one the deserializer computes. -/
def kinglessBoard : Board :=
  fromJSON
    { grid := emptyGrid, hash := 0, pieceCount := 0,
      kingRed := none, kingBlack := none }
    (gridSet (gridSet emptyGrid 9 4 (some ⟨PieceType.king, Side.red⟩))
      0 0 (some ⟨PieceType.rook, Side.black⟩))

/-- Zobrist key contribution of an optional cell content. -/
def keyOpt (v : Option Piece) (r c : Int) : Nat :=
  match v with
  | some p => pieceKeyAt p r c
  | none => 0

/-- XOR-fold of a weight over a list. -/
def xList (w : Nat → Nat) (l : List Nat) : Nat :=
  l.foldl (fun h x => h ^^^ w x) 0

/-- Per-cell key of a grid at Nat coordinates. -/
def cellKey (g : Grid) (r c : Nat) : Nat :=
  keyOpt (gridGet g (Int.ofNat r) (Int.ofNat c)) (Int.ofNat r) (Int.ofNat c)

/-- Per-row XOR of the cell keys. -/
def rowKey (g : Grid) (r : Nat) : Nat := xList (cellKey g r) (List.range 9)

/-- A board mutation: a movePiece call or an undoMove call. -/
inductive BOp where
  | mv (fromRow fromCol toRow toCol : Int)
  | un (mr : MoveRecord)
deriving DecidableEq, Repr

/-- Application of one mutation to a board (movePiece's returned
captured piece is dropped; undoMove's record is carried by the op). -/
def applyOp (b : Board) : BOp → Board
  | .mv fr fc tr tc => (movePiece b fr fc tr tc).1
  | .un mr => undoMove b mr

/-- Validity of one mutation: coordinates on the board, and an undo
only into a vacated origin square (as the records produced by a
matching movePiece guarantee). -/
def opValidB (b : Board) : BOp → Bool
  | .mv fr fc tr tc => isInBoard fr fc && isInBoard tr tc
  | .un mr => isInBoard mr.fromRow mr.fromCol && isInBoard mr.toRow mr.toCol &&
      (gridGet b.grid mr.fromRow mr.fromCol).isNone

/-- Validity of a whole mutation sequence. -/
def traceValidB : Board → List BOp → Bool
  | _, [] => true
  | b, op :: rest => opValidB b op && traceValidB (applyOp b op) rest

/-- Sequential application of a mutation sequence. -/
def applyTrace (b : Board) (ops : List BOp) : Board := ops.foldl applyOp b

/-- Serialized grid with two kings of the same side (row-major scan
meets (8,3) before (9,4)): an inconsistent board description. -/
def twoKingsData : Grid :=
  gridSet (gridSet emptyGrid 8 3 (some ⟨PieceType.king, Side.red⟩))
    9 4 (some ⟨PieceType.king, Side.red⟩)

/-- Transposition-table flags (zobrist.js EXACT / ALPHA_FLAG /
BETA_FLAG): ALPHA_FLAG marks an upper bound, BETA_FLAG a lower bound. -/
inductive TTFlag where
  | exact
  | alphaFlag
  | betaFlag
deriving DecidableEq, Repr

/-- JavaScript number used as a search score: an integer or one of the
two infinities. -/
inductive Score where
  | ninf
  | fin (n : Int)
  | pinf
deriving DecidableEq, Repr

/-- JS `<=` on scores. -/
def Score.leB : Score → Score → Bool
  | .ninf, _ => true
  | _, .pinf => true
  | .fin a, .fin b => decide (a ≤ b)
  | .pinf, _ => false
  | .fin _, .ninf => false

/-- JS `<` on scores. -/
def Score.ltB : Score → Score → Bool
  | .ninf, .ninf => false
  | .ninf, _ => true
  | .fin _, .pinf => true
  | .fin a, .fin b => decide (a < b)
  | .fin _, .ninf => false
  | .pinf, _ => false

/-- JS unary minus on scores. -/
def Score.neg : Score → Score
  | .ninf => .pinf
  | .fin n => .fin (-n)
  | .pinf => .ninf

/-- JS addition of an integer to a score (infinities absorb). -/
def Score.addInt : Score → Int → Score
  | .ninf, _ => .ninf
  | .fin n, k => .fin (n + k)
  | .pinf, _ => .pinf

/-- A transposition-table entry. -/
structure TTEntry where
  hash : Nat
  depth : Nat
  score : Score
  flag : TTFlag
  bestMove : Option Move
  age : Nat
deriving DecidableEq, Repr

/-- Table size: 2^20 direct-mapped slots. -/
def TT_SIZE : Nat := 1048576

/-- Low-bits mask for the slot index. -/
def TT_MASK : Nat := TT_SIZE - 1

/-- The transposition table: a direct-mapped slot array (modelled as a
function from slot index) plus the current search age. -/
structure TranspositionTable where
  entries : Nat → Option TTEntry
  age : Nat

/-- Empty transposition table (constructor / clear). -/
def TranspositionTable.empty : TranspositionTable :=
  { entries := fun _ => none, age := 0 }

/-- TranspositionTable.newSearch: advance the age. -/
def TranspositionTable.newSearch (tt : TranspositionTable) :
    TranspositionTable := { tt with age := tt.age + 1 }

/-- Result object of a successful probe: the stored move for ordering,
and a score only when the depth/flag/window conditions allow. -/
structure ProbeResult where
  bestMove : Option Move
  score : Option Score
deriving DecidableEq, Repr

/-- TranspositionTable.probe: null on miss or hash mismatch; otherwise
the best move, plus a score when the entry is deep enough and its flag
fits the window — EXACT yields the stored score, ALPHA_FLAG yields
alpha when the stored score is at most alpha, BETA_FLAG yields beta
when the stored score is at least beta. -/
def TranspositionTable.probe (tt : TranspositionTable) (hash : Nat)
    (depth : Nat) (alpha beta : Score) : Option ProbeResult :=
  match tt.entries (hash &&& TT_MASK) with
  | none => none
  | some entry =>
    if entry.hash ≠ hash then none
    else
      let result : ProbeResult := { bestMove := entry.bestMove, score := none }
      let result :=
        if entry.depth ≥ depth then
          if entry.flag = TTFlag.exact then
            { result with score := some entry.score }
          else if entry.flag = TTFlag.alphaFlag ∧
              Score.leB entry.score alpha = true then
            { result with score := some alpha }
          else if entry.flag = TTFlag.betaFlag ∧
              Score.leB beta entry.score = true then
            { result with score := some beta }
          else result
        else result
      some result

/-- TranspositionTable.store with the source's replacement policy:
empty slot, same position, stale age, or at-least-as-deep new entry. -/
def TranspositionTable.store (tt : TranspositionTable) (hash : Nat)
    (depth : Nat) (score : Score) (flag : TTFlag) (bestMove : Option Move) :
    TranspositionTable :=
  let idx := hash &&& TT_MASK
  let fresh : TTEntry := ⟨hash, depth, score, flag, bestMove, tt.age⟩
  match tt.entries idx with
  | none =>
    { tt with entries := fun i => if i = idx then some fresh else tt.entries i }
  | some existing =>
    if existing.hash = hash ∨ existing.age ≠ tt.age ∨ existing.depth ≤ depth then
      { tt with entries := fun i => if i = idx then some fresh else tt.entries i }
    else tt

/-- Key of the history-heuristic object:
`side_fromRow_fromCol_toRow_toCol`. -/
abbrev HKey := Side × Int × Int × Int × Int

/-- AIEngine.storeHistory: add depth squared to the keyed counter
(missing keys read as 0); the source applies no saturation. -/
def storeHistory (h : HKey → Int) (s : Side) (m : Move) (depth : Int) :
    HKey → Int :=
  fun k =>
    if k = (s, m.fromRow, m.fromCol, m.toRow, m.toCol) then
      h (s, m.fromRow, m.fromCol, m.toRow, m.toCol) + depth * depth
    else h k

/-- AIEngine.getHistory. -/
def getHistory (h : HKey → Int) (s : Side) (m : Move) : Int :=
  h (s, m.fromRow, m.fromCol, m.toRow, m.toCol)

/-- Repeated β-cutoff bookkeeping: n storeHistory calls for the same
side, move and depth. -/
def iterStoreHistory (s : Side) (m : Move) (d : Int) :
    Nat → (HKey → Int) → (HKey → Int)
  | 0, h => h
  | n + 1, h => storeHistory (iterStoreHistory s m d n h) s m d

/-- Dark-chess board dimensions (constants.js DC_ROWS / DC_COLS). -/
def DC_ROWS : Int := 4

/-- Dark-chess board dimensions (constants.js DC_ROWS / DC_COLS). -/
def DC_COLS : Int := 8

/-- Dark-chess rank hierarchy (constants.js DC_RANKS, lower = higher
rank). -/
def DC_RANKS : PieceType → Nat
  | .king => 1
  | .advisor => 2
  | .elephant => 3
  | .rook => 4
  | .horse => 5
  | .cannon => 6
  | .pawn => 7

/-- A dark-chess cell content: `{ type, side, revealed }`. -/
structure DCPiece where
  type : PieceType
  side : Side
  revealed : Bool
deriving DecidableEq, Repr, Fintype

/-- Dark-chess board: the 4x8 grid. -/
structure DCBoard where
  grid : List (List (Option DCPiece))
deriving DecidableEq

/-- Raw dark-chess grid read. -/
def dcGridGet (b : DCBoard) (r c : Int) : Option DCPiece :=
  (List.getD (List.getD b.grid r.toNat []) c.toNat none)

/-- DarkBoardLogic.isInBoard. -/
def dcIsInBoard (r c : Int) : Bool :=
  decide (0 ≤ r) && decide (r < DC_ROWS) && decide (0 ≤ c) && decide (c < DC_COLS)

/-- DarkBoardLogic.getPiece: bounds-checked read. -/
def dcGetPiece (b : DCBoard) (r c : Int) : Option DCPiece :=
  if dcIsInBoard r c then dcGridGet b r c else none

/-- dark-moves.js canCapture: cannons never capture by rank; a pawn
captures the king; the king cannot capture a pawn; otherwise lower or
equal rank number captures. -/
def canCapture (attacker defender : DCPiece) : Bool :=
  if attacker.type = PieceType.cannon then false
  else if attacker.type = PieceType.pawn ∧ defender.type = PieceType.king then
    true
  else if attacker.type = PieceType.king ∧ defender.type = PieceType.pawn then
    false
  else DC_RANKS attacker.type ≤ DC_RANKS defender.type

/-- Occupied-cell count of the source's horizontal screen loop: cells
of row r strictly between columns c1 and c2 (for c1 < c2). -/
def occCountCols (b : DCBoard) (r c1 c2 : Int) : Nat :=
  (List.range (c2 - c1 - 1).toNat).countP
    (fun (i : Nat) => (dcGetPiece b r (c1 + 1 + (i : Int))).isSome)

/-- Occupied-cell count of the source's vertical screen loop: cells of
column c strictly between rows r1 and r2 (for r1 < r2). -/
def occCountRows (b : DCBoard) (c r1 r2 : Int) : Nat :=
  (List.range (r2 - r1 - 1).toNat).countP
    (fun (i : Nat) => (dcGetPiece b (r1 + 1 + (i : Int)) c).isSome)

/-- dark-moves.js cannonCanCapture: straight line, not the same cell,
at least one cell between, and exactly one occupied cell strictly
between origin and target. -/
def cannonCanCapture (b : DCBoard) (fromRow fromCol toRow toCol : Int) : Bool :=
  if fromRow ≠ toRow ∧ fromCol ≠ toCol then false
  else if fromRow = toRow ∧ fromCol = toCol then false
  else if fromRow = toRow then
    let minC := min fromCol toCol
    let maxC := max fromCol toCol
    if maxC - minC < 2 then false
    else occCountCols b fromRow minC maxC == 1
  else
    let minR := min fromRow toRow
    let maxR := max fromRow toRow
    if maxR - minR < 2 then false
    else occCountRows b fromCol minR maxR == 1

/-- A dark-chess action as produced by generateDarkChessMoves. -/
inductive DCAction where
  | flip (row col : Int)
  | move (fromRow fromCol toRow toCol : Int)
  | capture (fromRow fromCol toRow toCol : Int)
deriving DecidableEq, Repr

/-- The cannon's jump scan of generateDarkChessMoves along one
direction: the first piece met becomes the screen (`jumped` 0 to 1),
the second terminates the scan and is captured when it is a revealed
enemy.  Fuel bounds the `while` loop and exceeds the 4x8 board span. -/
def dcCannonRay (b : DCBoard) (s : Side) (fr fc dr dc : Int) :
    Int → Int → Nat → Nat → List DCAction
  | _, _, _, 0 => []
  | r, c, jumped, fuel + 1 =>
    if dcIsInBoard r c then
      match dcGetPiece b r c with
      | some t =>
        if jumped = 0 then dcCannonRay b s fr fc dr dc (r + dr) (c + dc) 1 fuel
        else
          if t.revealed = true ∧ t.side ≠ s then [DCAction.capture fr fc r c]
          else []
      | none => dcCannonRay b s fr fc dr dc (r + dr) (c + dc) jumped fuel
    else []

/-- Actions of one piece cell in generateDarkChessMoves: flip when
unrevealed; for an own revealed piece the four adjacent moves/captures
(rank-gated, cannons excluded), plus the cannon's four jump scans. -/
def dcCellActions (b : DCBoard) (s : Side) (r c : Int) : List DCAction :=
  match dcGetPiece b r c with
  | none => []
  | some piece =>
    if piece.revealed ≠ true then [DCAction.flip r c]
    else if piece.side ≠ s then []
    else
      let adj := [((-1 : Int), (0 : Int)), (1, 0), (0, -1), (0, 1)].filterMap
        (fun d =>
          let nr := r + d.1
          let nc := c + d.2
          if ¬ dcIsInBoard nr nc then none
          else
            match dcGetPiece b nr nc with
            | none => some (DCAction.move r c nr nc)
            | some target =>
              if target.revealed = true ∧ target.side ≠ s then
                if piece.type ≠ PieceType.cannon ∧
                    canCapture piece target = true then
                  some (DCAction.capture r c nr nc)
                else none
              else none)
      let jumps :=
        if piece.type = PieceType.cannon then
          [((-1 : Int), (0 : Int)), (1, 0), (0, -1), (0, 1)].flatMap
            (fun d => dcCannonRay b s r c d.1 d.2 (r + d.1) (c + d.2) 0 16)
        else []
      adj ++ jumps

/-- dark-moves.js generateDarkChessMoves: row-major scan emitting each
cell's actions. -/
def generateDarkChessMoves (b : DCBoard) (s : Side) : List DCAction :=
  (List.range 4).flatMap (fun r =>
    (List.range 8).flatMap (fun c =>
      dcCellActions b s (Int.ofNat r) (Int.ofNat c)))

/-- A small dark-chess position: a revealed red cannon at (0,0), a
screen at (0,3) and a revealed black rook at (0,6). -/
def dcDemoBoard : DCBoard :=
  ⟨[[some ⟨PieceType.cannon, Side.red, true⟩, none, none,
     some ⟨PieceType.pawn, Side.red, true⟩, none, none,
     some ⟨PieceType.rook, Side.black, true⟩, none],
    [none, none, none, none, none, none, none, none],
    [none, none, none, none, none, none, none, none],
    [none, none, none, none, none, none, none, none]]⟩


/-- JS `x >> 8` on in-range values: arithmetic shift, i.e. flooring
division by 256 (also on negatives). -/
def sar8 (x : Int) : Int := Int.ediv x 256

/-- constants.js PIECE_VALUES. -/
def PIECE_VALUES : PieceType → Int
  | .king => 10000
  | .rook => 900
  | .cannon => 450
  | .horse => 450
  | .elephant => 200
  | .advisor => 200
  | .pawn => 100

/-- constants.js PST: middlegame piece-square tables, from Red's
perspective. -/
def PST : PieceType → List (List Int)
  | .king =>
    [[0, 0, 0, 0, 0, 0, 0, 0, 0], [0, 0, 0, 0, 0, 0, 0, 0, 0],
     [0, 0, 0, 0, 0, 0, 0, 0, 0], [0, 0, 0, 0, 0, 0, 0, 0, 0],
     [0, 0, 0, 0, 0, 0, 0, 0, 0], [0, 0, 0, 0, 0, 0, 0, 0, 0],
     [0, 0, 0, 0, 0, 0, 0, 0, 0], [0, 0, 0, 1, 5, 1, 0, 0, 0],
     [0, 0, 0, 2, 8, 2, 0, 0, 0], [0, 0, 0, 11, 15, 11, 0, 0, 0]]
  | .advisor =>
    [[0, 0, 0, 0, 0, 0, 0, 0, 0], [0, 0, 0, 0, 0, 0, 0, 0, 0],
     [0, 0, 0, 0, 0, 0, 0, 0, 0], [0, 0, 0, 0, 0, 0, 0, 0, 0],
     [0, 0, 0, 0, 0, 0, 0, 0, 0], [0, 0, 0, 0, 0, 0, 0, 0, 0],
     [0, 0, 0, 0, 0, 0, 0, 0, 0], [0, 0, 0, 20, 0, 20, 0, 0, 0],
     [0, 0, 0, 0, 23, 0, 0, 0, 0], [0, 0, 0, 20, 0, 20, 0, 0, 0]]
  | .elephant =>
    [[0, 0, 0, 0, 0, 0, 0, 0, 0], [0, 0, 0, 0, 0, 0, 0, 0, 0],
     [0, 0, 0, 0, 0, 0, 0, 0, 0], [0, 0, 0, 0, 0, 0, 0, 0, 0],
     [0, 0, 0, 0, 0, 0, 0, 0, 0], [0, 0, 20, 0, 0, 0, 20, 0, 0],
     [0, 0, 0, 0, 0, 0, 0, 0, 0], [18, 0, 0, 0, 23, 0, 0, 0, 18],
     [0, 0, 0, 0, 0, 0, 0, 0, 0], [0, 0, 20, 0, 0, 0, 20, 0, 0]]
  | .rook =>
    [[194, 206, 204, 212, 200, 212, 204, 206, 194],
     [200, 208, 206, 212, 200, 212, 206, 208, 200],
     [198, 208, 204, 212, 200, 212, 204, 208, 198],
     [204, 209, 204, 212, 200, 212, 204, 209, 204],
     [208, 212, 212, 214, 208, 214, 212, 212, 208],
     [208, 212, 212, 214, 208, 214, 212, 212, 208],
     [204, 209, 204, 212, 200, 212, 204, 209, 204],
     [198, 208, 204, 212, 200, 212, 204, 208, 198],
     [200, 208, 206, 212, 200, 212, 206, 208, 200],
     [194, 206, 204, 212, 200, 212, 204, 206, 194]]
  | .horse =>
    [[88, 85, 90, 88, 90, 88, 90, 85, 88],
     [85, 90, 92, 93, 78, 93, 92, 90, 85],
     [93, 92, 94, 95, 92, 95, 94, 92, 93],
     [92, 94, 98, 100, 96, 100, 98, 94, 92],
     [90, 98, 101, 102, 103, 102, 101, 98, 90],
     [90, 98, 101, 102, 103, 102, 101, 98, 90],
     [92, 94, 98, 100, 96, 100, 98, 94, 92],
     [93, 92, 94, 95, 92, 95, 94, 92, 93],
     [85, 90, 92, 93, 78, 93, 92, 90, 85],
     [88, 85, 90, 88, 90, 88, 90, 85, 88]]
  | .cannon =>
    [[100, 100, 98, 95, 94, 95, 98, 100, 100],
     [100, 102, 100, 98, 96, 98, 100, 102, 100],
     [98, 100, 100, 98, 100, 98, 100, 100, 98],
     [98, 102, 102, 104, 106, 104, 102, 102, 98],
     [98, 100, 100, 102, 106, 102, 100, 100, 98],
     [96, 98, 100, 98, 104, 98, 100, 98, 96],
     [96, 96, 98, 98, 100, 98, 98, 96, 96],
     [97, 96, 100, 99, 101, 99, 100, 96, 97],
     [96, 97, 98, 98, 98, 98, 98, 97, 96],
     [96, 96, 97, 99, 99, 99, 97, 96, 96]]
  | .pawn =>
    [[9, 9, 9, 11, 13, 11, 9, 9, 9],
     [19, 24, 34, 42, 44, 42, 34, 24, 19],
     [19, 24, 32, 37, 37, 37, 32, 24, 19],
     [19, 23, 27, 29, 30, 29, 27, 23, 19],
     [14, 18, 20, 27, 29, 27, 20, 18, 14],
     [14, 18, 20, 27, 29, 27, 20, 18, 14],
     [10, 0, 13, 0, 18, 0, 13, 0, 10],
     [0, 0, 0, 0, 0, 0, 0, 0, 0], [0, 0, 0, 0, 0, 0, 0, 0, 0],
     [0, 0, 0, 0, 0, 0, 0, 0, 0]]

/-- constants.js PST_ENDGAME: endgame piece-square tables, from Red's
perspective. -/
def PST_ENDGAME : PieceType → List (List Int)
  | .king =>
    [[0, 0, 0, 0, 0, 0, 0, 0, 0], [0, 0, 0, 0, 0, 0, 0, 0, 0],
     [0, 0, 0, 0, 0, 0, 0, 0, 0], [0, 0, 0, 0, 0, 0, 0, 0, 0],
     [0, 0, 0, 0, 0, 0, 0, 0, 0], [0, 0, 0, 0, 0, 0, 0, 0, 0],
     [0, 0, 0, 0, 0, 0, 0, 0, 0], [0, 0, 0, 5, 8, 5, 0, 0, 0],
     [0, 0, 0, 8, 12, 8, 0, 0, 0], [0, 0, 0, 5, 8, 5, 0, 0, 0]]
  | .advisor =>
    [[0, 0, 0, 0, 0, 0, 0, 0, 0], [0, 0, 0, 0, 0, 0, 0, 0, 0],
     [0, 0, 0, 0, 0, 0, 0, 0, 0], [0, 0, 0, 0, 0, 0, 0, 0, 0],
     [0, 0, 0, 0, 0, 0, 0, 0, 0], [0, 0, 0, 0, 0, 0, 0, 0, 0],
     [0, 0, 0, 0, 0, 0, 0, 0, 0], [0, 0, 0, 25, 0, 25, 0, 0, 0],
     [0, 0, 0, 0, 30, 0, 0, 0, 0], [0, 0, 0, 25, 0, 25, 0, 0, 0]]
  | .elephant =>
    [[0, 0, 0, 0, 0, 0, 0, 0, 0], [0, 0, 0, 0, 0, 0, 0, 0, 0],
     [0, 0, 0, 0, 0, 0, 0, 0, 0], [0, 0, 0, 0, 0, 0, 0, 0, 0],
     [0, 0, 0, 0, 0, 0, 0, 0, 0], [0, 0, 22, 0, 0, 0, 22, 0, 0],
     [0, 0, 0, 0, 0, 0, 0, 0, 0], [20, 0, 0, 0, 25, 0, 0, 0, 20],
     [0, 0, 0, 0, 0, 0, 0, 0, 0], [0, 0, 22, 0, 0, 0, 22, 0, 0]]
  | .rook =>
    [[200, 210, 208, 216, 206, 216, 208, 210, 200],
     [206, 214, 212, 218, 206, 218, 212, 214, 206],
     [204, 214, 210, 218, 206, 218, 210, 214, 204],
     [210, 215, 210, 218, 206, 218, 210, 215, 210],
     [214, 218, 218, 220, 214, 220, 218, 218, 214],
     [214, 218, 218, 220, 214, 220, 218, 218, 214],
     [210, 215, 210, 218, 206, 218, 210, 215, 210],
     [204, 214, 210, 218, 206, 218, 210, 214, 204],
     [206, 214, 212, 218, 206, 218, 212, 214, 206],
     [200, 210, 208, 216, 206, 216, 208, 210, 200]]
  | .horse =>
    [[85, 82, 87, 85, 87, 85, 87, 82, 85],
     [82, 87, 90, 92, 76, 92, 90, 87, 82],
     [90, 90, 92, 94, 90, 94, 92, 90, 90],
     [90, 92, 97, 99, 95, 99, 97, 92, 90],
     [88, 97, 100, 102, 103, 102, 100, 97, 88],
     [88, 97, 100, 102, 103, 102, 100, 97, 88],
     [90, 92, 97, 99, 95, 99, 97, 92, 90],
     [90, 90, 92, 94, 90, 94, 92, 90, 90],
     [82, 87, 90, 92, 76, 92, 90, 87, 82],
     [85, 82, 87, 85, 87, 85, 87, 82, 85]]
  | .cannon =>
    [[90, 90, 88, 85, 84, 85, 88, 90, 90],
     [90, 92, 90, 88, 86, 88, 90, 92, 90],
     [88, 90, 90, 88, 90, 88, 90, 90, 88],
     [88, 92, 92, 94, 96, 94, 92, 92, 88],
     [88, 90, 90, 92, 96, 92, 90, 90, 88],
     [86, 88, 90, 88, 94, 88, 90, 88, 86],
     [86, 86, 88, 88, 90, 88, 88, 86, 86],
     [87, 86, 90, 89, 91, 89, 90, 86, 87],
     [86, 87, 88, 88, 88, 88, 88, 87, 86],
     [86, 86, 87, 89, 89, 89, 87, 86, 86]]
  | .pawn =>
    [[12, 12, 12, 15, 18, 15, 12, 12, 12],
     [25, 30, 42, 52, 55, 52, 42, 30, 25],
     [25, 30, 40, 46, 46, 46, 40, 30, 25],
     [24, 28, 34, 36, 38, 36, 34, 28, 24],
     [18, 22, 25, 32, 35, 32, 25, 22, 18],
     [18, 22, 25, 32, 35, 32, 25, 22, 18],
     [12, 0, 15, 0, 20, 0, 15, 0, 12],
     [0, 0, 0, 0, 0, 0, 0, 0, 0], [0, 0, 0, 0, 0, 0, 0, 0, 0],
     [0, 0, 0, 0, 0, 0, 0, 0, 0]]

/-- constants.js PHASE_WEIGHTS. -/
def PHASE_WEIGHTS : PieceType → Int
  | .king => 0
  | .advisor => 1
  | .elephant => 1
  | .rook => 5
  | .horse => 3
  | .cannon => 3
  | .pawn => 0

/-- constants.js TOTAL_PHASE. -/
def TOTAL_PHASE : Int := 28

/-- JS `table?.[r]?.[c] || 0`: out-of-range (including negative)
indices read as 0. -/
def tableGet (t : List (List Int)) (r c : Int) : Int :=
  if 0 ≤ r ∧ 0 ≤ c then (t.getD r.toNat []).getD c.toNat 0 else 0

/-- AIEngine.calcPhase: summed phase weights, scaled to 0..256.  The
float expression floor((current / 28) * 256) computes exactly
floor(current * 256 / 28) for every reachable piece count. -/
def calcPhase (ownPieces oppPieces : List PP) : Int :=
  let current := ownPieces.foldl (fun a p => a + PHASE_WEIGHTS p.type) 0
  let current := oppPieces.foldl (fun a p => a + PHASE_WEIGHTS p.type) current
  min 256 (Int.ediv (current * 256) TOTAL_PHASE)

/-- AIEngine.taperedPST: middlegame/endgame table blend; Black reads
the tables with the row mirrored. -/
def taperedPST (p : PP) (s : Side) (phase : Int) : Int :=
  let row := if s = Side.red then p.row else 9 - p.row
  let mgVal := tableGet (PST p.type) row p.col
  let egVal := tableGet (PST_ENDGAME p.type) row p.col
  sar8 (mgVal * phase + egVal * (256 - phase))

/-- AIEngine.evalKingSafety (the unused board and side parameters are
dropped): defender material, completeness bonus and missing-defender
penalty against enemy heavy pieces. -/
def evalKingSafety (pieces enemyPieces : List PP) : Int :=
  let t := pieces.foldl (fun (acc : Int × Int × Int) p =>
    let acc := if p.type = PieceType.advisor then
      (acc.1 + 20, acc.2.1 + 1, acc.2.2) else acc
    if p.type = PieceType.elephant then
      (acc.1 + 12, acc.2.1, acc.2.2 + 1) else acc)
    ((0 : Int), (0 : Int), (0 : Int))
  let safety := t.1
  let advisors := t.2.1
  let elephants := t.2.2
  let safety := if advisors = 2 then safety + 25 else safety
  let safety := if elephants = 2 then safety + 15 else safety
  let enemyHeavy : Int := (enemyPieces.filter (fun p =>
    p.type = PieceType.rook ∨ p.type = PieceType.cannon)).length
  let safety := if advisors = 0 ∧ enemyHeavy > 0 then safety - 40 else safety
  if elephants = 0 ∧ enemyHeavy > 0 then safety - 25 else safety

/-- AIEngine.evalActivity: bonus for rooks, horses and cannons that
crossed the river. -/
def evalActivity (pieces : List PP) (s : Side) : Int :=
  pieces.foldl (fun acc p =>
    let crossed := if s = Side.red then decide (p.row ≤ 4) else decide (p.row ≥ 5)
    if crossed then
      if p.type = PieceType.rook then acc + 30
      else if p.type = PieceType.horse then acc + 20
      else if p.type = PieceType.cannon then acc + 15
      else acc
    else acc) 0

/-- AIEngine.evalKingTropism: heavy pieces close to the enemy king. -/
def evalKingTropism (pieces : List PP) (enemyKing : Pos) : Int :=
  pieces.foldl (fun acc p =>
    if p.type = PieceType.rook ∨ p.type = PieceType.cannon ∨
        p.type = PieceType.horse then
      let dist : Int := ((p.row - enemyKing.row).natAbs : Int) +
        ((p.col - enemyKing.col).natAbs : Int)
      acc + max 0 (14 - dist) * 2
    else acc) 0

/-- The i < j double loop of evalPawnStructure: 15 per unordered pair
of same-row pawns on adjacent files. -/
def pawnPairs : List PP → Int
  | [] => 0
  | p :: ps =>
    ((ps.filter (fun q => q.row = p.row ∧ (p.col - q.col).natAbs = 1)).length :
      Int) * 15 + pawnPairs ps

/-- AIEngine.evalPawnStructure: connected-pawn bonus. -/
def evalPawnStructure (pieces : List PP) : Int :=
  pawnPairs (pieces.filter (fun p => p.type = PieceType.pawn))

/-- AIEngine.evalRookFiles: bonus for rooks on files with no own
pawn. -/
def evalRookFiles (b : Board) (pieces : List PP) (s : Side) : Int :=
  pieces.foldl (fun acc p =>
    if p.type = PieceType.rook then
      let ownPawnsOnFile := (List.range 10).countP (fun r =>
        match getPiece b (Int.ofNat r) p.col with
        | some q => decide (q.type = PieceType.pawn ∧ q.side = s)
        | none => false)
      if ownPawnsOnFile = 0 then acc + 20 else acc
    else acc) 0

/-- AIEngine.evalCannon: piece-count scaling plus screen
availability on the cannon's rank and file. -/
def evalCannon (b : Board) (pieces : List PP) (totalPieces : Int) : Int :=
  pieces.foldl (fun acc p =>
    if p.type = PieceType.cannon then
      let acc := acc + (totalPieces - 16) * 2
      let screensR := (List.range 10).countP (fun r =>
        decide ((Int.ofNat r) ≠ p.row) && (getPiece b (Int.ofNat r) p.col).isSome)
      let screensC := (List.range 9).countP (fun c =>
        decide ((Int.ofNat c) ≠ p.col) && (getPiece b p.row (Int.ofNat c)).isSome)
      let screens : Int := (screensR : Int) + (screensC : Int)
      acc + min screens 4 * 5
    else acc) 0

/-- AIEngine.evalHorseMobility: blocked orthogonal legs. -/
def evalHorseMobility (b : Board) (pieces : List PP) : Int :=
  pieces.foldl (fun acc p =>
    if p.type = PieceType.horse then
      let blocked : Int :=
        (([((-1 : Int), (0 : Int)), (1, 0), (0, -1), (0, 1)].filter
          (fun d => isInBoard (p.row + d.1) (p.col + d.2) &&
            (getPiece b (p.row + d.1) (p.col + d.2)).isSome)).length : Int)
      acc + (12 - blocked * 8)
    else acc) 0

/-- The while loop of evalKingExposure: walk forward along the king's
file, award 40 for a first-line enemy rook and 35 for a one-screen
enemy cannon, stop at the second blocker.  Fuel exceeds the board
height. -/
def exposureWalk (b : Board) (col : Int) (oppS : Side) (forward : Int) :
    Int → Int → Int → Nat → Int
  | _, _, pen, 0 => pen
  | r, blockers, pen, fuel + 1 =>
    if decide (0 ≤ r) && decide (r < 10) then
      match getPiece b r col with
      | some p =>
        let pen := if p.side = oppS ∧ p.type = PieceType.rook ∧ blockers = 0
          then pen + 40 else pen
        let pen := if p.side = oppS ∧ p.type = PieceType.cannon ∧ blockers = 1
          then pen + 35 else pen
        let blockers := blockers + 1
        if blockers ≥ 2 then pen
        else exposureWalk b col oppS forward (r + forward) blockers pen fuel
      | none => exposureWalk b col oppS forward (r + forward) blockers pen fuel
    else pen

/-- AIEngine.evalKingExposure: penalty for enemy rooks and cannons on
the king's file. -/
def evalKingExposure (b : Board) (kingPos : Pos) (s : Side) : Int :=
  let oppS := s.opp
  let forward : Int := if s = Side.red then -1 else 1
  exposureWalk b kingPos.col oppS forward (kingPos.row + forward) 0 0 16

/-- AIEngine.evaluate.  `randomness` is the difficulty jitter setting;
`jit` stands for the sampled `floor(random() * randomness * 2)`. -/
def evaluate (b : Board) (s : Side) (randomness : Int) (jit : Int) : Int :=
  let oppSide := s.opp
  let ownPieces := getPieces b s
  let oppPieces := getPieces b oppSide
  let phase := calcPhase ownPieces oppPieces
  let totalPieces : Int := ownPieces.length + oppPieces.length
  let score : Int := ownPieces.foldl (fun acc p =>
    acc + PIECE_VALUES p.type + taperedPST p s phase) 0
  let score := oppPieces.foldl (fun acc p =>
    acc - PIECE_VALUES p.type - taperedPST p oppSide phase) score
  let score := if isInCheck b oppSide then score + 200 else score
  let kingSafety := evalKingSafety ownPieces oppPieces -
    evalKingSafety oppPieces ownPieces
  let score := score + sar8 (kingSafety * phase)
  let score := score + evalActivity ownPieces s - evalActivity oppPieces oppSide
  let oppKing := findKing b oppSide
  let ownKing := findKing b s
  let score := match oppKing with
    | some k => score + evalKingTropism ownPieces k
    | none => score
  let score := match ownKing with
    | some k => score - evalKingTropism oppPieces k
    | none => score
  let score := score + evalPawnStructure ownPieces - evalPawnStructure oppPieces
  let score := score + evalRookFiles b ownPieces s -
    evalRookFiles b oppPieces oppSide
  let score := score + evalCannon b ownPieces totalPieces -
    evalCannon b oppPieces totalPieces
  let score := score + evalHorseMobility b ownPieces -
    evalHorseMobility b oppPieces
  let score := match ownKing with
    | some k => score - evalKingExposure b k s
    | none => score
  let score := match oppKing with
    | some k => score + evalKingExposure b k oppSide
    | none => score
  if randomness > 0 then score + jit - randomness else score

/-- Recolouring of one piece for the mirror transform. -/
def mirrorPiece (p : Piece) : Piece := ⟨p.type, p.side.opp⟩

/-- Mirror of a grid: recolour every piece and flip the rows
vertically. -/
def mirrorGrid (g : Grid) : Grid :=
  (g.map (fun row => row.map (fun cell => cell.map mirrorPiece))).reverse

/-- Row flip of a cached position. -/
def mirrorPos (p : Pos) : Pos := ⟨9 - p.row, p.col⟩

/-- Mirror of a board: mirrored grid, swapped and flipped king cache,
hash recomputed for the mirrored grid. -/
def mirrorBoard (b : Board) : Board :=
  { grid := mirrorGrid b.grid, hash := computeHash (mirrorGrid b.grid),
    pieceCount := b.pieceCount,
    kingRed := b.kingBlack.map mirrorPos,
    kingBlack := b.kingRed.map mirrorPos }

/-- Mirror transform of a getPieces entry. -/
def mirrorPP (p : PP) : PP := ⟨p.type, p.side.opp, 9 - p.row, p.col⟩

/-- Evaluation demo position: black king (0,3), red rook (1,3), red
king (9,4); Black is in check, Red is not. -/
def evalDemoGrid : Grid :=
  [[none, none, none, some ⟨PieceType.king, Side.black⟩, none, none, none,
    none, none],
   [none, none, none, some ⟨PieceType.rook, Side.red⟩, none, none, none,
    none, none],
   [none, none, none, none, none, none, none, none, none],
   [none, none, none, none, none, none, none, none, none],
   [none, none, none, none, none, none, none, none, none],
   [none, none, none, none, none, none, none, none, none],
   [none, none, none, none, none, none, none, none, none],
   [none, none, none, none, none, none, none, none, none],
   [none, none, none, none, none, none, none, none, none],
   [none, none, none, none, some ⟨PieceType.king, Side.red⟩, none, none, none,
    none]]

/-- The demo position as a board with correct caches. -/
def evalDemoBoard : Board :=
  { grid := evalDemoGrid, hash := computeHash evalDemoGrid, pieceCount := 3,
    kingRed := some ⟨9, 4⟩, kingBlack := some ⟨0, 3⟩ }


/-- part_011 FUTILITY_MARGIN. -/
def FUTILITY_MARGIN : List Int := [0, 200, 450, 700]

/-- AI difficulty levels. -/
inductive Difficulty where
  | beginner
  | easy
  | medium
  | hard
  | master
deriving DecidableEq, Repr

/-- One difficulty configuration record of constants.js
AI_DIFFICULTY. -/
structure DiffCfg where
  depth : Int
  quiesceDepth : Int
  randomness : Int
deriving DecidableEq, Repr

/-- constants.js AI_DIFFICULTY. -/
def AI_DIFFICULTY : Difficulty → DiffCfg
  | .beginner => ⟨3, 2, 150⟩
  | .easy => ⟨4, 3, 30⟩
  | .medium => ⟨5, 4, 0⟩
  | .hard => ⟨6, 5, 0⟩
  | .master => ⟨8, 6, 0⟩

/-- part_011 TIME_LIMIT (ms per difficulty). -/
def TIME_LIMIT : Difficulty → Int
  | .beginner => 1000
  | .easy => 2000
  | .medium => 3000
  | .hard => 5000
  | .master => 10000

/-- Mutable fields of the AIEngine object, threaded explicitly. -/
structure AIEngine where
  nodesSearched : Nat
  maxDepth : Int
  quiesceDepth : Int
  randomness : Int
  tt : TranspositionTable
  killerMoves : Nat → Option (Option Move × Option Move)
  history : HKey → Int
  aborted : Bool
  rngIdx : Nat

/-- Environment oracles: the time checks (performance.now against the
limit, sampled at a node count or a deepening step) and the
Math.random jitter draws. -/
structure Oracles where
  timeOver : Nat → Bool
  deepenOver : Int → Bool
  rand : Nat → Int

/-- An engine evaluate call: consumes one random draw when the
difficulty has randomness. -/
def engineEval (o : Oracles) (es : AIEngine) (b : Board) (side : Side) :
    Int × AIEngine :=
  if es.randomness > 0 then
    (evaluate b side es.randomness (o.rand es.rngIdx),
     { es with rngIdx := es.rngIdx + 1 })
  else (evaluate b side es.randomness 0, es)

/-- AIEngine.movesEqual (null-tolerant move comparison). -/
def movesEqual : Option Move → Option Move → Bool
  | some a, some b =>
    decide (a.fromRow = b.fromRow) && decide (a.fromCol = b.fromCol) &&
    decide (a.toRow = b.toRow) && decide (a.toCol = b.toCol)
  | _, _ => false

/-- AIEngine.moveScore: priority move, MVV-LVA captures, killers, then
history. -/
def moveScore (h : HKey → Int) (b : Board) (move : Move)
    (priorityMove : Option Move) (killers : Option Move × Option Move)
    (side : Side) : Int :=
  if movesEqual (some move) priorityMove then 100000
  else
    match getPiece b move.toRow move.toCol with
    | some victim =>
      50000 + PIECE_VALUES victim.type * 10 -
        (match getPiece b move.fromRow move.fromCol with
         | some attacker => PIECE_VALUES attacker.type
         | none => 0)
    | none =>
      if movesEqual (some move) killers.1 then 40000
      else if movesEqual (some move) killers.2 then 39000
      else getHistory h side move

/-- AIEngine.orderMoves: stable sort by descending moveScore (JS
Array.prototype.sort is stable). -/
def orderMoves (es : AIEngine) (b : Board) (moves : List Move)
    (priorityMove : Option Move) (ply : Nat) (side : Side) : List Move :=
  let killers := (es.killerMoves ply).getD (none, none)
  moves.mergeSort (fun m1 m2 =>
    moveScore es.history b m2 priorityMove killers side ≤
    moveScore es.history b m1 priorityMove killers side)

/-- AIEngine.storeKiller. -/
def storeKiller (es : AIEngine) (ply : Nat) (move : Move) : AIEngine :=
  let cur := (es.killerMoves ply).getD (none, none)
  if movesEqual cur.1 (some move) then es
  else { es with killerMoves := fun i =>
    (if i = ply then
      some (some ⟨move.fromRow, move.fromCol, move.toRow, move.toCol⟩, cur.1)
    else es.killerMoves i) }

/-- AIEngine.isEndgame: at most ten pieces on the board. -/
def isEndgame (b : Board) : Bool :=
  decide (((List.range 10).foldl (fun t r =>
    (List.range 9).foldl (fun t c =>
      if (getPiece b (Int.ofNat r) (Int.ofNat c)).isSome then t + 1 else t) t)
    (0 : Nat)) ≤ 10)

mutual

/-- AIEngine.quiesce: stand pat, delta pruning, captures (all moves
when in check).  The fuel argument bounds the recursion depth; a
truncated call returns without touching the board. -/
def quiesce (o : Oracles) : Nat → AIEngine → Board → Score → Score →
    Side → Int → (Score × Board × AIEngine)
  | 0, es, b, _, _, _, _ => (Score.fin 0, b, es)
  | f + 1, es, b, alpha, beta, side, maxDepth =>
    let spe := engineEval o es b side
    let standPat := spe.1
    let es := spe.2
    if maxDepth ≤ 0 then (Score.fin standPat, b, es)
    else if Score.leB beta (Score.fin standPat) then (beta, b, es)
    else
      let DELTA := PIECE_VALUES PieceType.rook + 200
      if Score.ltB (Score.fin (standPat + DELTA)) alpha then (alpha, b, es)
      else
        let alpha := if Score.ltB alpha (Score.fin standPat) then
          Score.fin standPat else alpha
        let inCheck := isInCheck b side
        let moves := generateAllLegalMoves b side
        let candidates :=
          if inCheck then moves
          else moves.filter (fun m =>
            match getPiece b m.toRow m.toCol with
            | some victim =>
              Score.ltB alpha (Score.fin (standPat + PIECE_VALUES victim.type + 200))
            | none => false)
        if candidates.length = 0 then (alpha, b, es)
        else
          let candidates := candidates.mergeSort (fun m1 m2 =>
            (match getPiece b m2.toRow m2.toCol with
             | some c2 => PIECE_VALUES c2.type
             | none => 0) ≤
            (match getPiece b m1.toRow m1.toCol with
             | some c1 => PIECE_VALUES c1.type
             | none => 0))
          let oppSide := side.opp
          quiesceLoop o f es b alpha beta side oppSide maxDepth candidates
termination_by f _ _ _ _ _ _ => (f, 0)

/-- The capture loop of quiesce: make, recurse, unmake, raise alpha,
cut at beta. -/
def quiesceLoop (o : Oracles) : Nat → AIEngine → Board → Score → Score →
    Side → Side → Int → List Move → (Score × Board × AIEngine)
  | _, es, b, alpha, _, _, _, _, [] => (alpha, b, es)
  | 0, es, b, alpha, _, _, _, _, _ :: _ => (alpha, b, es)
  | f + 1, es, b, alpha, beta, side, oppSide, maxDepth, move :: rest =>
    let mv := movePiece b move.fromRow move.fromCol move.toRow move.toCol
    let b1 := mv.1
    let captured := mv.2
    let q := quiesce o f es b1 (Score.neg beta) (Score.neg alpha) oppSide
      (maxDepth - 1)
    let score := Score.neg q.1
    let b2 := q.2.1
    let es := q.2.2
    let b3 := undoMove b2
      ⟨move.fromRow, move.fromCol, move.toRow, move.toCol, captured⟩
    if Score.leB beta score then (beta, b3, es)
    else
      let alpha := if Score.ltB alpha score then score else alpha
      quiesceLoop o (f + 1) es b3 alpha beta side oppSide maxDepth rest
termination_by f _ _ _ _ _ _ _ ms => (f, ms.length + 1)

end

mutual

/-- AIEngine.negamax: node accounting and time abort, TT probe, check
extension, quiescence handoff, null-move pruning (restructured as an
optional cutoff so that the fall-through shares one code path), then
the move loop.  Fuel-truncated calls return without touching the
board. -/
def negamax (o : Oracles) : Nat → AIEngine → Board → Int → Score →
    Score → Side → Nat → Bool → (Score × Board × AIEngine)
  | 0, es, b, _, _, _, _, _, _ => (Score.fin 0, b, es)
  | f + 1, es, b, depth, alpha, beta, side, ply, allowNull =>
    let es := { es with nodesSearched := es.nodesSearched + 1 }
    if es.nodesSearched &&& 4095 = 0 ∧ o.timeOver es.nodesSearched = true then
      (Score.fin 0, b, { es with aborted := true })
    else if es.aborted = true then (Score.fin 0, b, es)
    else
      let alphaOrig := alpha
      let tte := es.tt.probe b.hash depth.toNat alpha beta
      let ttScore : Option Score :=
        match tte with
        | some r => r.score
        | none => none
      match ttScore with
      | some sc => (sc, b, es)
      | none =>
        let ttMove : Option Move :=
          match tte with
          | some r => r.bestMove
          | none => none
        let inCheck := isInCheck b side
        let depth := if inCheck = true ∧ (ply : Int) < es.maxDepth + 6 then
          depth + 1 else depth
        if depth ≤ 0 then quiesce o f es b alpha beta side es.quiesceDepth
        else
          let oppSide := side.opp
          let nullTry :=
            if allowNull = true ∧ inCheck = false ∧ depth ≥ 3 ∧
                isEndgame b = false then
              let R : Int := if depth > 6 then 3 else 2
              let nr := negamax o f es b (depth - 1 - R) (Score.neg beta)
                (Score.addInt (Score.neg beta) 1) oppSide (ply + 1) false
              let nullScore := Score.neg nr.1
              if Score.leB beta nullScore then (some beta, nr.2.1, nr.2.2)
              else (none, nr.2.1, nr.2.2)
            else (none, b, es)
          match nullTry with
          | (some cut, b, es) => (cut, b, es)
          | (none, b, es) =>
            let moves := generateAllLegalMoves b side
            if moves.length = 0 then
              (Score.fin (-(PIECE_VALUES PieceType.king) - depth), b, es)
            else
              let moves := orderMoves es b moves ttMove ply side
              let see :=
                if inCheck = false ∧ depth ≤ 3 then
                  let ev := engineEval o es b side
                  (some ev.1, ev.2)
                else (none, es)
              let staticEval := see.1
              let es := see.2
              negamaxLoop o f es b depth alpha beta side oppSide ply inCheck
                staticEval alphaOrig moves.head? Score.ninf 0 moves
termination_by f _ _ _ _ _ _ _ _ => (f, 0)

/-- The per-move search ladder of the negamax loop: full window for
the first move, reduced zero-window with re-searches under LMR,
zero-window PVS with re-search otherwise. -/
def searchMove (o : Oracles) (f : Nat) (es : AIEngine) (b1 : Board)
    (depth : Int) (alpha beta : Score) (oppSide : Side) (ply : Nat)
    (movesSearched : Nat) (reduction : Int) : Score × Board × AIEngine :=
  if movesSearched = 0 then
    let n1 := negamax o f es b1 (depth - 1) (Score.neg beta)
      (Score.neg alpha) oppSide (ply + 1) true
    (Score.neg n1.1, n1.2.1, n1.2.2)
  else if reduction > 0 then
    let n1 := negamax o f es b1 (depth - 1 - reduction)
      (Score.addInt (Score.neg alpha) (-1)) (Score.neg alpha) oppSide
      (ply + 1) true
    let s1 := Score.neg n1.1
    if Score.ltB alpha s1 then
      let n2 := negamax o f n1.2.2 n1.2.1 (depth - 1)
        (Score.addInt (Score.neg alpha) (-1)) (Score.neg alpha) oppSide
        (ply + 1) true
      let s2 := Score.neg n2.1
      if Score.ltB alpha s2 ∧ Score.ltB s2 beta then
        let n3 := negamax o f n2.2.2 n2.2.1 (depth - 1) (Score.neg beta)
          (Score.neg alpha) oppSide (ply + 1) true
        (Score.neg n3.1, n3.2.1, n3.2.2)
      else (s2, n2.2.1, n2.2.2)
    else (s1, n1.2.1, n1.2.2)
  else
    let n1 := negamax o f es b1 (depth - 1)
      (Score.addInt (Score.neg alpha) (-1)) (Score.neg alpha) oppSide
      (ply + 1) true
    let s1 := Score.neg n1.1
    if Score.ltB alpha s1 ∧ Score.ltB s1 beta then
      let n2 := negamax o f n1.2.2 n1.2.1 (depth - 1) (Score.neg beta)
        (Score.neg alpha) oppSide (ply + 1) true
      (Score.neg n2.1, n2.2.1, n2.2.2)
    else (s1, n1.2.1, n1.2.2)
termination_by (f, 1)

/-- The move loop of negamax: futility skip, make, LMR / PVS searches,
unmake, killer/history/TT bookkeeping, beta cutoff; on exhaustion the
flagged TT store and the alpha return. -/
def negamaxLoop (o : Oracles) : Nat → AIEngine → Board → Int → Score →
    Score → Side → Side → Nat → Bool → Option Int → Score → Option Move →
    Score → Nat → List Move → (Score × Board × AIEngine)
  | _, es, b, depth, alpha, _, _, _, _, _, _, alphaOrig, bestMove, _, _, [] =>
    let flag := if Score.leB alpha alphaOrig then TTFlag.alphaFlag
      else TTFlag.exact
    let es := { es with tt := es.tt.store b.hash depth.toNat alpha flag bestMove }
    (alpha, b, es)
  | 0, es, b, _, alpha, _, _, _, _, _, _, _, _, _, _, _ :: _ => (alpha, b, es)
  | f + 1, es, b, depth, alpha, beta, side, oppSide, ply, inCheck,
      staticEval, alphaOrig, bestMove, bestScore, movesSearched, move :: rest =>
    let captured := getPiece b move.toRow move.toCol
    let futileB : Bool :=
      match staticEval with
      | some se => Score.leB
          (Score.fin (se + FUTILITY_MARGIN.getD depth.toNat 0)) alpha
      | none => false
    if inCheck = false ∧ depth ≤ 3 ∧ captured = none ∧ movesSearched > 0 ∧
        futileB = true then
      negamaxLoop o (f + 1) es b depth alpha beta side oppSide ply inCheck
        staticEval alphaOrig bestMove bestScore (movesSearched + 1) rest
    else
      let mv := movePiece b move.fromRow move.fromCol move.toRow move.toCol
      let b1 := mv.1
      let cap := mv.2
      let givesCheck := isInCheck b1 oppSide
      let reduction : Int :=
        if depth ≥ 3 ∧ movesSearched ≥ 3 ∧ cap = none ∧ inCheck = false ∧
            givesCheck = false then
          let r : Int := if movesSearched ≥ 6 then 2 else 1
          if depth ≤ 4 then min r 1 else r
        else 0
      let sr := searchMove o f es b1 depth alpha beta oppSide ply
        movesSearched reduction
      let score := sr.1
      let b2 := sr.2.1
      let es := sr.2.2
      let b3 := undoMove b2
        ⟨move.fromRow, move.fromCol, move.toRow, move.toCol, cap⟩
      let movesSearched := movesSearched + 1
      let best := if Score.ltB bestScore score then (score, some move)
        else (bestScore, bestMove)
      let bestScore := best.1
      let bestMove := best.2
      if Score.leB beta score then
        let es :=
          if cap = none then
            let es := storeKiller es ply move
            { es with history := storeHistory es.history side move depth }
          else es
        let es := { es with
          tt := es.tt.store b3.hash depth.toNat beta TTFlag.betaFlag
            (some move) }
        (beta, b3, es)
      else
        let alpha := if Score.ltB alpha score then score else alpha
        negamaxLoop o (f + 1) es b3 depth alpha beta side oppSide ply inCheck
          staticEval alphaOrig bestMove bestScore movesSearched rest
termination_by f _ _ _ _ _ _ _ _ _ _ _ _ _ _ ms => (f, ms.length + 1)

end

/-- The root move loop of AIEngine.searchRoot: full-window first move,
then PVS with re-search. -/
def searchRootLoop (o : Oracles) (f : Nat) : AIEngine → Board → Side →
    Side → Int → Score → Score → Option Move → Score → Bool → List Move →
    (Option Move × Score × Board × AIEngine)
  | es, b, _, _, _, _, _, bestMove, bestScore, _, [] =>
    (bestMove, bestScore, b, es)
  | es, b, side, oppSide, depth, alpha, beta, bestMove, bestScore, isFirst,
      move :: rest =>
    let mv := movePiece b move.fromRow move.fromCol move.toRow move.toCol
    let b1 := mv.1
    let captured := mv.2
    let sr :=
      if isFirst then
        let n1 := negamax o f es b1 (depth - 1) (Score.neg beta)
          (Score.neg alpha) oppSide 1 true
        (Score.neg n1.1, n1.2.1, n1.2.2)
      else
        let n1 := negamax o f es b1 (depth - 1)
          (Score.addInt (Score.neg alpha) (-1)) (Score.neg alpha) oppSide 1 true
        let s1 := Score.neg n1.1
        if Score.ltB alpha s1 ∧ Score.ltB s1 beta then
          let n2 := negamax o f n1.2.2 n1.2.1 (depth - 1) (Score.neg beta)
            (Score.neg alpha) oppSide 1 true
          (Score.neg n2.1, n2.2.1, n2.2.2)
        else (s1, n1.2.1, n1.2.2)
    let score := sr.1
    let b2 := sr.2.1
    let es := sr.2.2
    let b3 := undoMove b2
      ⟨move.fromRow, move.fromCol, move.toRow, move.toCol, captured⟩
    let best := if Score.ltB bestScore score then (score, some move)
      else (bestScore, bestMove)
    let bestScore := best.1
    let bestMove := best.2
    let alpha := if Score.ltB alpha score then score else alpha
    if Score.leB beta score then (bestMove, bestScore, b3, es)
    else searchRootLoop o f es b3 side oppSide depth alpha beta bestMove
      bestScore false rest

/-- AIEngine.searchRoot: order the moves (TT move first when
available) and run the root loop.  The sorted list is returned since
the source sorts the caller's array in place. -/
def searchRoot (o : Oracles) (f : Nat) (es : AIEngine) (b : Board)
    (moves : List Move) (side oppSide : Side) (depth : Int)
    (alpha beta : Score) :
    (List Move × Option Move × Score × Board × AIEngine) :=
  let moves := orderMoves es b moves none 0 side
  let tte := es.tt.probe b.hash 0 alpha beta
  let moves :=
    match tte with
    | some r =>
      match r.bestMove with
      | some pm => orderMoves es b moves (some pm) 0 side
      | none => moves
    | none => moves
  let r := searchRootLoop o f es b side oppSide depth alpha beta moves.head?
    Score.ninf true moves
  (moves, r)

/-- The iterative-deepening loop of findBestMove with aspiration
windows, re-search, and the time/abort break. -/
def deepenLoop (o : Oracles) (f : Nat) : Nat → AIEngine → Board →
    List Move → Side → Side → Int → Option Move → Score →
    (Option Move × Score × List Move × Board × AIEngine)
  | 0, es, b, moves, _, _, _, bestMove, bestScore =>
    (bestMove, bestScore, moves, b, es)
  | k + 1, es, b, moves, side, oppSide, depth, bestMove, bestScore =>
    let es := { es with aborted := false }
    let win :=
      if depth ≥ 4 ∧ Score.ltB (Score.fin (-9000)) bestScore ∧
          Score.ltB bestScore (Score.fin 9000) then
        (Score.addInt bestScore (-50), Score.addInt bestScore 50)
      else (Score.ninf, Score.pinf)
    let alpha := win.1
    let beta := win.2
    let r1 := searchRoot o f es b moves side oppSide depth alpha beta
    let r2 :=
      if r1.2.2.2.2.aborted = false ∧
          (Score.leB r1.2.2.1 alpha ∨ Score.leB beta r1.2.2.1) then
        searchRoot o f r1.2.2.2.2 r1.2.2.2.1 r1.1 side oppSide depth
          Score.ninf Score.pinf
      else r1
    let moves := r2.1
    let rMove := r2.2.1
    let rScore := r2.2.2.1
    let b := r2.2.2.2.1
    let es := r2.2.2.2.2
    let best :=
      if es.aborted = false ∧ rMove.isSome then (rMove, rScore)
      else (bestMove, bestScore)
    let bestMove := best.1
    let bestScore := best.2
    if es.aborted = true ∨ o.deepenOver depth = true then
      (bestMove, bestScore, moves, b, es)
    else deepenLoop o f k es b moves side oppSide (depth + 1) bestMove bestScore

/-- The randomness re-scoring pass of findBestMove: each root move is
searched at depth 1 and jittered. -/
def randomPass (o : Oracles) (f : Nat) : AIEngine → Board → List Move →
    Side → (List (Move × Score) × Board × AIEngine)
  | es, b, [], _ => ([], b, es)
  | es, b, move :: rest, oppSide =>
    let mv := movePiece b move.fromRow move.fromCol move.toRow move.toCol
    let b1 := mv.1
    let captured := mv.2
    let n1 := negamax o f es b1 1 Score.ninf Score.pinf oppSide 1 false
    let score := Score.neg n1.1
    let b2 := n1.2.1
    let es := n1.2.2
    let b3 := undoMove b2
      ⟨move.fromRow, move.fromCol, move.toRow, move.toCol, captured⟩
    let jit := o.rand es.rngIdx
    let es := { es with rngIdx := es.rngIdx + 1 }
    let entry := (move, Score.addInt score (jit - es.randomness))
    let rr := randomPass o f es b3 rest oppSide
    (entry :: rr.1, rr.2.1, rr.2.2)

/-- AIEngine.findBestMove: difficulty setup, legal-move shortcuts,
iterative deepening, and the randomness pass for lower
difficulties. -/
def findBestMove (o : Oracles) (f : Nat) (es0 : AIEngine) (b : Board)
    (side : Side) (diff : Difficulty) : Option Move × Board × AIEngine :=
  let cfg := AI_DIFFICULTY diff
  let es : AIEngine := { es0 with
    maxDepth := cfg.depth, quiesceDepth := cfg.quiesceDepth,
    randomness := cfg.randomness, nodesSearched := 0,
    killerMoves := fun _ => none, history := fun _ => 0, aborted := false }
  let moves := generateAllLegalMoves b side
  if moves.length = 0 then (none, b, es)
  else if moves.length = 1 then (moves.head?, b, es)
  else
    let oppSide := side.opp
    let d := deepenLoop o f es.maxDepth.toNat es b moves side oppSide 1
      moves.head? Score.ninf
    let bestMove := d.1
    let moves := d.2.2.1
    let b := d.2.2.2.1
    let es := d.2.2.2.2
    if es.randomness > 0 ∧ moves.length > 1 then
      let moves := orderMoves es b moves bestMove 0 side
      let rp := randomPass o f es b moves oppSide
      let scored := rp.1
      let b := rp.2.1
      let es := rp.2.2
      let scored := scored.mergeSort (fun x1 x2 => Score.leB x2.2 x1.2)
      (scored.head?.map (fun x => x.1), b, es)
    else (bestMove, b, es)


/-- A move record that can be made and unmade on board b: occupied
origin, both squares on the board, target distinct from the origin.
Every generated legal move satisfies this. -/
def moveOk (b : Board) (m : Move) : Prop :=
  (∃ p, gridGet b.grid m.fromRow m.fromCol = some p) ∧
  isInBoard m.fromRow m.fromCol = true ∧ isInBoard m.toRow m.toCol = true ∧
  ¬(m.toRow = m.fromRow ∧ m.toCol = m.fromCol)


-- ===== Theorems =====

/-- A shaped grid has ten rows. -/
theorem shaped_length {g : Grid} (h : shapedB g = true) : g.length = 10 := by
  simp [shapedB] at h
  exact h.1

/-- Every row of a shaped grid has nine entries. -/
theorem shaped_row_length {g : Grid} (h : shapedB g = true) {r : Nat}
    (hr : r < 10) : (g.getD r []).length = 9 := by
  simp [shapedB] at h
  obtain ⟨h1, h2⟩ := h
  have hrl : r < g.length := by omega
  have : g.getD r [] = g[r] := by
    simp [List.getD, List.getElem?_eq_getElem hrl]
  rw [this]
  exact h2 _ (List.getElem_mem hrl)

/-- Unfolding of the bounds test. -/
theorem isInBoard_iff {r c : Int} :
    isInBoard r c = true ↔ 0 ≤ r ∧ r < 10 ∧ 0 ≤ c ∧ c < 9 := by
  simp [isInBoard, ROWS, COLS]
  tauto

/-- List helper: reading the index just written. -/
theorem getD_set_self {α : Type} (l : List α) (i : Nat) (d a : α)
    (h : i < l.length) : (l.set i a).getD i d = a := by
  induction l generalizing i with
  | nil => simp at h
  | cons x xs ih =>
    cases i with
    | zero => simp
    | succ n => simpa using ih n (by simpa using h)

/-- List helper: reading another index after a write. -/
theorem getD_set_ne {α : Type} (l : List α) (i j : Nat) (d a : α)
    (h : i ≠ j) : (l.set i a).getD j d = l.getD j d := by
  induction l generalizing i j with
  | nil => simp
  | cons x xs ih =>
    cases i with
    | zero =>
      cases j with
      | zero => exact absurd rfl h
      | succ m => simp
    | succ n =>
      cases j with
      | zero => simp
      | succ m => simpa using ih n m (by omega)

/-- List helper: writing back the value just read. -/
theorem set_getD_self {α : Type} (l : List α) (i : Nat) (d : α)
    (h : i < l.length) : l.set i (l.getD i d) = l := by
  induction l generalizing i with
  | nil => simp at h
  | cons x xs ih =>
    cases i with
    | zero => simp
    | succ n => simpa using ih n (by simpa using h)

/-- List helper: a write past the end is a no-op. -/
theorem set_out_of_range {α : Type} (l : List α) (i : Nat) (a : α)
    (h : l.length ≤ i) : l.set i a = l := by
  induction l generalizing i with
  | nil => simp
  | cons x xs ih =>
    cases i with
    | zero => simp at h
    | succ n => simpa using ih n (by simpa using h)

/-- A set preserves the grid shape. -/
theorem shaped_gridSet {g : Grid} (h : shapedB g = true) (r c : Int)
    (v : Option Piece) : shapedB (gridSet g r c v) = true := by
  simp [shapedB] at h
  obtain ⟨h1, h2⟩ := h
  rcases Nat.lt_or_ge r.toNat g.length with hlt | hge
  · simp only [shapedB, gridSet, Bool.and_eq_true, beq_iff_eq, List.all_eq_true]
    refine ⟨by simp [h1], ?_⟩
    intro row hrow
    rcases List.mem_or_eq_of_mem_set hrow with hmem | heq
    · simpa using h2 _ hmem
    · subst heq
      rw [List.length_set]
      have : g.getD r.toNat [] = g[r.toNat] := by
        simp [List.getD, List.getElem?_eq_getElem hlt]
      rw [this]
      simpa using h2 _ (List.getElem_mem hlt)
  · have hout : g.getD r.toNat [] = [] := by
      simp [List.getD, List.getElem?_eq_none_iff.mpr hge]
    simp only [gridSet, hout]
    rw [set_out_of_range _ _ _ hge]
    simp [shapedB, h1]
    intro row hrow
    simpa using h2 _ hrow

/-- Reading back the square just written. -/
theorem gridGet_gridSet_self {g : Grid} (h : shapedB g = true) {r c : Int}
    (hb : isInBoard r c = true) (v : Option Piece) :
    gridGet (gridSet g r c v) r c = v := by
  rw [isInBoard_iff] at hb
  have hr : r.toNat < g.length := by rw [shaped_length h]; omega
  have hc : c.toNat < (g.getD r.toNat []).length := by
    rw [shaped_row_length h (by omega)]; omega
  simp only [gridGet, gridSet]
  rw [getD_set_self _ _ _ _ hr, getD_set_self _ _ _ _ hc]

/-- Reading any other square after a write. -/
theorem gridGet_gridSet_ne {g : Grid} (h : shapedB g = true) {r c r' c' : Int}
    (hb : isInBoard r c = true) (hb' : isInBoard r' c' = true)
    (hne : ¬(r = r' ∧ c = c')) (v : Option Piece) :
    gridGet (gridSet g r c v) r' c' = gridGet g r' c' := by
  rw [isInBoard_iff] at hb hb'
  have hr : r.toNat < g.length := by rw [shaped_length h]; omega
  simp only [gridGet, gridSet]
  rcases eq_or_ne r.toNat r'.toNat with hrr | hrr
  · have hcc : c.toNat ≠ c'.toNat := by omega
    rw [← hrr, getD_set_self _ _ _ _ hr, getD_set_ne _ _ _ _ _ hcc]
  · rw [getD_set_ne _ _ _ _ _ hrr]

/-- Writing a square twice keeps only the second write. -/
theorem gridSet_gridSet_self {g : Grid} (h : shapedB g = true) {r c : Int}
    (hb : isInBoard r c = true) (v w : Option Piece) :
    gridSet (gridSet g r c v) r c w = gridSet g r c w := by
  rw [isInBoard_iff] at hb
  have hr : r.toNat < g.length := by rw [shaped_length h]; omega
  simp only [gridSet]
  rw [getD_set_self _ _ _ _ hr, List.set_set, List.set_set]

/-- Writing back the value just read is the identity. -/
theorem gridSet_gridGet_self {g : Grid} (h : shapedB g = true) {r c : Int}
    (hb : isInBoard r c = true) :
    gridSet g r c (gridGet g r c) = g := by
  rw [isInBoard_iff] at hb
  have hr : r.toNat < g.length := by rw [shaped_length h]; omega
  have hc : c.toNat < (g.getD r.toNat []).length := by
    rw [shaped_row_length h (by omega)]; omega
  simp only [gridSet, gridGet]
  rw [set_getD_self _ _ _ hc, set_getD_self _ _ _ hr]

/-- Writes to distinct squares commute. -/
theorem gridSet_comm {g : Grid} (h : shapedB g = true) {r c r' c' : Int}
    (hb : isInBoard r c = true) (hb' : isInBoard r' c' = true)
    (hne : ¬(r = r' ∧ c = c')) (v w : Option Piece) :
    gridSet (gridSet g r c v) r' c' w = gridSet (gridSet g r' c' w) r c v := by
  rw [isInBoard_iff] at hb hb'
  have hr : r.toNat < g.length := by rw [shaped_length h]; omega
  have hr' : r'.toNat < g.length := by rw [shaped_length h]; omega
  simp only [gridSet]
  rcases eq_or_ne r.toNat r'.toNat with hrr | hrr
  · have hcc : c.toNat ≠ c'.toNat := by omega
    rw [← hrr, getD_set_self _ _ _ _ hr, getD_set_self _ _ _ _ hr,
      List.set_set, List.set_set, List.set_comm _ _ _ hcc]
  · rw [getD_set_ne _ _ _ _ _ hrr, getD_set_ne _ _ _ _ _ (Ne.symm hrr),
      List.set_comm _ _ _ hrr]

/-- A successful canMoveTo means the target is on the board and not an
own piece. -/
theorem canMoveTo_sound {b : Board} {r c : Int} {s : Side}
    (h : canMoveTo b r c s = true) :
    isInBoard r c = true ∧ ∀ t, getPiece b r c = some t → t.side ≠ s := by
  unfold canMoveTo at h
  split at h
  · refine ⟨by assumption, ?_⟩
    intro t ht
    rw [ht] at h
    simpa using h
  · simp at h

/-- King moves stay on the board, leave the origin, and never land on
an own piece. -/
theorem kingMoves_sound {b : Board} {row col : Int} {s : Side} {m : MoveTo}
    (hm : m ∈ kingMoves b row col s) :
    isInBoard m.toRow m.toCol = true ∧ ¬(m.toRow = row ∧ m.toCol = col) ∧
    ∀ t, getPiece b m.toRow m.toCol = some t → t.side ≠ s := by
  simp only [kingMoves, List.mem_filterMap] at hm
  obtain ⟨d, hd, hcond⟩ := hm
  split at hcond
  · rename_i hc
    simp only [Option.some.injEq] at hcond
    subst hcond
    simp only [Bool.and_eq_true] at hc
    have := canMoveTo_sound hc.2
    refine ⟨this.1, ?_, this.2⟩
    fin_cases hd <;> simp <;> omega
  · simp at hcond

/-- Advisor moves stay on the board, leave the origin, and never land
on an own piece. -/
theorem advisorMoves_sound {b : Board} {row col : Int} {s : Side} {m : MoveTo}
    (hm : m ∈ advisorMoves b row col s) :
    isInBoard m.toRow m.toCol = true ∧ ¬(m.toRow = row ∧ m.toCol = col) ∧
    ∀ t, getPiece b m.toRow m.toCol = some t → t.side ≠ s := by
  simp only [advisorMoves, List.mem_filterMap] at hm
  obtain ⟨d, hd, hcond⟩ := hm
  split at hcond
  · rename_i hc
    simp only [Option.some.injEq] at hcond
    subst hcond
    simp only [Bool.and_eq_true] at hc
    have := canMoveTo_sound hc.2
    refine ⟨this.1, ?_, this.2⟩
    fin_cases hd <;> simp <;> omega
  · simp at hcond

/-- Elephant moves stay on the board, leave the origin, and never land
on an own piece. -/
theorem elephantMoves_sound {b : Board} {row col : Int} {s : Side} {m : MoveTo}
    (hm : m ∈ elephantMoves b row col s) :
    isInBoard m.toRow m.toCol = true ∧ ¬(m.toRow = row ∧ m.toCol = col) ∧
    ∀ t, getPiece b m.toRow m.toCol = some t → t.side ≠ s := by
  simp only [elephantMoves, List.mem_filterMap] at hm
  obtain ⟨d, hd, hcond⟩ := hm
  repeat' split at hcond
  all_goals cases hcond
  rename_i hcm
  obtain ⟨h1, h2⟩ := canMoveTo_sound hcm
  refine ⟨h1, ?_, h2⟩
  fin_cases hd <;> (dsimp only; omega)

/-- Horse moves stay on the board, leave the origin, and never land on
an own piece. -/
theorem horseMoves_sound {b : Board} {row col : Int} {s : Side} {m : MoveTo}
    (hm : m ∈ horseMoves b row col s) :
    isInBoard m.toRow m.toCol = true ∧ ¬(m.toRow = row ∧ m.toCol = col) ∧
    ∀ t, getPiece b m.toRow m.toCol = some t → t.side ≠ s := by
  simp only [horseMoves, List.mem_filterMap] at hm
  obtain ⟨d, hd, hcond⟩ := hm
  repeat' split at hcond
  all_goals cases hcond
  rename_i hcm
  obtain ⟨h1, h2⟩ := canMoveTo_sound hcm
  refine ⟨h1, ?_, h2⟩
  fin_cases hd <;> (dsimp only; omega)

/-- Pawn moves stay on the board, leave the origin, and never land on
an own piece. -/
theorem pawnMoves_sound {b : Board} {row col : Int} {s : Side} {m : MoveTo}
    (hm : m ∈ pawnMoves b row col s) :
    isInBoard m.toRow m.toCol = true ∧ ¬(m.toRow = row ∧ m.toCol = col) ∧
    ∀ t, getPiece b m.toRow m.toCol = some t → t.side ≠ s := by
  cases s <;>
  · simp only [pawnMoves, List.mem_append] at hm
    rcases hm with hf | hside
    · rw [List.mem_ite_nil_right] at hf
      obtain ⟨hc, heq⟩ := hf
      simp only [Bool.and_eq_true] at hc
      simp only [List.mem_singleton] at heq
      subst heq
      obtain ⟨h1, h2⟩ := canMoveTo_sound hc.2
      refine ⟨h1, ?_, h2⟩
      dsimp only
      omega
    · split at hside
      · simp only [List.mem_filterMap] at hside
        obtain ⟨dc, hdc, hcond⟩ := hside
        split at hcond
        · rename_i hc
          simp only [Bool.and_eq_true] at hc
          simp only [Option.some.injEq] at hcond
          subst hcond
          obtain ⟨h1, h2⟩ := canMoveTo_sound hc.2
          refine ⟨h1, ?_, h2⟩
          fin_cases hdc <;> (dsimp only; omega)
        · simp at hcond
      · simp at hside

/-- Every square emitted by a rook ray walk is on the board, is offset
from the walk's start by a positive multiple of the direction, and
carries no own piece. -/
theorem rookRay_sound {b : Board} {s : Side} {dr dc : Int} :
    ∀ (fuel : Nat) (r0 c0 : Int) (m : MoveTo),
    m ∈ rookRay b s dr dc r0 c0 fuel →
    isInBoard m.toRow m.toCol = true ∧
    (∀ t, getPiece b m.toRow m.toCol = some t → t.side ≠ s) ∧
    ∃ k : Nat, m.toRow = r0 + k * dr ∧ m.toCol = c0 + k * dc := by
  intro fuel
  induction fuel with
  | zero => intro r0 c0 m hm; simp [rookRay] at hm
  | succ n ih =>
    intro r0 c0 m hm
    rw [rookRay] at hm
    split at hm
    · rename_i hin
      split at hm
      · rename_i hempty
        rcases List.mem_cons.mp hm with heq | htl
        · subst heq
          refine ⟨hin, ?_, ⟨0, by simp⟩⟩
          intro t ht
          dsimp only at ht
          rw [hempty] at ht
          cases ht
        · obtain ⟨h1, h2, k, hk1, hk2⟩ := ih _ _ _ htl
          refine ⟨h1, h2, k + 1, ?_, ?_⟩
          · rw [hk1]; push_cast; ring
          · rw [hk2]; push_cast; ring
      · rename_i t ht
        split at hm
        · rename_i hside
          simp only [List.mem_singleton] at hm
          subst hm
          refine ⟨hin, ?_, ⟨0, by simp⟩⟩
          intro t' ht'
          dsimp only at ht'
          rw [ht] at ht'
          cases ht'
          simpa using hside
        · simp at hm
    · simp at hm

/-- Unfolding of one fuel step of the cannon ray walk. -/
theorem cannonRay_succ (b : Board) (s : Side) (dr dc r c : Int) (j : Bool)
    (n : Nat) :
    cannonRay b s dr dc r c j (n + 1) =
    if isInBoard r c then
      match j, getPiece b r c with
      | false, none => ⟨r, c⟩ :: cannonRay b s dr dc (r + dr) (c + dc) false n
      | false, some _ => cannonRay b s dr dc (r + dr) (c + dc) true n
      | true, none => cannonRay b s dr dc (r + dr) (c + dc) true n
      | true, some t => if t.side ≠ s then [⟨r, c⟩] else []
    else [] := rfl

/-- Every square emitted by a cannon ray walk is on the board, is
offset from the walk's start by a positive multiple of the direction,
and carries no own piece. -/
theorem cannonRay_sound {b : Board} {s : Side} {dr dc : Int} :
    ∀ (fuel : Nat) (r0 c0 : Int) (j : Bool) (m : MoveTo),
    m ∈ cannonRay b s dr dc r0 c0 j fuel →
    isInBoard m.toRow m.toCol = true ∧
    (∀ t, getPiece b m.toRow m.toCol = some t → t.side ≠ s) ∧
    ∃ k : Nat, m.toRow = r0 + k * dr ∧ m.toCol = c0 + k * dc := by
  intro fuel
  induction fuel with
  | zero => intro r0 c0 j m hm; simp [cannonRay] at hm
  | succ n ih =>
    intro r0 c0 j m hm
    rw [cannonRay_succ] at hm
    split at hm
    · rename_i hin
      split at hm
      · rename_i hempty
        rcases List.mem_cons.mp hm with heq | htl
        · subst heq
          refine ⟨hin, ?_, ⟨0, by simp⟩⟩
          intro t ht
          dsimp only at ht
          rw [hempty] at ht
          cases ht
        · obtain ⟨h1, h2, k, hk1, hk2⟩ := ih _ _ _ _ htl
          refine ⟨h1, h2, k + 1, ?_, ?_⟩
          · rw [hk1]; push_cast; ring
          · rw [hk2]; push_cast; ring
      · obtain ⟨h1, h2, k, hk1, hk2⟩ := ih _ _ _ _ hm
        refine ⟨h1, h2, k + 1, ?_, ?_⟩
        · rw [hk1]; push_cast; ring
        · rw [hk2]; push_cast; ring
      · obtain ⟨h1, h2, k, hk1, hk2⟩ := ih _ _ _ _ hm
        refine ⟨h1, h2, k + 1, ?_, ?_⟩
        · rw [hk1]; push_cast; ring
        · rw [hk2]; push_cast; ring
      · rename_i t ht
        split at hm
        · rename_i hside
          simp only [List.mem_singleton] at hm
          subst hm
          refine ⟨hin, ?_, ⟨0, by simp⟩⟩
          intro t' ht'
          dsimp only at ht'
          rw [ht] at ht'
          cases ht'
          simpa using hside
        · simp at hm
    · simp at hm

/-- An occupied square is on the board. -/
theorem getPiece_some_inBoard {b : Board} {r c : Int} {p : Piece}
    (h : getPiece b r c = some p) : isInBoard r c = true := by
  unfold getPiece at h
  split at h
  · assumption
  · cases h

/-- On the board, getPiece is the raw grid read. -/
theorem getPiece_eq_gridGet {b : Board} {r c : Int}
    (h : isInBoard r c = true) : getPiece b r c = gridGet b.grid r c := by
  unfold getPiece
  rw [if_pos h]

/-- Soundness of the pseudo-legal generator: the origin is occupied,
and every generated destination is on the board, differs from the
origin, and does not hold a piece of the mover's side. -/
theorem generatePieceMoves_sound {b : Board} {row col : Int} {m : MoveTo}
    (hm : m ∈ generatePieceMoves b row col) :
    ∃ p, getPiece b row col = some p ∧
    isInBoard m.toRow m.toCol = true ∧ ¬(m.toRow = row ∧ m.toCol = col) ∧
    ∀ t, getPiece b m.toRow m.toCol = some t → t.side ≠ p.side := by
  unfold generatePieceMoves at hm
  split at hm
  · cases hm
  · rename_i piece hp
    refine ⟨piece, hp, ?_⟩
    split at hm
    · exact kingMoves_sound hm
    · exact advisorMoves_sound hm
    · exact elephantMoves_sound hm
    · obtain ⟨d, hd, hr⟩ := List.mem_flatMap.mp hm
      obtain ⟨h1, h2, k, hk1, hk2⟩ := rookRay_sound _ _ _ _ hr
      refine ⟨h1, ?_, h2⟩
      fin_cases hd <;> dsimp only at hk1 hk2 ⊢ <;> omega
    · exact horseMoves_sound hm
    · obtain ⟨d, hd, hr⟩ := List.mem_flatMap.mp hm
      obtain ⟨h1, h2, k, hk1, hk2⟩ := cannonRay_sound _ _ _ _ _ hr
      refine ⟨h1, ?_, h2⟩
      fin_cases hd <;> dsimp only at hk1 hk2 ⊢ <;> omega
    · exact pawnMoves_sound hm

/-- Two boards with equal fields are equal. -/
theorem Board.ext' {a b : Board} (h1 : a.grid = b.grid) (h2 : a.hash = b.hash)
    (h3 : a.pieceCount = b.pieceCount) (h4 : a.kingRed = b.kingRed)
    (h5 : a.kingBlack = b.kingBlack) : a = b := by
  cases a
  cases b
  simp_all

/-- Reading the cache entry just written. -/
theorem kingPos_setKing_same (b : Board) (s : Side) (v : Option Pos) :
    (b.setKing s v).kingPos s = v := by
  cases s <;> rfl

/-- Reading the other cache entry after a write. -/
theorem kingPos_setKing_other (b : Board) {s s' : Side} (h : s ≠ s')
    (v : Option Pos) : (b.setKing s v).kingPos s' = b.kingPos s' := by
  cases s <;> cases s' <;> first | rfl | exact absurd rfl h

/-- setKing only touches the cache. -/
theorem setKing_grid (b : Board) (s : Side) (v : Option Pos) :
    (b.setKing s v).grid = b.grid := by
  cases s <;> rfl

/-- setKing only touches the cache. -/
theorem setKing_hash (b : Board) (s : Side) (v : Option Pos) :
    (b.setKing s v).hash = b.hash := by
  cases s <;> rfl

/-- setKing only touches the cache. -/
theorem setKing_pieceCount (b : Board) (s : Side) (v : Option Pos) :
    (b.setKing s v).pieceCount = b.pieceCount := by
  cases s <;> rfl

/-- XOR self-cancellation used by the make/unmake hash argument. -/
theorem xor_cancel (a k : Nat) : a ^^^ k ^^^ k = a := by
  rw [Nat.xor_assoc, Nat.xor_self, Nat.xor_zero]

/-- The king cache is right about every king on the board. -/
theorem cacheOk_king {b : Board} (hc : cacheOkB b = true) {r c : Int}
    {p : Piece} (hp : getPiece b r c = some p) (hk : p.type = PieceType.king) :
    b.kingPos p.side = some ⟨r, c⟩ := by
  have hin := getPiece_some_inBoard hp
  rw [isInBoard_iff] at hin
  simp only [cacheOkB, List.all_eq_true, List.mem_range] at hc
  have h1 := hc r.toNat (by omega) c.toNat (by omega)
  have hr : Int.ofNat r.toNat = r := Int.toNat_of_nonneg hin.1
  have hcc : Int.ofNat c.toNat = c := Int.toNat_of_nonneg hin.2.2.1
  rw [hr, hcc] at h1
  rw [getPiece_eq_gridGet (by rw [isInBoard_iff]; omega)] at hp
  rw [hp] at h1
  dsimp only at h1
  rw [if_pos hk] at h1
  simp only [beq_iff_eq, Int.ofNat_toNat] at h1
  rw [h1]
  have e1 : r ⊔ 0 = r := max_eq_left hin.1
  have e2 : c ⊔ 0 = c := max_eq_left hin.2.2.1
  rw [e1, e2]

/-- kingPos of a record that copies another board's cache fields. -/
theorem kingPos_fields (a : Board) (g : Grid) (h : Nat) (pc : Int) (s : Side) :
    (Board.mk g h pc a.kingRed a.kingBlack).kingPos s = a.kingPos s := by
  cases s <;> rfl

/-- Core make/unmake inverse law: undoing a move with the record that
carries the returned captured piece restores the board exactly
(well-shaped grid, consistent king cache, occupied origin, in-board
target distinct from the origin). -/
theorem moveUndo_restore {b : Board} {fr fc tr tc : Int} {p : Piece}
    (hsh : shapedB b.grid = true) (hck : cacheOkB b = true)
    (hmovG : gridGet b.grid fr fc = some p)
    (hinFrom : isInBoard fr fc = true) (hinTo : isInBoard tr tc = true)
    (hne : ¬(tr = fr ∧ tc = fc)) :
    undoMove (movePiece b fr fc tr tc).1
      ⟨fr, fc, tr, tc, (movePiece b fr fc tr tc).2⟩ = b := by
  have hp : getPiece b fr fc = some p := by
    rw [getPiece_eq_gridGet hinFrom]
    exact hmovG
  have hne' : ¬(fr = tr ∧ fc = tc) := fun h => hne ⟨h.1.symm, h.2.symm⟩
  have hsh1 : shapedB (gridSet b.grid tr tc (some p)) = true :=
    shaped_gridSet hsh tr tc (some p)
  have hre : gridGet (gridSet (gridSet b.grid tr tc (some p)) fr fc none) tr tc =
      some p := by
    rw [gridGet_gridSet_ne hsh1 hinFrom hinTo hne', gridGet_gridSet_self hsh hinTo]
  have hput : gridSet b.grid fr fc (some p) = b.grid := by
    rw [← hmovG]
    exact gridSet_gridGet_self hsh hinFrom
  have hgrid : gridSet
      (gridSet (gridSet (gridSet b.grid tr tc (some p)) fr fc none) fr fc (some p))
      tr tc (gridGet b.grid tr tc) = b.grid := by
    rw [gridSet_gridSet_self hsh1 hinFrom, gridSet_comm hsh hinTo hinFrom hne,
      hput, gridSet_gridSet_self hsh hinTo, gridSet_gridGet_self hsh hinTo]
  rcases hcapG : gridGet b.grid tr tc with _ | cp
  · rw [hcapG] at hgrid
    by_cases hpk : p.type = PieceType.king
    · have hkp : b.kingPos p.side = some ⟨fr, fc⟩ := cacheOk_king hck hp hpk
      have hkings : ∀ s, (undoMove (movePiece b fr fc tr tc).1
          ⟨fr, fc, tr, tc, (movePiece b fr fc tr tc).2⟩).kingPos s = b.kingPos s := by
        intro s
        simp only [movePiece, undoMove, hmovG, hcapG, hre, if_pos hpk]
        by_cases hs : s = p.side
        · subst hs
          simp only [kingPos_fields, kingPos_setKing_same, hkp]
        · have hs' : p.side ≠ s := fun h => hs h.symm
          simp only [kingPos_fields, kingPos_setKing_other _ hs']
      refine Board.ext' ?_ ?_ ?_ (hkings Side.red) (hkings Side.black)
      · simp only [movePiece, undoMove, hmovG, hcapG, hre, if_pos hpk, setKing_grid]
        exact hgrid
      · simp only [movePiece, undoMove, hmovG, hcapG, hre, if_pos hpk,
          setKing_hash, xor_cancel]
      · simp only [movePiece, undoMove, hmovG, hcapG, hre, if_pos hpk,
          setKing_pieceCount]
    · have hkings : ∀ s, (undoMove (movePiece b fr fc tr tc).1
          ⟨fr, fc, tr, tc, (movePiece b fr fc tr tc).2⟩).kingPos s = b.kingPos s := by
        intro s
        simp only [movePiece, undoMove, hmovG, hcapG, hre, if_neg hpk,
          kingPos_fields]
      refine Board.ext' ?_ ?_ ?_ (hkings Side.red) (hkings Side.black)
      · simp only [movePiece, undoMove, hmovG, hcapG, hre, if_neg hpk]
        exact hgrid
      · simp only [movePiece, undoMove, hmovG, hcapG, hre, if_neg hpk, xor_cancel]
      · simp only [movePiece, undoMove, hmovG, hcapG, hre, if_neg hpk]
  · rw [hcapG] at hgrid
    have hcp : getPiece b tr tc = some cp := by
      rw [getPiece_eq_gridGet hinTo]
      exact hcapG
    by_cases hck2 : cp.type = PieceType.king
    · have hkpc : b.kingPos cp.side = some ⟨tr, tc⟩ := cacheOk_king hck hcp hck2
      by_cases hpk : p.type = PieceType.king
      · have hkp : b.kingPos p.side = some ⟨fr, fc⟩ := cacheOk_king hck hp hpk
        have hkings : ∀ s, (undoMove (movePiece b fr fc tr tc).1
            ⟨fr, fc, tr, tc, (movePiece b fr fc tr tc).2⟩).kingPos s = b.kingPos s := by
          intro s
          simp only [movePiece, undoMove, hmovG, hcapG, hre, if_pos hpk, if_pos hck2]
          by_cases hs : s = p.side
          · subst hs
            simp only [kingPos_fields, kingPos_setKing_same, hkp]
          · have hs' : p.side ≠ s := fun h => hs h.symm
            by_cases hs2 : s = cp.side
            · subst hs2
              simp only [kingPos_fields, kingPos_setKing_other _ hs',
                kingPos_setKing_same, hkpc]
            · have hs2' : cp.side ≠ s := fun h => hs2 h.symm
              simp only [kingPos_fields, kingPos_setKing_other _ hs',
                kingPos_setKing_other _ hs2']
        refine Board.ext' ?_ ?_ ?_ (hkings Side.red) (hkings Side.black)
        · simp only [movePiece, undoMove, hmovG, hcapG, hre, if_pos hpk,
            if_pos hck2, setKing_grid]
          exact hgrid
        · simp only [movePiece, undoMove, hmovG, hcapG, hre, if_pos hpk,
            if_pos hck2, setKing_hash, xor_cancel]
        · simp only [movePiece, undoMove, hmovG, hcapG, hre, if_pos hpk,
            if_pos hck2, setKing_pieceCount]
          omega
      · have hkings : ∀ s, (undoMove (movePiece b fr fc tr tc).1
            ⟨fr, fc, tr, tc, (movePiece b fr fc tr tc).2⟩).kingPos s = b.kingPos s := by
          intro s
          simp only [movePiece, undoMove, hmovG, hcapG, hre, if_neg hpk, if_pos hck2]
          by_cases hs2 : s = cp.side
          · subst hs2
            simp only [kingPos_fields, kingPos_setKing_same, hkpc]
          · have hs2' : cp.side ≠ s := fun h => hs2 h.symm
            simp only [kingPos_fields, kingPos_setKing_other _ hs2']
        refine Board.ext' ?_ ?_ ?_ (hkings Side.red) (hkings Side.black)
        · simp only [movePiece, undoMove, hmovG, hcapG, hre, if_neg hpk,
            if_pos hck2, setKing_grid]
          exact hgrid
        · simp only [movePiece, undoMove, hmovG, hcapG, hre, if_neg hpk,
            if_pos hck2, setKing_hash, xor_cancel]
        · simp only [movePiece, undoMove, hmovG, hcapG, hre, if_neg hpk,
            if_pos hck2, setKing_pieceCount]
          omega
    · by_cases hpk : p.type = PieceType.king
      · have hkp : b.kingPos p.side = some ⟨fr, fc⟩ := cacheOk_king hck hp hpk
        have hkings : ∀ s, (undoMove (movePiece b fr fc tr tc).1
            ⟨fr, fc, tr, tc, (movePiece b fr fc tr tc).2⟩).kingPos s = b.kingPos s := by
          intro s
          simp only [movePiece, undoMove, hmovG, hcapG, hre, if_pos hpk, if_neg hck2]
          by_cases hs : s = p.side
          · subst hs
            simp only [kingPos_fields, kingPos_setKing_same, hkp]
          · have hs' : p.side ≠ s := fun h => hs h.symm
            simp only [kingPos_fields, kingPos_setKing_other _ hs']
        refine Board.ext' ?_ ?_ ?_ (hkings Side.red) (hkings Side.black)
        · simp only [movePiece, undoMove, hmovG, hcapG, hre, if_pos hpk,
            if_neg hck2, setKing_grid]
          exact hgrid
        · simp only [movePiece, undoMove, hmovG, hcapG, hre, if_pos hpk,
            if_neg hck2, setKing_hash, xor_cancel]
        · simp only [movePiece, undoMove, hmovG, hcapG, hre, if_pos hpk,
            if_neg hck2, setKing_pieceCount]
          omega
      · have hkings : ∀ s, (undoMove (movePiece b fr fc tr tc).1
            ⟨fr, fc, tr, tc, (movePiece b fr fc tr tc).2⟩).kingPos s = b.kingPos s := by
          intro s
          simp only [movePiece, undoMove, hmovG, hcapG, hre, if_neg hpk, if_neg hck2,
            kingPos_fields]
        refine Board.ext' ?_ ?_ ?_ (hkings Side.red) (hkings Side.black)
        · simp only [movePiece, undoMove, hmovG, hcapG, hre, if_neg hpk, if_neg hck2]
          exact hgrid
        · simp only [movePiece, undoMove, hmovG, hcapG, hre, if_neg hpk,
            if_neg hck2, xor_cancel]
        · simp only [movePiece, undoMove, hmovG, hcapG, hre, if_neg hpk, if_neg hck2]
          omega

/-- C1: for every well-formed board and every pseudo-legal move
produced by generatePieceMoves, performing movePiece and then undoMove
with the record carrying the returned captured piece restores the
board bit-exactly — grid, Zobrist hash, piece count and cached king
positions all equal their pre-move values. -/
theorem C1_move_unmake_roundtrip (b : Board) (fr fc : Int) (m : MoveTo)
    (hwf : boardWF b = true) (hm : m ∈ generatePieceMoves b fr fc) :
    undoMove (movePiece b fr fc m.toRow m.toCol).1
      ⟨fr, fc, m.toRow, m.toCol, (movePiece b fr fc m.toRow m.toCol).2⟩ = b := by
  simp only [boardWF, Bool.and_eq_true] at hwf
  obtain ⟨hsh, hck⟩ := hwf
  obtain ⟨p, hp, hinTo, hneq, _⟩ := generatePieceMoves_sound hm
  have hinFrom := getPiece_some_inBoard hp
  rw [getPiece_eq_gridGet hinFrom] at hp
  exact moveUndo_restore hsh hck hp hinFrom hinTo hneq

/-- Witness for C1: the red cannon move (7,1) to (7,4) on the initial
position, made and unmade, restores the initial position. -/
theorem C1_move_unmake_roundtrip_witness :
    boardWF setupInitialPosition = true ∧
    (⟨7, 4⟩ : MoveTo) ∈ generatePieceMoves setupInitialPosition 7 1 ∧
    undoMove (movePiece setupInitialPosition 7 1 7 4).1
      ⟨7, 1, 7, 4, (movePiece setupInitialPosition 7 1 7 4).2⟩ =
      setupInitialPosition :=
  ⟨by decide, by decide,
    C1_move_unmake_roundtrip setupInitialPosition 7 1 ⟨7, 4⟩ (by decide) (by decide)⟩

/-- The legality filter fails exactly when neither kings-facing nor
self-check occurs after the move. -/
theorem wouldLeaveInCheck_eq_false_iff {b : Board} {fr fc tr tc : Int}
    {s : Side} :
    wouldLeaveInCheck b fr fc tr tc s = false ↔
    kingsAreFacing (movePiece b fr fc tr tc).1 = false ∧
    isUnderAttack (movePiece b fr fc tr tc).1 s = false := by
  unfold wouldLeaveInCheck
  dsimp only
  split
  · rename_i hf
    simp [hf]
  · rename_i hf
    simp only [Bool.not_eq_true] at hf
    simp [hf]

/-- C2: generateAllLegalMoves(B, s) contains exactly those moves (from,
to) with a piece of side s at `from`, `to` among the piece's
generatePieceMoves destinations, such that after making the move the
moving side is not in check and the kings are not facing. -/
theorem C2_legal_moves_exact (b : Board) (s : Side) (m : Move) :
    m ∈ generateAllLegalMoves b s ↔
    (∃ p ∈ getPieces b s, p.row = m.fromRow ∧ p.col = m.fromCol ∧
      (⟨m.toRow, m.toCol⟩ : MoveTo) ∈ generatePieceMoves b m.fromRow m.fromCol) ∧
    isInCheck (movePiece b m.fromRow m.fromCol m.toRow m.toCol).1 s = false ∧
    kingsAreFacing (movePiece b m.fromRow m.fromCol m.toRow m.toCol).1 = false := by
  constructor
  · intro hm
    simp only [generateAllLegalMoves, List.mem_flatMap, List.mem_filterMap] at hm
    obtain ⟨p, hp, mt, hmt, hite⟩ := hm
    split at hite
    · cases hite
    · rename_i hw
      cases hite
      simp only [Bool.not_eq_true] at hw
      rw [wouldLeaveInCheck_eq_false_iff] at hw
      exact ⟨⟨p, hp, rfl, rfl, hmt⟩, hw.2, hw.1⟩
  · rintro ⟨⟨p, hp, hr, hc, hmt⟩, hchk, hface⟩
    simp only [generateAllLegalMoves, List.mem_flatMap, List.mem_filterMap]
    have hwl : wouldLeaveInCheck b m.fromRow m.fromCol m.toRow m.toCol s = false := by
      rw [wouldLeaveInCheck_eq_false_iff]
      exact ⟨hface, hchk⟩
    refine ⟨p, hp, ⟨m.toRow, m.toCol⟩, by rw [hr, hc]; exact hmt, ?_⟩
    rw [hr, hc]
    dsimp only
    simp [hwl]

/-- Membership in getPieces: the listed piece is of the requested side,
on the board, and really sits in the grid. -/
theorem getPieces_mem {b : Board} {s : Side} {q : PP} (hq : q ∈ getPieces b s) :
    q.side = s ∧ isInBoard q.row q.col = true ∧
    gridGet b.grid q.row q.col = some ⟨q.type, q.side⟩ := by
  simp only [getPieces, List.mem_flatMap, List.mem_range] at hq
  obtain ⟨r, hr, c, hc, hcell⟩ := hq
  split at hcell
  · rename_i p hga
    split at hcell
    · rename_i hps
      simp only [List.mem_singleton] at hcell
      subst hcell
      refine ⟨hps, ?_, ?_⟩
      · rw [isInBoard_iff]
        dsimp only
        omega
      · rw [hga]
    · cases hcell
  · cases hcell

/-- The grid-level no-king test transfers to getPiece reads. -/
theorem noKing_spec {b : Board} {s : Side} (h : noKingB b s = true) :
    ∀ (r c : Int) (p : Piece), getPiece b r c = some p →
    ¬(p.side = s ∧ p.type = PieceType.king) := by
  intro r c p hp
  have hin := getPiece_some_inBoard hp
  rw [getPiece_eq_gridGet hin] at hp
  rw [isInBoard_iff] at hin
  simp only [noKingB, List.all_eq_true, List.mem_range] at h
  have h1 := h r.toNat (by omega) c.toNat (by omega)
  have hr : Int.ofNat r.toNat = r := Int.toNat_of_nonneg hin.1
  have hcc : Int.ofNat c.toNat = c := Int.toNat_of_nonneg hin.2.2.1
  rw [hr, hcc, hp] at h1
  rw [not_and_or]
  simpa using h1

/-- After movePiece, a side whose cache entry was empty and whose
pieces include no king still has an empty cache entry. -/
theorem movePiece_kingPos_none {b : Board} {s : Side} {fr fc tr tc : Int}
    (hcache : b.kingPos s = none)
    (hmov : ∀ p, gridGet b.grid fr fc = some p →
      ¬(p.side = s ∧ p.type = PieceType.king)) :
    (movePiece b fr fc tr tc).1.kingPos s = none := by
  simp only [movePiece]
  rcases hmv : gridGet b.grid fr fc with _ | pm <;>
    rcases hcp : gridGet b.grid tr tc with _ | pc <;>
    simp only [kingPos_fields]
  · exact hcache
  · split
    · rename_i hk
      by_cases hs : pc.side = s
      · subst hs
        rw [kingPos_setKing_same]
      · rw [kingPos_setKing_other _ hs]
        exact hcache
    · exact hcache
  · split
    · rename_i hk
      have := hmov pm hmv
      have hs : pm.side ≠ s := by tauto
      rw [kingPos_setKing_other _ hs]
      exact hcache
    · exact hcache
  · have hnotS : ∀ (x : Board), x.kingPos s = none →
        (if pm.type = PieceType.king
          then x.setKing pm.side (some ⟨tr, tc⟩) else x).kingPos s = none := by
      intro x hx
      split
      · have := hmov pm hmv
        have hs : pm.side ≠ s := by tauto
        rw [kingPos_setKing_other _ hs]
        exact hx
      · exact hx
    apply hnotS
    split
    · by_cases hs : pc.side = s
      · subst hs
        rw [kingPos_setKing_same]
      · rw [kingPos_setKing_other _ hs]
        exact hcache
    · exact hcache

/-- C10: when a board has no king of side s and the cache agrees,
isInCheck(B, s) is true and generateAllLegalMoves(B, s) is empty —
every candidate move of the kingless side is filtered out. -/
theorem C10_kingless_side (b : Board) (s : Side)
    (hnk : noKingB b s = true) (hcache : b.kingPos s = none) :
    isInCheck b s = true ∧ generateAllLegalMoves b s = [] := by
  have hspec := noKing_spec hnk
  constructor
  · unfold isInCheck isUnderAttack findKing
    rw [hcache]
  · unfold generateAllLegalMoves
    rw [List.flatMap_eq_nil_iff]
    intro p hp
    rw [List.filterMap_eq_nil_iff]
    intro mt hmt
    rw [if_pos ?_]
    obtain ⟨hside, hin, hcell⟩ := getPieces_mem hp
    have hmov : ∀ q, gridGet b.grid p.row p.col = some q →
        ¬(q.side = s ∧ q.type = PieceType.king) := by
      intro q hq
      apply hspec p.row p.col q
      rw [getPiece_eq_gridGet hin]
      exact hq
    have hkn := @movePiece_kingPos_none _ _ p.row p.col
      mt.toRow mt.toCol hcache hmov
    unfold wouldLeaveInCheck
    dsimp only
    split
    · rfl
    · unfold isUnderAttack findKing
      rw [hkn]

/-- Witness for C10: on the kingless test board the black side (no
black king) is reported in check and has no legal moves. -/
theorem C10_kingless_side_witness :
    noKingB kinglessBoard Side.black = true ∧
    kinglessBoard.kingPos Side.black = none ∧
    isInCheck kinglessBoard Side.black = true ∧
    generateAllLegalMoves kinglessBoard Side.black = [] := by
  refine ⟨by decide, by decide, ?_⟩
  exact C10_kingless_side kinglessBoard Side.black (by decide) (by decide)

/-- XOR commutes over a nested XOR (AC helper). -/
theorem xor_left_comm' (a b c : Nat) : a ^^^ (b ^^^ c) = b ^^^ (a ^^^ c) := by
  rw [← Nat.xor_assoc, Nat.xor_comm a b, Nat.xor_assoc]

/-- Fold congruence over the members of a list. -/
theorem foldl_congr' {α β : Type} {f g : β → α → β} {l : List α} :
    (∀ b x, x ∈ l → f b x = g b x) → ∀ b, l.foldl f b = l.foldl g b := by
  induction l with
  | nil => intro _ b; rfl
  | cons y t ih =>
    intro h b
    simp only [List.foldl_cons]
    rw [h b y (List.mem_cons_self y t)]
    exact ih (fun b x hx => h b x (List.mem_cons_of_mem y hx)) _

/-- Shifting the accumulator out of an XOR fold. -/
theorem foldl_xor_shift (w : Nat → Nat) (l : List Nat) (a : Nat) :
    l.foldl (fun h x => h ^^^ w x) a = a ^^^ xList w l := by
  induction l generalizing a with
  | nil => simp [xList]
  | cons y t ih =>
    simp only [List.foldl_cons, xList, Nat.zero_xor]
    rw [ih, ih (w y)]
    rw [← Nat.xor_assoc]

/-- Head unfolding of the XOR fold. -/
theorem xList_cons (w : Nat → Nat) (y : Nat) (t : List Nat) :
    xList w (y :: t) = w y ^^^ xList w t := by
  simp only [xList, List.foldl_cons, Nat.zero_xor]
  exact foldl_xor_shift w t (w y)

/-- The XOR fold only depends on the weights of the list members. -/
theorem xList_congr {w w' : Nat → Nat} {l : List Nat}
    (h : ∀ x ∈ l, w' x = w x) : xList w' l = xList w l := by
  induction l with
  | nil => rfl
  | cons y t ih =>
    rw [xList_cons, xList_cons, h y (List.mem_cons_self y t),
      ih (fun x hx => h x (List.mem_cons_of_mem y hx))]

/-- Changing the weight at one position of a duplicate-free list
changes the XOR fold by the old and new weights of that position. -/
theorem xList_update {w w' : Nat → Nat} {l : List Nat} {x0 : Nat}
    (hx : x0 ∈ l) (hnd : l.Nodup)
    (hagree : ∀ x ∈ l, x ≠ x0 → w' x = w x) :
    xList w' l = (xList w l ^^^ w x0) ^^^ w' x0 := by
  induction l with
  | nil => cases hx
  | cons y t ih =>
    rw [xList_cons, xList_cons]
    rcases List.mem_cons.mp hx with heq | hmem
    · subst heq
      have hnot : x0 ∉ t := (List.nodup_cons.mp hnd).1
      have : xList w' t = xList w t := by
        apply xList_congr
        intro x hxt
        exact hagree x (List.mem_cons_of_mem x0 hxt) (fun h => hnot (h ▸ hxt))
      rw [this]
      simp only [Nat.xor_assoc, Nat.xor_comm, xor_left_comm']
      rw [← Nat.xor_assoc, Nat.xor_self, Nat.zero_xor]
    · have hy : y ≠ x0 := by
        intro h
        exact (List.nodup_cons.mp hnd).1 (h ▸ hmem)
      rw [hagree y (List.mem_cons_self y t) hy]
      rw [ih hmem (List.nodup_cons.mp hnd).2
        (fun x hxt hne => hagree x (List.mem_cons_of_mem y hxt) hne)]
      simp [Nat.xor_assoc, Nat.xor_comm, xor_left_comm']

/-- computeHash as a nested XOR fold of cell keys. -/
theorem computeHash_eq_xList (g : Grid) :
    computeHash g = xList (rowKey g) (List.range 10) := by
  unfold computeHash
  have hinner : ∀ (r : Nat) (a : Nat),
      (List.range 9).foldl (fun h c =>
        match gridGet g (Int.ofNat r) (Int.ofNat c) with
        | some p => h ^^^ pieceKeys p.type p.side r c
        | none => h) a = a ^^^ rowKey g r := by
    intro r a
    have : (List.range 9).foldl (fun h c =>
        match gridGet g (Int.ofNat r) (Int.ofNat c) with
        | some p => h ^^^ pieceKeys p.type p.side r c
        | none => h) a =
        (List.range 9).foldl (fun h c => h ^^^ cellKey g r c) a := by
      apply foldl_congr'
      intro h c hc
      unfold cellKey keyOpt
      rcases gridGet g (Int.ofNat r) (Int.ofNat c) with _ | p
      · simp
      · rfl
    rw [this]
    exact foldl_xor_shift _ _ a
  have : (List.range 10).foldl (fun h r =>
      (List.range 9).foldl (fun h c =>
        match gridGet g (Int.ofNat r) (Int.ofNat c) with
        | some p => h ^^^ pieceKeys p.type p.side r c
        | none => h) h) 0 =
      (List.range 10).foldl (fun h r => h ^^^ rowKey g r) 0 := by
    apply foldl_congr'
    intro h r hr
    exact hinner r h
  rw [this]
  rfl

/-- XOR cancellation inside a right-nested chain. -/
theorem xor_cancel_left' (a b : Nat) : a ^^^ (a ^^^ b) = b := by
  rw [← Nat.xor_assoc, Nat.xor_self, Nat.zero_xor]

/-- A conditional setKing never changes the grid. -/
theorem ite_setKing_grid (P : Prop) [Decidable P] (x : Board) (s : Side)
    (v : Option Pos) : (if P then x.setKing s v else x).grid = x.grid := by
  split
  · exact setKing_grid x s v
  · rfl

/-- A conditional setKing never changes the hash. -/
theorem ite_setKing_hash (P : Prop) [Decidable P] (x : Board) (s : Side)
    (v : Option Pos) : (if P then x.setKing s v else x).hash = x.hash := by
  split
  · exact setKing_hash x s v
  · rfl

/-- A conditional setKing never changes the piece count. -/
theorem ite_setKing_pieceCount (P : Prop) [Decidable P] (x : Board) (s : Side)
    (v : Option Pos) : (if P then x.setKing s v else x).pieceCount =
    x.pieceCount := by
  split
  · exact setKing_pieceCount x s v
  · rfl

/-- Effect of one grid write on the recomputed hash: XOR out the old
cell key and XOR in the new one. -/
theorem computeHash_gridSet {g : Grid} (hsh : shapedB g = true) {r c : Int}
    (hin : isInBoard r c = true) (v : Option Piece) :
    computeHash (gridSet g r c v) =
      (computeHash g ^^^ keyOpt (gridGet g r c) r c) ^^^ keyOpt v r c := by
  rw [isInBoard_iff] at hin
  have hr : Int.ofNat r.toNat = r := Int.toNat_of_nonneg hin.1
  have hcc : Int.ofNat c.toNat = c := Int.toNat_of_nonneg hin.2.2.1
  have hIB : isInBoard r c = true := by rw [isInBoard_iff]; tauto
  rw [computeHash_eq_xList, computeHash_eq_xList]
  have hrowOther : ∀ r' ∈ List.range 10, r' ≠ r.toNat →
      rowKey (gridSet g r c v) r' = rowKey g r' := by
    intro r' hr' hner
    apply xList_congr
    intro c' hc'
    unfold cellKey
    rw [gridGet_gridSet_ne hsh hIB ?_ ?_]
    · rw [isInBoard_iff]
      simp only [List.mem_range] at hr' hc'
      simp only [Int.ofNat_eq_natCast]
      omega
    · simp only [List.mem_range] at hr'
      intro hcon
      apply hner
      simp only [Int.ofNat_eq_natCast] at hcon
      omega
  have hrow : rowKey (gridSet g r c v) r.toNat =
      (rowKey g r.toNat ^^^ cellKey g r.toNat c.toNat) ^^^
        cellKey (gridSet g r c v) r.toNat c.toNat := by
    unfold rowKey
    apply @xList_update _ _ _ c.toNat
    · simp only [List.mem_range]
      omega
    · exact List.nodup_range 9
    · intro c' hc' hnec
      unfold cellKey
      rw [gridGet_gridSet_ne hsh hIB ?_ ?_]
      · rw [isInBoard_iff]
        simp only [List.mem_range] at hc'
        simp only [Int.ofNat_eq_natCast]
        omega
      · intro hcon
        apply hnec
        simp only [Int.ofNat_eq_natCast] at hcon
        omega
  have hcellNew : cellKey (gridSet g r c v) r.toNat c.toNat = keyOpt v r c := by
    unfold cellKey
    rw [hr, hcc, gridGet_gridSet_self hsh hIB]
  have hcellOld : cellKey g r.toNat c.toNat = keyOpt (gridGet g r c) r c := by
    unfold cellKey
    rw [hr, hcc]
  rw [@xList_update _ _ _ r.toNat (by simp only [List.mem_range]; omega)
    (List.nodup_range 10) hrowOther, hrow, hcellNew, hcellOld]
  simp [Nat.xor_assoc, Nat.xor_comm, xor_left_comm', xor_cancel_left',
    Nat.xor_self, Nat.xor_zero, Nat.zero_xor]

/-- Grid view of movePiece. -/
theorem movePiece_grid (b : Board) (fr fc tr tc : Int) :
    (movePiece b fr fc tr tc).1.grid =
    gridSet (gridSet b.grid tr tc (gridGet b.grid fr fc)) fr fc none := rfl

/-- Captured-piece view of movePiece. -/
theorem movePiece_captured (b : Board) (fr fc tr tc : Int) :
    (movePiece b fr fc tr tc).2 = gridGet b.grid tr tc := rfl

/-- Hash view of movePiece in keyOpt form. -/
theorem movePiece_hash (b : Board) (fr fc tr tc : Int) :
    (movePiece b fr fc tr tc).1.hash =
    ((b.hash ^^^ (keyOpt (gridGet b.grid fr fc) fr fc ^^^
      keyOpt (gridGet b.grid fr fc) tr tc)) ^^^
      keyOpt (gridGet b.grid tr tc) tr tc) ^^^ sideKey := by
  simp only [movePiece]
  rcases gridGet b.grid fr fc with _ | pm <;>
    rcases gridGet b.grid tr tc with _ | pc <;>
    simp [keyOpt, ite_setKing_hash, Nat.xor_assoc]

/-- Grid view of undoMove. -/
theorem undoMove_grid (b : Board) (mr : MoveRecord) :
    (undoMove b mr).grid =
    gridSet (gridSet b.grid mr.fromRow mr.fromCol
      (gridGet b.grid mr.toRow mr.toCol)) mr.toRow mr.toCol mr.captured := rfl

/-- Hash view of undoMove in keyOpt form. -/
theorem undoMove_hash (b : Board) (mr : MoveRecord) :
    (undoMove b mr).hash =
    ((b.hash ^^^ sideKey) ^^^ keyOpt mr.captured mr.toRow mr.toCol) ^^^
      (keyOpt (gridGet b.grid mr.toRow mr.toCol) mr.toRow mr.toCol ^^^
       keyOpt (gridGet b.grid mr.toRow mr.toCol) mr.fromRow mr.fromCol) := by
  simp only [undoMove]
  rcases gridGet b.grid mr.toRow mr.toCol with _ | pm <;>
    rcases mr.captured with _ | pc <;>
    simp [keyOpt, ite_setKing_hash, Nat.xor_assoc]

/-- One valid mutation flips the hash-vs-recomputed-hash drift by
exactly the side key, and keeps the grid shaped. -/
theorem applyOp_drift {b : Board} {op : BOp} (hsh : shapedB b.grid = true)
    (hv : opValidB b op = true) :
    (applyOp b op).hash ^^^ computeHash (applyOp b op).grid =
      (b.hash ^^^ computeHash b.grid) ^^^ sideKey ∧
    shapedB (applyOp b op).grid = true := by
  cases op with
  | mv fr fc tr tc =>
    simp only [opValidB, Bool.and_eq_true] at hv
    obtain ⟨hf, ht⟩ := hv
    have hsh1 : shapedB (gridSet b.grid tr tc (gridGet b.grid fr fc)) = true :=
      shaped_gridSet hsh _ _ _
    have hmid : gridGet (gridSet b.grid tr tc (gridGet b.grid fr fc)) fr fc =
        gridGet b.grid fr fc := by
      by_cases hcell : tr = fr ∧ tc = fc
      · obtain ⟨h1, h2⟩ := hcell
        subst h1
        subst h2
        exact gridGet_gridSet_self hsh ht _
      · exact gridGet_gridSet_ne hsh ht hf hcell _
    constructor
    · show (movePiece b fr fc tr tc).1.hash ^^^
        computeHash (movePiece b fr fc tr tc).1.grid = _
      rw [movePiece_hash, movePiece_grid,
        computeHash_gridSet hsh1 hf, hmid,
        computeHash_gridSet hsh ht]
      simp [keyOpt, Nat.xor_assoc, Nat.xor_comm, xor_left_comm',
        xor_cancel_left', Nat.xor_self, Nat.xor_zero, Nat.zero_xor]
    · show shapedB (movePiece b fr fc tr tc).1.grid = true
      rw [movePiece_grid]
      exact shaped_gridSet hsh1 _ _ _
  | un mr =>
    simp only [opValidB, Bool.and_eq_true] at hv
    obtain ⟨⟨hf, ht⟩, hempty⟩ := hv
    rw [Option.isNone_iff_eq_none] at hempty
    have hsh1 : shapedB (gridSet b.grid mr.fromRow mr.fromCol
        (gridGet b.grid mr.toRow mr.toCol)) = true :=
      shaped_gridSet hsh _ _ _
    have hmid : gridGet (gridSet b.grid mr.fromRow mr.fromCol
        (gridGet b.grid mr.toRow mr.toCol)) mr.toRow mr.toCol =
        gridGet b.grid mr.toRow mr.toCol := by
      by_cases hcell : mr.fromRow = mr.toRow ∧ mr.fromCol = mr.toCol
      · obtain ⟨h1, h2⟩ := hcell
        rw [h1, h2]
        rw [h1, h2] at hf
        exact gridGet_gridSet_self hsh hf _
      · exact gridGet_gridSet_ne hsh hf ht hcell _
    constructor
    · show (undoMove b mr).hash ^^^ computeHash (undoMove b mr).grid = _
      rw [undoMove_hash, undoMove_grid,
        computeHash_gridSet hsh1 ht, hmid,
        computeHash_gridSet hsh hf, hempty]
      simp [keyOpt, Nat.xor_assoc, Nat.xor_comm, xor_left_comm',
        xor_cancel_left', Nat.xor_self, Nat.xor_zero, Nat.zero_xor]
    · show shapedB (undoMove b mr).grid = true
      rw [undoMove_grid]
      exact shaped_gridSet hsh1 _ _ _

/-- Over a valid trace the drift accumulates one side key per
operation (modulo the XOR involution). -/
theorem trace_drift : ∀ (ops : List BOp) (b : Board),
    shapedB b.grid = true → traceValidB b ops = true →
    ((applyTrace b ops).hash ^^^ computeHash (applyTrace b ops).grid =
      (b.hash ^^^ computeHash b.grid) ^^^
        (if ops.length % 2 = 1 then sideKey else 0)) ∧
    shapedB (applyTrace b ops).grid = true := by
  intro ops
  induction ops with
  | nil =>
    intro b hsh _
    simp [applyTrace, hsh]
  | cons op rest ih =>
    intro b hsh hv
    simp only [traceValidB, Bool.and_eq_true] at hv
    obtain ⟨hop, hrest⟩ := hv
    obtain ⟨hdrift, hsh'⟩ := applyOp_drift hsh hop
    have happ : applyTrace b (op :: rest) = applyTrace (applyOp b op) rest := rfl
    obtain ⟨ihd, ihs⟩ := ih (applyOp b op) hsh' hrest
    rw [happ]
    refine ⟨?_, ihs⟩
    rw [ihd, hdrift]
    rcases Nat.even_or_odd rest.length with he | ho
    · have h1 : rest.length % 2 = 0 := Nat.even_iff.mp he
      have h2 : (op :: rest).length % 2 = 1 := by
        simp only [List.length_cons]
        omega
      rw [h1, h2]
      simp [Nat.xor_assoc]
    · have h1 : rest.length % 2 = 1 := Nat.odd_iff.mp ho
      have h2 : (op :: rest).length % 2 = 0 := by
        simp only [List.length_cons]
        omega
      rw [h1, h2]
      simp [Nat.xor_assoc, Nat.xor_self]

/-- Fold preservation of grid and hash. -/
theorem foldl_grid_hash {α : Type} {f : Board → α → Board}
    (h : ∀ b x, (f b x).grid = b.grid ∧ (f b x).hash = b.hash) :
    ∀ (l : List α) (b : Board),
    (l.foldl f b).grid = b.grid ∧ (l.foldl f b).hash = b.hash := by
  intro l
  induction l with
  | nil => intro b; exact ⟨rfl, rfl⟩
  | cons y t ih =>
    intro b
    simp only [List.foldl_cons]
    obtain ⟨h1, h2⟩ := ih (f b y)
    obtain ⟨h3, h4⟩ := h b y
    exact ⟨h1.trans h3, h2.trans h4⟩

/-- rebuildMeta keeps grid and hash unchanged. -/
theorem rebuildMeta_grid_hash (b : Board) :
    (rebuildMeta b).grid = b.grid ∧ (rebuildMeta b).hash = b.hash := by
  simp only [rebuildMeta]
  refine foldl_grid_hash ?_ _ _
  intro x r
  refine foldl_grid_hash ?_ _ _
  intro y c
  rcases gridGet y.grid (r : Int) (c : Int) with _ | p
  · exact ⟨rfl, rfl⟩
  · exact ⟨ite_setKing_grid _ _ _ _, ite_setKing_hash _ _ _ _⟩

/-- fromJSON installs the (identity-copied) data grid and the freshly
recomputed hash. -/
theorem fromJSON_grid_hash (b : Board) (data : Grid) :
    (fromJSON b data).grid = data ∧ (fromJSON b data).hash = computeHash data := by
  have hmap : data.map (fun row => row.map (fun cell => cell)) = data := by
    simp
  simp only [fromJSON, hmap]
  exact rebuildMeta_grid_hash _

/-- setupInitialPosition satisfies the hash invariant by construction. -/
theorem setupInitialPosition_hash :
    setupInitialPosition.hash = computeHash setupInitialPosition.grid := rfl

/-- C6: along every valid sequence of movePiece/undoMove calls starting
from setupInitialPosition or from a deserialized (well-shaped) board,
the hash equals the XOR of the piece keys over all occupied squares
(what computeHash recomputes), XORed with sideKey exactly when the
number of applied operations is odd (each movePiece toggles it, each
undoMove toggles it back); in particular after every completed
move/unmake pair the hash equals the plain recomputed XOR. -/
theorem C6_hash_invariant (b0 : Board) (ops : List BOp)
    (hstart : b0 = setupInitialPosition ∨
      ∃ bprev data, shapedB data = true ∧ b0 = fromJSON bprev data)
    (hv : traceValidB b0 ops = true) :
    (applyTrace b0 ops).hash =
      if ops.length % 2 = 1 then
        computeHash (applyTrace b0 ops).grid ^^^ sideKey
      else computeHash (applyTrace b0 ops).grid := by
  have hsh : shapedB b0.grid = true := by
    rcases hstart with h | ⟨bprev, data, hd, h⟩
    · rw [h]
      decide
    · rw [h, (fromJSON_grid_hash bprev data).1]
      exact hd
  have hh : b0.hash = computeHash b0.grid := by
    rcases hstart with h | ⟨bprev, data, hd, h⟩
    · rw [h]
      exact setupInitialPosition_hash
    · rw [h, (fromJSON_grid_hash bprev data).1, (fromJSON_grid_hash bprev data).2]
  obtain ⟨hdrift, _⟩ := trace_drift ops b0 hsh hv
  rw [hh, Nat.xor_self, Nat.zero_xor] at hdrift
  rcases Nat.mod_two_eq_zero_or_one ops.length with hmod | hmod
  · rw [hmod] at hdrift
    rw [hmod, if_neg (by omega : ¬((0 : Nat) = 1))]
    rw [if_neg (by omega : ¬((0 : Nat) = 1))] at hdrift
    rw [← Nat.xor_eq_zero]
    exact hdrift
  · rw [hmod] at hdrift
    rw [hmod, if_pos rfl]
    rw [if_pos rfl] at hdrift
    have h3 := congrArg (fun x => x ^^^ computeHash (applyTrace b0 ops).grid) hdrift
    simp only at h3
    rwa [Nat.xor_assoc, Nat.xor_self, Nat.xor_zero, Nat.xor_comm sideKey] at h3

/-- Witness for C6: a cannon move made and unmade from the initial
position is a valid two-operation trace, after which the hash equals
the recomputed grid XOR (even number of operations). -/
theorem C6_hash_invariant_witness :
    traceValidB setupInitialPosition
      [BOp.mv 7 1 7 4, BOp.un ⟨7, 1, 7, 4, none⟩] = true ∧
    (applyTrace setupInitialPosition
      [BOp.mv 7 1 7 4, BOp.un ⟨7, 1, 7, 4, none⟩]).hash =
      computeHash (applyTrace setupInitialPosition
        [BOp.mv 7 1 7 4, BOp.un ⟨7, 1, 7, 4, none⟩]).grid := by
  refine ⟨by decide, ?_⟩
  have h := C6_hash_invariant setupInitialPosition
    [BOp.mv 7 1 7 4, BOp.un ⟨7, 1, 7, 4, none⟩] (Or.inl rfl) (by decide)
  simpa using h

/-- Counterexample for C8: deserializing an inconsistent grid (two red
kings) raises no failure and does not leave the board in its previous
state — the grid is replaced and the rebuilt cache points at the last
scanned red king. -/
theorem C8_fromJSON_counterexample :
    (fromJSON setupInitialPosition twoKingsData).grid ≠
      setupInitialPosition.grid ∧
    (fromJSON setupInitialPosition twoKingsData).kingRed =
      some ⟨9, 4⟩ ∧
    (fromJSON setupInitialPosition twoKingsData).pieceCount = 2 := by
  refine ⟨by decide, by decide, by decide⟩

/-- C8 (amended): fromJSON performs no validation and cannot fail: for
every previous board and every serialized grid — consistent or not —
it discards the previous state entirely (the result does not depend on
the previous board), installs the copied data grid and recomputes the
hash from scratch. -/
theorem C8_fromJSON_no_validation (b b' : Board) (data : Grid) :
    fromJSON b data = fromJSON b' data ∧
    (fromJSON b data).grid = data ∧
    (fromJSON b data).hash = computeHash data := by
  refine ⟨rfl, (fromJSON_grid_hash b data).1, (fromJSON_grid_hash b data).2⟩

/-- Counterexample for C4: a probe hitting a lower-bound entry whose
stored score (100) is at least beta (50) returns beta, not the stored
score. -/
theorem C4_probe_counterexample :
    (TranspositionTable.mk
      (fun i => if i = 5 then
        some ⟨5, 3, Score.fin 100, TTFlag.betaFlag, none, 0⟩ else none)
      0).probe 5 3 (Score.fin 0) (Score.fin 50) =
      some ⟨none, some (Score.fin 50)⟩ ∧
    some (Score.fin 50) ≠ some (Score.fin 100) := by
  refine ⟨by decide, by decide⟩

/-- C4 (amended): on a probe that finds an entry with the same hash and
sufficient depth, EXACT returns the stored score; the ALPHA (upper
bound) flag returns alpha itself when the stored score is at most
alpha; the BETA (lower bound) flag returns beta itself when the stored
score is at least beta; otherwise no score is returned, only the
stored best move for ordering. -/
theorem C4_probe_characterization (tt : TranspositionTable) (hash : Nat)
    (depth : Nat) (alpha beta : Score) (entry : TTEntry)
    (he : tt.entries (hash &&& TT_MASK) = some entry)
    (hh : entry.hash = hash) (hd : entry.depth ≥ depth) :
    tt.probe hash depth alpha beta = some
      { bestMove := entry.bestMove,
        score :=
          if entry.flag = TTFlag.exact then some entry.score
          else if entry.flag = TTFlag.alphaFlag ∧
              Score.leB entry.score alpha = true then some alpha
          else if entry.flag = TTFlag.betaFlag ∧
              Score.leB beta entry.score = true then some beta
          else none } := by
  unfold TranspositionTable.probe
  rw [he]
  dsimp only
  rw [if_neg (show ¬(entry.hash ≠ hash) from fun hcon => hcon hh)]
  rw [if_pos hd]
  split
  · rfl
  · split
    · rfl
    · split
      · rfl
      · rfl

/-- Witness for C4's characterization: an EXACT entry of ample depth
returns its stored score. -/
theorem C4_probe_characterization_witness :
    (TranspositionTable.mk
      (fun i => if i = 7 then
        some ⟨7, 4, Score.fin 33, TTFlag.exact, none, 0⟩ else none)
      0).probe 7 2 (Score.fin 0) (Score.fin 50) =
      some { bestMove := none, score := some (Score.fin 33) } := by
  have h := C4_probe_characterization
    (TranspositionTable.mk
      (fun i => if i = 7 then
        some ⟨7, 4, Score.fin 33, TTFlag.exact, none, 0⟩ else none)
      0) 7 2 (Score.fin 0) (Score.fin 50)
    ⟨7, 4, Score.fin 33, TTFlag.exact, none, 0⟩
    (by decide) (by decide) (by decide)
  simpa using h

/-- The keyed counter after n identical β-cutoff bookkeeping calls. -/
theorem iterStoreHistory_value (s : Side) (m : Move) (d : Int) (n : Nat)
    (h0 : HKey → Int) :
    getHistory (iterStoreHistory s m d n h0) s m =
      getHistory h0 s m + n * (d * d) := by
  induction n with
  | zero => simp [iterStoreHistory]
  | succ k ih =>
    show getHistory (storeHistory (iterStoreHistory s m d k h0) s m d) s m = _
    unfold getHistory storeHistory
    rw [if_pos rfl]
    have ih' : iterStoreHistory s m d k h0
        (s, m.fromRow, m.fromCol, m.toRow, m.toCol) =
        h0 (s, m.fromRow, m.fromCol, m.toRow, m.toCol) + k * (d * d) := ih
    rw [ih']
    push_cast
    ring

/-- Counterexample for C7: 7900 β-cutoff bookkeeping calls at depth 8
drive history[side][from][to] to 505600, beyond the claimed 500000
cap — the source applies no saturation. -/
theorem C7_history_counterexample :
    getHistory (iterStoreHistory Side.red ⟨0, 0, 0, 1⟩ 8 7900 (fun _ => 0))
      Side.red ⟨0, 0, 0, 1⟩ = 505600 ∧ (505600 : Int) > 500000 := by
  constructor
  · rw [iterStoreHistory_value]
    norm_num [getHistory]
  · norm_num

/-- C7 (amended): on every β-cutoff from a quiet move storeHistory adds
depth squared to history[side][from][to] and leaves every other key
unchanged, with no saturation: the counter exceeds every bound after
enough calls (so in particular it does not saturate at 500000). -/
theorem C7_history_unbounded (s : Side) (m : Move) (bound : Int) :
    (∀ (h : HKey → Int) (depth : Int),
      getHistory (storeHistory h s m depth) s m =
        getHistory h s m + depth * depth ∧
      ∀ k, k ≠ (s, m.fromRow, m.fromCol, m.toRow, m.toCol) →
        storeHistory h s m depth k = h k) ∧
    ∃ n : Nat, getHistory (iterStoreHistory s m 8 n (fun _ => 0)) s m > bound := by
  constructor
  · intro h depth
    constructor
    · unfold getHistory storeHistory
      rw [if_pos rfl]
    · intro k hk
      unfold storeHistory
      rw [if_neg hk]
  · refine ⟨bound.toNat + 1, ?_⟩
    rw [iterStoreHistory_value]
    unfold getHistory
    push_cast
    omega

/-- One fuel step of the dark-chess cannon scan. -/
theorem dcCannonRay_succ (b : DCBoard) (s : Side) (fr fc dr dc r c : Int)
    (jumped : Nat) (n : Nat) :
    dcCannonRay b s fr fc dr dc r c jumped (n + 1) =
    if dcIsInBoard r c then
      match dcGetPiece b r c with
      | some t =>
        if jumped = 0 then dcCannonRay b s fr fc dr dc (r + dr) (c + dc) 1 n
        else
          if t.revealed = true ∧ t.side ≠ s then [DCAction.capture fr fc r c]
          else []
      | none => dcCannonRay b s fr fc dr dc (r + dr) (c + dc) jumped n
    else [] := rfl

/-- Every action emitted by the cannon scan is a capture from the
scanning cannon's square. -/
theorem dcCannonRay_shape (b : DCBoard) (s : Side) (fr fc dr dc : Int) :
    ∀ (fuel : Nat) (r c : Int) (jumped : Nat) (a : DCAction),
    a ∈ dcCannonRay b s fr fc dr dc r c jumped fuel →
    ∃ tr tc, a = DCAction.capture fr fc tr tc := by
  intro fuel
  induction fuel with
  | zero => intro r c j a ha; simp [dcCannonRay] at ha
  | succ n ih =>
    intro r c j a ha
    rw [dcCannonRay_succ] at ha
    split at ha
    · split at ha
      · split at ha
        · exact ih _ _ _ _ ha
        · split at ha
          · simp only [List.mem_singleton] at ha
            exact ⟨_, _, ha⟩
          · simp at ha
      · exact ih _ _ _ _ ha
    · simp at ha

/-- An empty strictly-between segment. -/
theorem occCountCols_base (b : DCBoard) (r c : Int) :
    occCountCols b r c (c + 1) = 0 := by
  unfold occCountCols
  have : (c + 1 - c - 1).toNat = 0 := by omega
  rw [this]
  rfl

/-- Extending the strictly-between segment by one column at the top. -/
theorem occCountCols_succ (b : DCBoard) (r c : Int) (k : Nat) (hk : 1 ≤ k) :
    occCountCols b r c (c + (k + 1 : Nat)) =
      occCountCols b r c (c + (k : Nat)) +
        (if (dcGetPiece b r (c + (k : Nat))).isSome then 1 else 0) := by
  unfold occCountCols
  have h1 : (c + (k + 1 : Nat) - c - 1).toNat = (k - 1) + 1 := by omega
  have h2 : (c + (k : Nat) - c - 1).toNat = k - 1 := by omega
  rw [h1, h2, List.range_succ, List.countP_append]
  have h4 : List.countP
      (fun (i : Nat) => (dcGetPiece b r (c + 1 + (i : Int))).isSome) [k - 1] =
      if (dcGetPiece b r (c + (k : Nat))).isSome then 1 else 0 := by
    have h5 : c + 1 + ((k - 1 : Nat) : Int) = c + ((k : Nat) : Int) := by
      push_cast
      omega
    simp only [List.countP_singleton, h5]
  rw [h4]

/-- Monotonicity of the between-count in the upper column. -/
theorem occCountCols_mono (b : DCBoard) (r c : Int) (k n : Nat) (hk : 1 ≤ k)
    (hkn : k ≤ n) :
    occCountCols b r c (c + (k : Nat)) ≤ occCountCols b r c (c + (n : Nat)) := by
  induction n with
  | zero => omega
  | succ m ih =>
    rcases Nat.lt_or_ge k (m + 1) with h | h
    · have h5 : 1 ≤ m := by omega
      calc occCountCols b r c (c + (k : Nat)) ≤
          occCountCols b r c (c + (m : Nat)) := ih (by omega)
        _ ≤ occCountCols b r c (c + (m + 1 : Nat)) := by
            rw [occCountCols_succ b r c m h5]
            omega
    · have : k = m + 1 := by omega
      subst this
      exact le_refl _

/-- Unfolding of the dark-chess bounds test. -/
theorem dcIsInBoard_iff {r c : Int} :
    dcIsInBoard r c = true ↔ 0 ≤ r ∧ r < 4 ∧ 0 ≤ c ∧ c < 8 := by
  simp [dcIsInBoard, DC_ROWS, DC_COLS]
  tauto

/-- An occupied dark-chess square is on the board. -/
theorem dcGetPiece_some_inBoard {b : DCBoard} {r c : Int} {p : DCPiece}
    (h : dcGetPiece b r c = some p) : dcIsInBoard r c = true := by
  unfold dcGetPiece at h
  split at h
  · assumption
  · cases h

/-- Characterization of the rightward cannon scan: a capture is emitted
exactly at a revealed enemy piece further right on the same row with
exactly one occupied cell strictly between cannon and target (the walk
is entered at offset k with `jumped` equal to the number of occupied
cells already passed). -/
theorem dcRay_right_iff (b : DCBoard) (s : Side) (fr fc : Int) (hfc : 0 ≤ fc) :
    ∀ (fuel k j : Nat), 1 ≤ k → 17 ≤ fuel + k →
    j = occCountCols b fr fc (fc + (k : Nat)) → j ≤ 1 →
    ∀ tr tc,
    (DCAction.capture fr fc tr tc ∈
      dcCannonRay b s fr fc 0 1 fr (fc + (k : Nat)) j fuel ↔
      ∃ n : Nat, k ≤ n ∧ tr = fr ∧ tc = fc + (n : Nat) ∧
        (∃ t, dcGetPiece b fr (fc + (n : Nat)) = some t ∧ t.revealed = true ∧
          t.side ≠ s) ∧
        occCountCols b fr fc (fc + (n : Nat)) = 1) := by
  intro fuel
  induction fuel with
  | zero =>
    intro k j hk hfuel hj hj1 tr tc
    constructor
    · intro hm
      simp [dcCannonRay] at hm
    · rintro ⟨n, hkn, _, _, ⟨t, ht, _, _⟩, _⟩
      exfalso
      have hin := dcGetPiece_some_inBoard ht
      rw [dcIsInBoard_iff] at hin
      omega
  | succ m ih =>
    intro k j hk hfuel hj hj1 tr tc
    rw [dcCannonRay_succ]
    by_cases hin : dcIsInBoard fr (fc + (k : Nat)) = true
    · rw [if_pos hin]
      rcases hcell : dcGetPiece b fr (fc + (k : Nat)) with _ | t
      · dsimp only
        have hco : fr + 0 = fr := by ring
        have hco2 : fc + ((k : Nat) : Int) + 1 = fc + ((k + 1 : Nat) : Int) := by
          push_cast
          ring
        rw [hco, hco2]
        have hj' : j = occCountCols b fr fc (fc + ((k + 1 : Nat) : Int)) := by
          rw [occCountCols_succ b fr fc k hk, hcell]
          simpa using hj
        rw [ih (k + 1) j (by omega) (by omega) hj' hj1 tr tc]
        constructor
        · rintro ⟨n, hkn, h1, h2, h3, h4⟩
          exact ⟨n, by omega, h1, h2, h3, h4⟩
        · rintro ⟨n, hkn, h1, h2, ⟨t, ht, hrev, hside⟩, h4⟩
          refine ⟨n, ?_, h1, h2, ⟨t, ht, hrev, hside⟩, h4⟩
          rcases Nat.lt_or_ge k n with hlt | hge
          · omega
          · exfalso
            have : n = k := by omega
            subst this
            rw [hcell] at ht
            cases ht
      · dsimp only
        by_cases hjz : j = 0
        · subst hjz
          rw [if_pos rfl]
          have hco : fr + 0 = fr := by ring
          have hco2 : fc + ((k : Nat) : Int) + 1 = fc + ((k + 1 : Nat) : Int) := by
            push_cast
            ring
          rw [hco, hco2]
          have hj' : (1 : Nat) = occCountCols b fr fc (fc + ((k + 1 : Nat) : Int)) := by
            rw [occCountCols_succ b fr fc k hk, hcell]
            simp [← hj]
          rw [ih (k + 1) 1 (by omega) (by omega) hj' (by omega) tr tc]
          constructor
          · rintro ⟨n, hkn, h1, h2, h3, h4⟩
            exact ⟨n, by omega, h1, h2, h3, h4⟩
          · rintro ⟨n, hkn, h1, h2, h3, h4⟩
            refine ⟨n, ?_, h1, h2, h3, h4⟩
            rcases Nat.lt_or_ge k n with hlt | hge
            · omega
            · exfalso
              have : n = k := by omega
              subst this
              rw [← hj] at h4
              omega
        · have hj1' : j = 1 := by omega
          subst hj1'
          rw [if_neg (by omega : ¬(1 = 0))]
          constructor
          · intro hm
            split at hm
            · rename_i hcond
              simp only [List.mem_singleton] at hm
              cases hm
              refine ⟨k, le_refl k, rfl, rfl, ⟨t, hcell, hcond.1, hcond.2⟩, ?_⟩
              omega
            · simp at hm
          · rintro ⟨n, hkn, h1, h2, ⟨t', ht', hrev, hside⟩, h4⟩
            rcases Nat.lt_or_ge k n with hlt | hge
            · exfalso
              have hmono := occCountCols_mono b fr fc (k + 1) n (by omega) (by omega)
              have hsucc := occCountCols_succ b fr fc k hk
              rw [hcell, ← hj] at hsucc
              simp only [Option.isSome_some, if_true] at hsucc
              omega
            · have hnk : n = k := by omega
              subst hnk
              rw [hcell] at ht'
              cases ht'
              subst h1
              subst h2
              rw [if_pos ⟨hrev, hside⟩]
              simp
    · rw [if_neg hin]
      constructor
      · intro hm
        simp at hm
      · rintro ⟨n, hkn, h1, h2, ⟨t, ht, _, _⟩, _⟩
        exfalso
        have hin' := dcGetPiece_some_inBoard ht
        rw [dcIsInBoard_iff] at hin'
        rw [dcIsInBoard_iff] at hin
        push_neg at hin
        omega

/-- Extending an empty bottom segment. -/
theorem occCountCols_base_bot (b : DCBoard) (r c : Int) :
    occCountCols b r (c - 1) c = 0 := by
  unfold occCountCols
  have : (c - (c - 1) - 1).toNat = 0 := by omega
  rw [this]
  rfl

/-- Extending the strictly-between segment by one column at the bottom. -/
theorem occCountCols_succ_bot (b : DCBoard) (r c : Int) (k : Nat) (hk : 1 ≤ k) :
    occCountCols b r (c - ((k + 1 : Nat) : Int)) c =
      (if (dcGetPiece b r (c - (k : Nat))).isSome then 1 else 0) +
        occCountCols b r (c - ((k : Nat) : Int)) c := by
  unfold occCountCols
  have h1 : (c - (c - ((k + 1 : Nat) : Int)) - 1).toNat = (k - 1) + 1 := by omega
  have h2 : (c - (c - ((k : Nat) : Int)) - 1).toNat = k - 1 := by omega
  rw [h1, h2, List.range_succ_eq_map, List.countP_cons]
  have h3 : c - ((k + 1 : Nat) : Int) + 1 + ((0 : Nat) : Int) = c - (k : Nat) := by
    push_cast
    ring
  rw [Nat.add_comm]
  congr 1
  · simp only [h3]
  · rw [List.countP_map]
    apply List.countP_congr
    intro i hi
    have h4 : c - ((k + 1 : Nat) : Int) + 1 + ((i + 1 : Nat) : Int) =
        c - ((k : Nat) : Int) + 1 + (i : Int) := by
      push_cast
      ring
    simp only [Function.comp_apply, Nat.succ_eq_add_one, h4]

/-- Monotonicity of the between-count in the lower column. -/
theorem occCountCols_mono_bot (b : DCBoard) (r c : Int) (k n : Nat) (hk : 1 ≤ k)
    (hkn : k ≤ n) :
    occCountCols b r (c - ((k : Nat) : Int)) c ≤
      occCountCols b r (c - ((n : Nat) : Int)) c := by
  induction n with
  | zero => omega
  | succ m ih =>
    rcases Nat.lt_or_ge k (m + 1) with h | h
    · have h5 : 1 ≤ m := by omega
      calc occCountCols b r (c - ((k : Nat) : Int)) c ≤
          occCountCols b r (c - ((m : Nat) : Int)) c := ih (by omega)
        _ ≤ occCountCols b r (c - ((m + 1 : Nat) : Int)) c := by
            rw [occCountCols_succ_bot b r c m h5]
            omega
    · have : k = m + 1 := by omega
      subst this
      exact le_refl _

/-- An empty strictly-between segment (rows). -/
theorem occCountRows_base (b : DCBoard) (c r : Int) :
    occCountRows b c r (r + 1) = 0 := by
  unfold occCountRows
  have : (r + 1 - r - 1).toNat = 0 := by omega
  rw [this]
  rfl

/-- Extending the strictly-between segment by one row at the top. -/
theorem occCountRows_succ (b : DCBoard) (c r : Int) (k : Nat) (hk : 1 ≤ k) :
    occCountRows b c r (r + (k + 1 : Nat)) =
      occCountRows b c r (r + (k : Nat)) +
        (if (dcGetPiece b (r + (k : Nat)) c).isSome then 1 else 0) := by
  unfold occCountRows
  have h1 : (r + (k + 1 : Nat) - r - 1).toNat = (k - 1) + 1 := by omega
  have h2 : (r + (k : Nat) - r - 1).toNat = k - 1 := by omega
  rw [h1, h2, List.range_succ, List.countP_append]
  have h4 : List.countP
      (fun (i : Nat) => (dcGetPiece b (r + 1 + (i : Int)) c).isSome) [k - 1] =
      if (dcGetPiece b (r + (k : Nat)) c).isSome then 1 else 0 := by
    have h5 : r + 1 + ((k - 1 : Nat) : Int) = r + ((k : Nat) : Int) := by
      push_cast
      omega
    simp only [List.countP_singleton, h5]
  rw [h4]

/-- Monotonicity of the between-count in the upper row. -/
theorem occCountRows_mono (b : DCBoard) (c r : Int) (k n : Nat) (hk : 1 ≤ k)
    (hkn : k ≤ n) :
    occCountRows b c r (r + (k : Nat)) ≤ occCountRows b c r (r + (n : Nat)) := by
  induction n with
  | zero => omega
  | succ m ih =>
    rcases Nat.lt_or_ge k (m + 1) with h | h
    · have h5 : 1 ≤ m := by omega
      calc occCountRows b c r (r + (k : Nat)) ≤
          occCountRows b c r (r + (m : Nat)) := ih (by omega)
        _ ≤ occCountRows b c r (r + (m + 1 : Nat)) := by
            rw [occCountRows_succ b c r m h5]
            omega
    · have : k = m + 1 := by omega
      subst this
      exact le_refl _

/-- Extending an empty bottom segment (rows). -/
theorem occCountRows_base_bot (b : DCBoard) (c r : Int) :
    occCountRows b c (r - 1) r = 0 := by
  unfold occCountRows
  have : (r - (r - 1) - 1).toNat = 0 := by omega
  rw [this]
  rfl

/-- Extending the strictly-between segment by one row at the bottom. -/
theorem occCountRows_succ_bot (b : DCBoard) (c r : Int) (k : Nat) (hk : 1 ≤ k) :
    occCountRows b c (r - ((k + 1 : Nat) : Int)) r =
      (if (dcGetPiece b (r - (k : Nat)) c).isSome then 1 else 0) +
        occCountRows b c (r - ((k : Nat) : Int)) r := by
  unfold occCountRows
  have h1 : (r - (r - ((k + 1 : Nat) : Int)) - 1).toNat = (k - 1) + 1 := by omega
  have h2 : (r - (r - ((k : Nat) : Int)) - 1).toNat = k - 1 := by omega
  rw [h1, h2, List.range_succ_eq_map, List.countP_cons]
  have h3 : r - ((k + 1 : Nat) : Int) + 1 + ((0 : Nat) : Int) = r - (k : Nat) := by
    push_cast
    ring
  rw [Nat.add_comm]
  congr 1
  · simp only [h3]
  · rw [List.countP_map]
    apply List.countP_congr
    intro i hi
    have h4 : r - ((k + 1 : Nat) : Int) + 1 + ((i + 1 : Nat) : Int) =
        r - ((k : Nat) : Int) + 1 + (i : Int) := by
      push_cast
      ring
    simp only [Function.comp_apply, Nat.succ_eq_add_one, h4]

/-- Monotonicity of the between-count in the lower row. -/
theorem occCountRows_mono_bot (b : DCBoard) (c r : Int) (k n : Nat) (hk : 1 ≤ k)
    (hkn : k ≤ n) :
    occCountRows b c (r - ((k : Nat) : Int)) r ≤
      occCountRows b c (r - ((n : Nat) : Int)) r := by
  induction n with
  | zero => omega
  | succ m ih =>
    rcases Nat.lt_or_ge k (m + 1) with h | h
    · have h5 : 1 ≤ m := by omega
      calc occCountRows b c (r - ((k : Nat) : Int)) r ≤
          occCountRows b c (r - ((m : Nat) : Int)) r := ih (by omega)
        _ ≤ occCountRows b c (r - ((m + 1 : Nat) : Int)) r := by
            rw [occCountRows_succ_bot b c r m h5]
            omega
    · have : k = m + 1 := by omega
      subst this
      exact le_refl _

/-- Characterization of the leftward cannon scan. -/
theorem dcRay_left_iff (b : DCBoard) (s : Side) (fr fc : Int) (hfc : fc ≤ 7) :
    ∀ (fuel k j : Nat), 1 ≤ k → 17 ≤ fuel + k →
    j = occCountCols b fr (fc - ((k : Nat) : Int)) fc → j ≤ 1 →
    ∀ tr tc,
    (DCAction.capture fr fc tr tc ∈
      dcCannonRay b s fr fc 0 (-1) fr (fc - ((k : Nat) : Int)) j fuel ↔
      ∃ n : Nat, k ≤ n ∧ tr = fr ∧ tc = fc - ((n : Nat) : Int) ∧
        (∃ t, dcGetPiece b fr (fc - ((n : Nat) : Int)) = some t ∧
          t.revealed = true ∧ t.side ≠ s) ∧
        occCountCols b fr (fc - ((n : Nat) : Int)) fc = 1) := by
  intro fuel
  induction fuel with
  | zero =>
    intro k j hk hfuel hj hj1 tr tc
    constructor
    · intro hm
      simp [dcCannonRay] at hm
    · rintro ⟨n, hkn, _, _, ⟨t, ht, _, _⟩, _⟩
      exfalso
      have hin := dcGetPiece_some_inBoard ht
      rw [dcIsInBoard_iff] at hin
      omega
  | succ m ih =>
    intro k j hk hfuel hj hj1 tr tc
    rw [dcCannonRay_succ]
    by_cases hin : dcIsInBoard fr (fc - ((k : Nat) : Int)) = true
    · rw [if_pos hin]
      rcases hcell : dcGetPiece b fr (fc - ((k : Nat) : Int)) with _ | t
      · dsimp only
        have hco : fr + 0 = fr := by ring
        have hco2 : fc - ((k : Nat) : Int) + -1 = fc - ((k + 1 : Nat) : Int) := by
          push_cast
          ring
        rw [hco, hco2]
        have hj' : j = occCountCols b fr (fc - ((k + 1 : Nat) : Int)) fc := by
          rw [occCountCols_succ_bot b fr fc k hk, hcell]
          simpa using hj
        rw [ih (k + 1) j (by omega) (by omega) hj' hj1 tr tc]
        constructor
        · rintro ⟨n, hkn, h1, h2, h3, h4⟩
          exact ⟨n, by omega, h1, h2, h3, h4⟩
        · rintro ⟨n, hkn, h1, h2, ⟨t, ht, hrev, hside⟩, h4⟩
          refine ⟨n, ?_, h1, h2, ⟨t, ht, hrev, hside⟩, h4⟩
          rcases Nat.lt_or_ge k n with hlt | hge
          · omega
          · exfalso
            have : n = k := by omega
            subst this
            rw [hcell] at ht
            cases ht
      · dsimp only
        by_cases hjz : j = 0
        · subst hjz
          rw [if_pos rfl]
          have hco : fr + 0 = fr := by ring
          have hco2 : fc - ((k : Nat) : Int) + -1 = fc - ((k + 1 : Nat) : Int) := by
            push_cast
            ring
          rw [hco, hco2]
          have hj' : (1 : Nat) =
              occCountCols b fr (fc - ((k + 1 : Nat) : Int)) fc := by
            rw [occCountCols_succ_bot b fr fc k hk, hcell]
            simp [← hj]
          rw [ih (k + 1) 1 (by omega) (by omega) hj' (by omega) tr tc]
          constructor
          · rintro ⟨n, hkn, h1, h2, h3, h4⟩
            exact ⟨n, by omega, h1, h2, h3, h4⟩
          · rintro ⟨n, hkn, h1, h2, h3, h4⟩
            refine ⟨n, ?_, h1, h2, h3, h4⟩
            rcases Nat.lt_or_ge k n with hlt | hge
            · omega
            · exfalso
              have : n = k := by omega
              subst this
              rw [← hj] at h4
              omega
        · have hj1' : j = 1 := by omega
          subst hj1'
          rw [if_neg (by omega : ¬(1 = 0))]
          constructor
          · intro hm
            split at hm
            · rename_i hcond
              simp only [List.mem_singleton] at hm
              cases hm
              refine ⟨k, le_refl k, rfl, rfl, ⟨t, hcell, hcond.1, hcond.2⟩, ?_⟩
              omega
            · simp at hm
          · rintro ⟨n, hkn, h1, h2, ⟨t', ht', hrev, hside⟩, h4⟩
            rcases Nat.lt_or_ge k n with hlt | hge
            · exfalso
              have hmono := occCountCols_mono_bot b fr fc (k + 1) n
                (by omega) (by omega)
              have hsucc := occCountCols_succ_bot b fr fc k hk
              rw [hcell, ← hj] at hsucc
              simp only [Option.isSome_some, if_true] at hsucc
              omega
            · have hnk : n = k := by omega
              subst hnk
              rw [hcell] at ht'
              cases ht'
              subst h1
              subst h2
              rw [if_pos ⟨hrev, hside⟩]
              simp
    · rw [if_neg hin]
      constructor
      · intro hm
        simp at hm
      · rintro ⟨n, hkn, h1, h2, ⟨t, ht, _, _⟩, _⟩
        exfalso
        have hin' := dcGetPiece_some_inBoard ht
        rw [dcIsInBoard_iff] at hin'
        rw [dcIsInBoard_iff] at hin
        push_neg at hin
        omega

/-- Characterization of the downward cannon scan. -/
theorem dcRay_down_iff (b : DCBoard) (s : Side) (fr fc : Int) (hfr : 0 ≤ fr) :
    ∀ (fuel k j : Nat), 1 ≤ k → 17 ≤ fuel + k →
    j = occCountRows b fc fr (fr + (k : Nat)) → j ≤ 1 →
    ∀ tr tc,
    (DCAction.capture fr fc tr tc ∈
      dcCannonRay b s fr fc 1 0 (fr + ((k : Nat) : Int)) fc j fuel ↔
      ∃ n : Nat, k ≤ n ∧ tr = fr + ((n : Nat) : Int) ∧ tc = fc ∧
        (∃ t, dcGetPiece b (fr + ((n : Nat) : Int)) fc = some t ∧
          t.revealed = true ∧ t.side ≠ s) ∧
        occCountRows b fc fr (fr + ((n : Nat) : Int)) = 1) := by
  intro fuel
  induction fuel with
  | zero =>
    intro k j hk hfuel hj hj1 tr tc
    constructor
    · intro hm
      simp [dcCannonRay] at hm
    · rintro ⟨n, hkn, _, _, ⟨t, ht, _, _⟩, _⟩
      exfalso
      have hin := dcGetPiece_some_inBoard ht
      rw [dcIsInBoard_iff] at hin
      omega
  | succ m ih =>
    intro k j hk hfuel hj hj1 tr tc
    rw [dcCannonRay_succ]
    by_cases hin : dcIsInBoard (fr + ((k : Nat) : Int)) fc = true
    · rw [if_pos hin]
      rcases hcell : dcGetPiece b (fr + ((k : Nat) : Int)) fc with _ | t
      · dsimp only
        have hco : fc + 0 = fc := by ring
        have hco2 : fr + ((k : Nat) : Int) + 1 = fr + ((k + 1 : Nat) : Int) := by
          push_cast
          ring
        rw [hco, hco2]
        have hj' : j = occCountRows b fc fr (fr + ((k + 1 : Nat) : Int)) := by
          rw [occCountRows_succ b fc fr k hk, hcell]
          simpa using hj
        rw [ih (k + 1) j (by omega) (by omega) hj' hj1 tr tc]
        constructor
        · rintro ⟨n, hkn, h1, h2, h3, h4⟩
          exact ⟨n, by omega, h1, h2, h3, h4⟩
        · rintro ⟨n, hkn, h1, h2, ⟨t, ht, hrev, hside⟩, h4⟩
          refine ⟨n, ?_, h1, h2, ⟨t, ht, hrev, hside⟩, h4⟩
          rcases Nat.lt_or_ge k n with hlt | hge
          · omega
          · exfalso
            have : n = k := by omega
            subst this
            rw [hcell] at ht
            cases ht
      · dsimp only
        by_cases hjz : j = 0
        · subst hjz
          rw [if_pos rfl]
          have hco : fc + 0 = fc := by ring
          have hco2 : fr + ((k : Nat) : Int) + 1 = fr + ((k + 1 : Nat) : Int) := by
            push_cast
            ring
          rw [hco, hco2]
          have hj' : (1 : Nat) = occCountRows b fc fr (fr + ((k + 1 : Nat) : Int)) := by
            rw [occCountRows_succ b fc fr k hk, hcell]
            simp [← hj]
          rw [ih (k + 1) 1 (by omega) (by omega) hj' (by omega) tr tc]
          constructor
          · rintro ⟨n, hkn, h1, h2, h3, h4⟩
            exact ⟨n, by omega, h1, h2, h3, h4⟩
          · rintro ⟨n, hkn, h1, h2, h3, h4⟩
            refine ⟨n, ?_, h1, h2, h3, h4⟩
            rcases Nat.lt_or_ge k n with hlt | hge
            · omega
            · exfalso
              have : n = k := by omega
              subst this
              rw [← hj] at h4
              omega
        · have hj1' : j = 1 := by omega
          subst hj1'
          rw [if_neg (by omega : ¬(1 = 0))]
          constructor
          · intro hm
            split at hm
            · rename_i hcond
              simp only [List.mem_singleton] at hm
              cases hm
              refine ⟨k, le_refl k, rfl, rfl, ⟨t, hcell, hcond.1, hcond.2⟩, ?_⟩
              omega
            · simp at hm
          · rintro ⟨n, hkn, h1, h2, ⟨t', ht', hrev, hside⟩, h4⟩
            rcases Nat.lt_or_ge k n with hlt | hge
            · exfalso
              have hmono := occCountRows_mono b fc fr (k + 1) n (by omega) (by omega)
              have hsucc := occCountRows_succ b fc fr k hk
              rw [hcell, ← hj] at hsucc
              simp only [Option.isSome_some, if_true] at hsucc
              omega
            · have hnk : n = k := by omega
              subst hnk
              rw [hcell] at ht'
              cases ht'
              subst h1
              subst h2
              rw [if_pos ⟨hrev, hside⟩]
              simp
    · rw [if_neg hin]
      constructor
      · intro hm
        simp at hm
      · rintro ⟨n, hkn, h1, h2, ⟨t, ht, _, _⟩, _⟩
        exfalso
        have hin' := dcGetPiece_some_inBoard ht
        rw [dcIsInBoard_iff] at hin'
        rw [dcIsInBoard_iff] at hin
        push_neg at hin
        omega

/-- Characterization of the upward cannon scan. -/
theorem dcRay_up_iff (b : DCBoard) (s : Side) (fr fc : Int) (hfr : fr ≤ 3) :
    ∀ (fuel k j : Nat), 1 ≤ k → 17 ≤ fuel + k →
    j = occCountRows b fc (fr - ((k : Nat) : Int)) fr → j ≤ 1 →
    ∀ tr tc,
    (DCAction.capture fr fc tr tc ∈
      dcCannonRay b s fr fc (-1) 0 (fr - ((k : Nat) : Int)) fc j fuel ↔
      ∃ n : Nat, k ≤ n ∧ tr = fr - ((n : Nat) : Int) ∧ tc = fc ∧
        (∃ t, dcGetPiece b (fr - ((n : Nat) : Int)) fc = some t ∧
          t.revealed = true ∧ t.side ≠ s) ∧
        occCountRows b fc (fr - ((n : Nat) : Int)) fr = 1) := by
  intro fuel
  induction fuel with
  | zero =>
    intro k j hk hfuel hj hj1 tr tc
    constructor
    · intro hm
      simp [dcCannonRay] at hm
    · rintro ⟨n, hkn, _, _, ⟨t, ht, _, _⟩, _⟩
      exfalso
      have hin := dcGetPiece_some_inBoard ht
      rw [dcIsInBoard_iff] at hin
      omega
  | succ m ih =>
    intro k j hk hfuel hj hj1 tr tc
    rw [dcCannonRay_succ]
    by_cases hin : dcIsInBoard (fr - ((k : Nat) : Int)) fc = true
    · rw [if_pos hin]
      rcases hcell : dcGetPiece b (fr - ((k : Nat) : Int)) fc with _ | t
      · dsimp only
        have hco : fc + 0 = fc := by ring
        have hco2 : fr - ((k : Nat) : Int) + -1 = fr - ((k + 1 : Nat) : Int) := by
          push_cast
          ring
        rw [hco, hco2]
        have hj' : j = occCountRows b fc (fr - ((k + 1 : Nat) : Int)) fr := by
          rw [occCountRows_succ_bot b fc fr k hk, hcell]
          simpa using hj
        rw [ih (k + 1) j (by omega) (by omega) hj' hj1 tr tc]
        constructor
        · rintro ⟨n, hkn, h1, h2, h3, h4⟩
          exact ⟨n, by omega, h1, h2, h3, h4⟩
        · rintro ⟨n, hkn, h1, h2, ⟨t, ht, hrev, hside⟩, h4⟩
          refine ⟨n, ?_, h1, h2, ⟨t, ht, hrev, hside⟩, h4⟩
          rcases Nat.lt_or_ge k n with hlt | hge
          · omega
          · exfalso
            have : n = k := by omega
            subst this
            rw [hcell] at ht
            cases ht
      · dsimp only
        by_cases hjz : j = 0
        · subst hjz
          rw [if_pos rfl]
          have hco : fc + 0 = fc := by ring
          have hco2 : fr - ((k : Nat) : Int) + -1 = fr - ((k + 1 : Nat) : Int) := by
            push_cast
            ring
          rw [hco, hco2]
          have hj' : (1 : Nat) =
              occCountRows b fc (fr - ((k + 1 : Nat) : Int)) fr := by
            rw [occCountRows_succ_bot b fc fr k hk, hcell]
            simp [← hj]
          rw [ih (k + 1) 1 (by omega) (by omega) hj' (by omega) tr tc]
          constructor
          · rintro ⟨n, hkn, h1, h2, h3, h4⟩
            exact ⟨n, by omega, h1, h2, h3, h4⟩
          · rintro ⟨n, hkn, h1, h2, h3, h4⟩
            refine ⟨n, ?_, h1, h2, h3, h4⟩
            rcases Nat.lt_or_ge k n with hlt | hge
            · omega
            · exfalso
              have : n = k := by omega
              subst this
              rw [← hj] at h4
              omega
        · have hj1' : j = 1 := by omega
          subst hj1'
          rw [if_neg (by omega : ¬(1 = 0))]
          constructor
          · intro hm
            split at hm
            · rename_i hcond
              simp only [List.mem_singleton] at hm
              cases hm
              refine ⟨k, le_refl k, rfl, rfl, ⟨t, hcell, hcond.1, hcond.2⟩, ?_⟩
              omega
            · simp at hm
          · rintro ⟨n, hkn, h1, h2, ⟨t', ht', hrev, hside⟩, h4⟩
            rcases Nat.lt_or_ge k n with hlt | hge
            · exfalso
              have hmono := occCountRows_mono_bot b fc fr (k + 1) n
                (by omega) (by omega)
              have hsucc := occCountRows_succ_bot b fc fr k hk
              rw [hcell, ← hj] at hsucc
              simp only [Option.isSome_some, if_true] at hsucc
              omega
            · have hnk : n = k := by omega
              subst hnk
              rw [hcell] at ht'
              cases ht'
              subst h1
              subst h2
              rw [if_pos ⟨hrev, hside⟩]
              simp
    · rw [if_neg hin]
      constructor
      · intro hm
        simp at hm
      · rintro ⟨n, hkn, h1, h2, ⟨t, ht, _, _⟩, _⟩
        exfalso
        have hin' := dcGetPiece_some_inBoard ht
        rw [dcIsInBoard_iff] at hin'
        rw [dcIsInBoard_iff] at hin
        push_neg at hin
        omega

/-- Every capture emitted by dcCellActions carries that cell as its
from-coordinates. -/
theorem dcCellActions_capture_from {b : DCBoard} {s : Side} {r c : Int}
    {a1 a2 a3 a4 : Int}
    (hm : DCAction.capture a1 a2 a3 a4 ∈ dcCellActions b s r c) :
    a1 = r ∧ a2 = c := by
  unfold dcCellActions at hm
  rcases hcell : dcGetPiece b r c with _ | piece
  · rw [hcell] at hm
    simp at hm
  · rw [hcell] at hm
    dsimp only at hm
    by_cases h1 : piece.revealed ≠ true
    · rw [if_pos h1] at hm
      simp at hm
    · rw [if_neg h1] at hm
      by_cases h2 : piece.side ≠ s
      · rw [if_pos h2] at hm
        simp at hm
      · rw [if_neg h2] at hm
        rw [List.mem_append] at hm
        rcases hm with hm | hm
        · rw [List.mem_filterMap] at hm
          obtain ⟨d, hd, hfd⟩ := hm
          repeat' split at hfd
          all_goals simp_all
        · by_cases h3 : piece.type = PieceType.cannon
          · rw [if_pos h3] at hm
            rw [List.mem_flatMap] at hm
            obtain ⟨d, hd, hray⟩ := hm
            obtain ⟨tr, tc, heq⟩ := dcCannonRay_shape b s r c d.1 d.2 16 _ _ 0 _ hray
            simp only [DCAction.capture.injEq] at heq
            exact ⟨heq.1, heq.2.1⟩
          · rw [if_neg h3] at hm
            simp at hm

/-- A capture action of generateDarkChessMoves with occupied
from-cell comes exactly from that cell's action list. -/
theorem gen_capture_iff_cell (b : DCBoard) (s : Side) (fr fc tr tc : Int)
    (p : DCPiece) (hp : dcGetPiece b fr fc = some p) :
    (DCAction.capture fr fc tr tc ∈ generateDarkChessMoves b s ↔
     DCAction.capture fr fc tr tc ∈ dcCellActions b s fr fc) := by
  have hin := dcGetPiece_some_inBoard hp
  rw [dcIsInBoard_iff] at hin
  constructor
  · intro hm
    unfold generateDarkChessMoves at hm
    simp only [List.mem_flatMap, List.mem_range] at hm
    obtain ⟨r, hr, c, hc, hmem⟩ := hm
    obtain ⟨h1, h2⟩ := dcCellActions_capture_from hmem
    rw [← h1, ← h2] at hmem
    exact hmem
  · intro hm
    unfold generateDarkChessMoves
    simp only [List.mem_flatMap, List.mem_range]
    refine ⟨fr.toNat, by omega, fc.toNat, by omega, ?_⟩
    have h1 : Int.ofNat fr.toNat = fr := by
      rw [Int.ofNat_eq_natCast]
      exact Int.toNat_of_nonneg hin.1
    have h2 : Int.ofNat fc.toNat = fc := by
      rw [Int.ofNat_eq_natCast]
      exact Int.toNat_of_nonneg hin.2.2.1
    rw [h1, h2]
    exact hm

/-- For a revealed own cannon, the cell's captures are exactly the
four jump scans: the adjacent-step part emits no capture. -/
theorem dcCell_cannon_capture_mem (b : DCBoard) (s : Side) (fr fc tr tc : Int)
    (p : DCPiece) (hp : dcGetPiece b fr fc = some p) (hrev : p.revealed = true)
    (hside : p.side = s) (htyp : p.type = PieceType.cannon) :
    (DCAction.capture fr fc tr tc ∈ dcCellActions b s fr fc ↔
     DCAction.capture fr fc tr tc ∈
       [((-1 : Int), (0 : Int)), (1, 0), (0, -1), (0, 1)].flatMap
         (fun d => dcCannonRay b s fr fc d.1 d.2 (fr + d.1) (fc + d.2) 0 16)) := by
  unfold dcCellActions
  rw [hp]
  dsimp only
  rw [if_neg (by simp [hrev]), if_neg (by simp [hside]), if_pos htyp,
    List.mem_append]
  constructor
  · rintro (hm | hm)
    · exfalso
      rw [List.mem_filterMap] at hm
      obtain ⟨d, hd, hfd⟩ := hm
      repeat' split at hfd
      all_goals first
        | (rename_i hcond; exact hcond.1 htyp)
        | cases hfd
        | simp_all
    · exact hm
  · intro hm
    exact Or.inr hm

/-- The cannon's four jump scans emit a capture to (tr,tc) exactly
when a revealed enemy stands there and cannonCanCapture holds. -/
theorem dcJumps_capture_iff (b : DCBoard) (s : Side) (fr fc tr tc : Int)
    (hb0 : 0 ≤ fr) (hb1 : fr < 4) (hb2 : 0 ≤ fc) (hb3 : fc < 8) :
    (DCAction.capture fr fc tr tc ∈
      [((-1 : Int), (0 : Int)), (1, 0), (0, -1), (0, 1)].flatMap
        (fun d => dcCannonRay b s fr fc d.1 d.2 (fr + d.1) (fc + d.2) 0 16) ↔
      ((∃ t, dcGetPiece b tr tc = some t ∧ t.revealed = true ∧ t.side ≠ s) ∧
       cannonCanCapture b fr fc tr tc = true)) := by
  have hc1 : ((1 : Nat) : Int) = 1 := by norm_num
  have hjup : (0 : Nat) = occCountRows b fc (fr - ((1 : Nat) : Int)) fr := by
    rw [hc1]
    exact (occCountRows_base_bot b fc fr).symm
  have hjdown : (0 : Nat) = occCountRows b fc fr (fr + ((1 : Nat) : Int)) := by
    rw [hc1]
    exact (occCountRows_base b fc fr).symm
  have hjleft : (0 : Nat) = occCountCols b fr (fc - ((1 : Nat) : Int)) fc := by
    rw [hc1]
    exact (occCountCols_base_bot b fr fc).symm
  have hjright : (0 : Nat) = occCountCols b fr fc (fc + ((1 : Nat) : Int)) := by
    rw [hc1]
    exact (occCountCols_base b fr fc).symm
  have hup := dcRay_up_iff b s fr fc (by omega) 16 1 0 (le_refl 1) (by omega)
    hjup (by omega) tr tc
  have hdown := dcRay_down_iff b s fr fc (by omega) 16 1 0 (le_refl 1)
    (by omega) hjdown (by omega) tr tc
  have hleft := dcRay_left_iff b s fr fc (by omega) 16 1 0 (le_refl 1)
    (by omega) hjleft (by omega) tr tc
  have hright := dcRay_right_iff b s fr fc (by omega) 16 1 0 (le_refl 1)
    (by omega) hjright (by omega) tr tc
  rw [hc1] at hup hdown hleft hright
  simp only [List.flatMap_cons, List.flatMap_nil, List.append_nil,
    List.mem_append]
  rw [show fr + (-1 : Int) = fr - 1 from by ring,
    show fc + (-1 : Int) = fc - 1 from by ring,
    show fc + (0 : Int) = fc from by ring,
    show fr + (0 : Int) = fr from by ring]
  rw [hup, hdown, hleft, hright]
  constructor
  · rintro (hm | hm | hm | hm) <;>
      obtain ⟨n, hn1, htr, htc, ⟨t, ht, htrev, htside⟩, hcnt⟩ := hm <;>
      rw [htr, htc]
    · have hn2 : 2 ≤ n := by
        by_contra hlt
        have hn1' : n = 1 := by omega
        subst hn1'
        rw [hc1] at hcnt
        have := occCountRows_base_bot b fc fr
        omega
      refine ⟨⟨t, ht, htrev, htside⟩, ?_⟩
      unfold cannonCanCapture
      rw [if_neg (by intro h; exact h.2 rfl)]
      rw [if_neg (by intro h; have := h.1; omega)]
      rw [if_neg (by omega : ¬(fr = fr - (n : Int)))]
      dsimp only
      rw [min_eq_right (by omega : fr - (n : Int) ≤ fr),
        max_eq_left (by omega : fr - (n : Int) ≤ fr)]
      rw [if_neg (by omega : ¬(fr - (fr - (n : Int)) < 2))]
      simp [hcnt]
    · have hn2 : 2 ≤ n := by
        by_contra hlt
        have hn1' : n = 1 := by omega
        subst hn1'
        rw [hc1] at hcnt
        have := occCountRows_base b fc fr
        omega
      refine ⟨⟨t, ht, htrev, htside⟩, ?_⟩
      unfold cannonCanCapture
      rw [if_neg (by intro h; exact h.2 rfl)]
      rw [if_neg (by intro h; have := h.1; omega)]
      rw [if_neg (by omega : ¬(fr = fr + (n : Int)))]
      dsimp only
      rw [min_eq_left (by omega : fr ≤ fr + (n : Int)),
        max_eq_right (by omega : fr ≤ fr + (n : Int))]
      rw [if_neg (by omega : ¬(fr + (n : Int) - fr < 2))]
      simp [hcnt]
    · have hn2 : 2 ≤ n := by
        by_contra hlt
        have hn1' : n = 1 := by omega
        subst hn1'
        rw [hc1] at hcnt
        have := occCountCols_base_bot b fr fc
        omega
      refine ⟨⟨t, ht, htrev, htside⟩, ?_⟩
      unfold cannonCanCapture
      rw [if_neg (by intro h; exact h.1 rfl)]
      rw [if_neg (by intro h; have := h.2; omega)]
      rw [if_pos rfl]
      dsimp only
      rw [min_eq_right (by omega : fc - (n : Int) ≤ fc),
        max_eq_left (by omega : fc - (n : Int) ≤ fc)]
      rw [if_neg (by omega : ¬(fc - (fc - (n : Int)) < 2))]
      simp [hcnt]
    · have hn2 : 2 ≤ n := by
        by_contra hlt
        have hn1' : n = 1 := by omega
        subst hn1'
        rw [hc1] at hcnt
        have := occCountCols_base b fr fc
        omega
      refine ⟨⟨t, ht, htrev, htside⟩, ?_⟩
      unfold cannonCanCapture
      rw [if_neg (by intro h; exact h.1 rfl)]
      rw [if_neg (by intro h; have := h.2; omega)]
      rw [if_pos rfl]
      dsimp only
      rw [min_eq_left (by omega : fc ≤ fc + (n : Int)),
        max_eq_right (by omega : fc ≤ fc + (n : Int))]
      rw [if_neg (by omega : ¬(fc + (n : Int) - fc < 2))]
      simp [hcnt]
  · rintro ⟨⟨t, ht, htrev, htside⟩, hcc⟩
    unfold cannonCanCapture at hcc
    by_cases hA : fr ≠ tr ∧ fc ≠ tc
    · rw [if_pos hA] at hcc
      simp at hcc
    · rw [if_neg hA] at hcc
      by_cases hB : fr = tr ∧ fc = tc
      · rw [if_pos hB] at hcc
        simp at hcc
      · rw [if_neg hB] at hcc
        by_cases hr : fr = tr
        · rw [if_pos hr] at hcc
          dsimp only at hcc
          have hne : fc ≠ tc := fun h => hB ⟨hr, h⟩
          rcases lt_or_gt_of_ne hne with hlt | hgt
          · rw [min_eq_left (le_of_lt hlt), max_eq_right (le_of_lt hlt)] at hcc
            by_cases hd2 : tc - fc < 2
            · rw [if_pos hd2] at hcc
              simp at hcc
            · rw [if_neg hd2] at hcc
              have hcnt : occCountCols b fr fc tc = 1 := by simpa using hcc
              refine Or.inr (Or.inr (Or.inr ?_))
              refine ⟨(tc - fc).toNat, by omega, hr.symm, by omega,
                ⟨t, ?_, htrev, htside⟩, ?_⟩
              · rw [show fc + (((tc - fc).toNat : Nat) : Int) = tc from by omega,
                  hr]
                exact ht
              · rw [show fc + (((tc - fc).toNat : Nat) : Int) = tc from by omega]
                exact hcnt
          · rw [min_eq_right (le_of_lt hgt), max_eq_left (le_of_lt hgt)] at hcc
            by_cases hd2 : fc - tc < 2
            · rw [if_pos hd2] at hcc
              simp at hcc
            · rw [if_neg hd2] at hcc
              have hcnt : occCountCols b fr tc fc = 1 := by simpa using hcc
              refine Or.inr (Or.inr (Or.inl ?_))
              refine ⟨(fc - tc).toNat, by omega, hr.symm, by omega,
                ⟨t, ?_, htrev, htside⟩, ?_⟩
              · rw [show fc - (((fc - tc).toNat : Nat) : Int) = tc from by omega,
                  hr]
                exact ht
              · rw [show fc - (((fc - tc).toNat : Nat) : Int) = tc from by omega]
                exact hcnt
        · rw [if_neg hr] at hcc
          dsimp only at hcc
          have hcB : fc = tc := by
            by_contra h
            exact hA ⟨hr, h⟩
          rcases lt_or_gt_of_ne hr with hlt | hgt
          · rw [min_eq_left (le_of_lt hlt), max_eq_right (le_of_lt hlt)] at hcc
            by_cases hd2 : tr - fr < 2
            · rw [if_pos hd2] at hcc
              simp at hcc
            · rw [if_neg hd2] at hcc
              have hcnt : occCountRows b fc fr tr = 1 := by simpa using hcc
              refine Or.inr (Or.inl ?_)
              refine ⟨(tr - fr).toNat, by omega, by omega, hcB.symm,
                ⟨t, ?_, htrev, htside⟩, ?_⟩
              · rw [show fr + (((tr - fr).toNat : Nat) : Int) = tr from by omega,
                  hcB]
                exact ht
              · rw [show fr + (((tr - fr).toNat : Nat) : Int) = tr from by omega]
                exact hcnt
          · rw [min_eq_right (le_of_lt hgt), max_eq_left (le_of_lt hgt)] at hcc
            by_cases hd2 : fr - tr < 2
            · rw [if_pos hd2] at hcc
              simp at hcc
            · rw [if_neg hd2] at hcc
              have hcnt : occCountRows b fc tr fr = 1 := by simpa using hcc
              refine Or.inl ?_
              refine ⟨(fr - tr).toNat, by omega, by omega, hcB.symm,
                ⟨t, ?_, htrev, htside⟩, ?_⟩
              · rw [show fr - (((fr - tr).toNat : Nat) : Int) = tr from by omega,
                  hcB]
                exact ht
              · rw [show fr - (((fr - tr).toNat : Nat) : Int) = tr from by omega]
                exact hcnt

/-- C9: canCapture follows the rank order (king 1 strongest through
pawn 7 weakest) with the single cyclic exception that a pawn captures
the king and the king cannot capture a pawn, and is always false for a
cannon attacker; and for a revealed own cannon, a capture action is
generated by generateDarkChessMoves exactly when the target square
holds a revealed enemy piece and cannonCanCapture holds, i.e. the
target lies on the same row or column with exactly one occupied cell
strictly between. -/
theorem C9_dark_capture_rules :
    (∀ attacker defender : DCPiece,
      canCapture attacker defender = true ↔
        (attacker.type ≠ PieceType.cannon ∧
          ((attacker.type = PieceType.pawn ∧ defender.type = PieceType.king) ∨
           (¬(attacker.type = PieceType.king ∧
              defender.type = PieceType.pawn) ∧
            DC_RANKS attacker.type ≤ DC_RANKS defender.type)))) ∧
    (∀ (b : DCBoard) (s : Side) (fr fc tr tc : Int) (p : DCPiece),
      dcGetPiece b fr fc = some p → p.revealed = true → p.side = s →
      p.type = PieceType.cannon →
      (DCAction.capture fr fc tr tc ∈ generateDarkChessMoves b s ↔
        (∃ t, dcGetPiece b tr tc = some t ∧ t.revealed = true ∧ t.side ≠ s) ∧
        cannonCanCapture b fr fc tr tc = true)) := by
  constructor
  · decide
  · intro b s fr fc tr tc p hp hrev hside htyp
    have hin := dcGetPiece_some_inBoard hp
    rw [dcIsInBoard_iff] at hin
    exact ((gen_capture_iff_cell b s fr fc tr tc p hp).trans
      (dcCell_cannon_capture_mem b s fr fc tr tc p hp hrev hside htyp)).trans
      (dcJumps_capture_iff b s fr fc tr tc hin.1 hin.2.1 hin.2.2.1 hin.2.2.2)

/-- The cannon-capture characterization on a concrete position: the
red cannon at (0,0) jump-captures the black rook at (0,6) over the
single screen at (0,3). -/
theorem C9_dark_capture_rules_witness :
    DCAction.capture 0 0 0 6 ∈ generateDarkChessMoves dcDemoBoard Side.red := by
  refine (C9_dark_capture_rules.2 dcDemoBoard Side.red 0 0 0 6
    ⟨PieceType.cannon, Side.red, true⟩ (by decide) rfl rfl rfl).mpr ?_
  exact ⟨⟨⟨PieceType.rook, Side.black, true⟩, by decide, rfl, by decide⟩,
    by decide⟩

/-- getD of a mapped option list: the default none maps to itself. -/
theorem getD_map_opt {α β : Type} (f : α → β) (l : List (Option α)) (i : Nat) :
    (l.map (fun c => c.map f)).getD i none = (l.getD i none).map f := by
  induction l generalizing i with
  | nil => simp [List.getD]
  | cons a t ih =>
    cases i with
    | zero => simp
    | succ j => simpa using ih j

/-- getD through reverse for an in-range index. -/
theorem getD_reverse {α : Type} (l : List α) (d : α) (i : Nat)
    (h : i < l.length) :
    l.reverse.getD i d = l.getD (l.length - 1 - i) d := by
  rw [List.getD_eq_getElem?_getD, List.getD_eq_getElem?_getD,
    List.getElem?_reverse h]

/-- The mirrored grid is shaped. -/
theorem shaped_mirror {g : Grid} (hs : shapedB g = true) :
    shapedB (mirrorGrid g) = true := by
  simp only [shapedB, mirrorGrid, List.length_reverse, List.length_map,
    List.all_reverse, List.all_map, Bool.and_eq_true, List.all_eq_true] at *
  obtain ⟨h1, h2⟩ := hs
  refine ⟨h1, fun row hr => ?_⟩
  simpa using h2 row hr

/-- Raw read of the mirrored grid: the flipped cell, recoloured. -/
theorem gridGet_mirror {g : Grid} (hs : shapedB g = true) (r c : Int)
    (h0 : 0 ≤ r) (h1 : r < 10) :
    gridGet (mirrorGrid g) r c = (gridGet g (9 - r) c).map mirrorPiece := by
  have hlen : g.length = 10 := shaped_length hs
  unfold gridGet mirrorGrid
  rw [getD_reverse _ _ _ (by simp [hlen]; omega)]
  rw [List.length_map, hlen]
  have hidx : 10 - 1 - r.toNat = (9 - r).toNat := by omega
  rw [hidx]
  have houter : (g.map (fun row => row.map
        (fun cell => cell.map mirrorPiece))).getD ((9 - r).toNat) [] =
      ((g[(9 - r).toNat]?).map (fun row => row.map
        (fun cell => cell.map mirrorPiece))).getD [] := by
    rw [List.getD_eq_getElem?_getD, List.getElem?_map]
  rw [houter]
  have hinner : List.getD g ((9 - r).toNat) [] = (g[(9 - r).toNat]?).getD [] :=
    List.getD_eq_getElem?_getD _ _ _
  rw [hinner]
  rcases hrow : g[(9 - r).toNat]? with _ | row
  · simp [List.getD]
  · simpa using getD_map_opt mirrorPiece row c.toNat

/-- In-board test is invariant under the row flip. -/
theorem isInBoard_mirror (r c : Int) :
    isInBoard (9 - r) c = isInBoard r c := by
  rw [Bool.eq_iff_iff, isInBoard_iff, isInBoard_iff]
  omega

/-- Bounds-checked read of the mirrored board. -/
theorem getPiece_mirror {b : Board} (hs : shapedB b.grid = true) (r c : Int) :
    getPiece (mirrorBoard b) r c = (getPiece b (9 - r) c).map mirrorPiece := by
  unfold getPiece
  rw [isInBoard_mirror]
  by_cases h : isInBoard r c = true
  · rw [if_pos h, if_pos h]
    rw [isInBoard_iff] at h
    exact gridGet_mirror hs r c h.1 h.2.1
  · rw [if_neg h, if_neg h]
    rfl

/-- King lookup on the mirrored board. -/
theorem findKing_mirror (b : Board) (s : Side) :
    findKing (mirrorBoard b) s = (findKing b s.opp).map mirrorPos := by
  cases s <;> rfl

/-- Side.opp is an involution. -/
theorem opp_opp (s : Side) : s.opp.opp = s := by
  cases s <;> rfl

/-- Recolouring flips the own-side test. -/
theorem mirrorPiece_side_ne (t : Piece) (s : Side) :
    ((mirrorPiece t).side ≠ s) ↔ (t.side ≠ s.opp) := by
  cases t with
  | mk ty sd => cases sd <;> cases s <;> simp [mirrorPiece, Side.opp]

/-- Destination test on the mirrored board. -/
theorem canMoveTo_mirror {b : Board} (hs : shapedB b.grid = true)
    (r c : Int) (s : Side) :
    canMoveTo (mirrorBoard b) r c s = canMoveTo b (9 - r) c s.opp := by
  unfold canMoveTo
  rw [isInBoard_mirror, getPiece_mirror hs]
  by_cases h : isInBoard r c = true
  · rw [if_pos h, if_pos h]
    rcases hp : getPiece b (9 - r) c with _ | t
    · rfl
    · show decide ((mirrorPiece t).side ≠ s) = decide (t.side ≠ s.opp)
      rw [decide_eq_decide]
      exact mirrorPiece_side_ne t s
  · rw [if_neg h, if_neg h]

/-- King steps on the mirrored board are the flipped king steps of the
opposite side. -/
theorem kingMoves_mirror {b : Board} (hs : shapedB b.grid = true)
    (row col : Int) (s : Side) (m : MoveTo) :
    m ∈ kingMoves (mirrorBoard b) (9 - row) col s ↔
      (⟨9 - m.toRow, m.toCol⟩ : MoveTo) ∈ kingMoves b row col s.opp := by
  obtain ⟨mr, mc⟩ := m
  unfold kingMoves
  cases s <;>
  · simp only [PALACE, Side.opp, List.mem_filterMap]
    constructor
    · rintro ⟨d, hd, hfd⟩
      split at hfd
      · rename_i hg
        cases hfd
        refine ⟨(-d.1, d.2), by fin_cases hd <;> norm_num, ?_⟩
        simp only [Bool.and_eq_true, decide_eq_true_eq] at hg
        obtain ⟨⟨⟨⟨hg1, hg2⟩, hg3⟩, hg4⟩, hg5⟩ := hg
        rw [canMoveTo_mirror hs] at hg5
        rw [show (9 : Int) - (9 - row + d.1) = row + -d.1 from by ring] at hg5
        rw [if_pos (by
          simp only [Bool.and_eq_true, decide_eq_true_eq]
          exact ⟨⟨⟨⟨by omega, by omega⟩, by omega⟩, by omega⟩, hg5⟩)]
        simp only [Option.some.injEq, MoveTo.mk.injEq]
        constructor
        · ring
        · trivial
      · cases hfd
    · rintro ⟨d, hd, hfd⟩
      split at hfd
      · rename_i hg
        simp only [Option.some.injEq, MoveTo.mk.injEq] at hfd
        obtain ⟨he1, he2⟩ := hfd
        refine ⟨(-d.1, d.2), by fin_cases hd <;> norm_num, ?_⟩
        simp only [Bool.and_eq_true, decide_eq_true_eq] at hg
        obtain ⟨⟨⟨⟨hg1, hg2⟩, hg3⟩, hg4⟩, hg5⟩ := hg
        rw [if_pos (by
          simp only [Bool.and_eq_true, decide_eq_true_eq]
          refine ⟨⟨⟨⟨by omega, by omega⟩, by omega⟩, by omega⟩, ?_⟩
          rw [canMoveTo_mirror hs]
          rw [show (9 : Int) - (9 - row + -d.1) = row + d.1 from by ring]
          exact hg5)]
        simp only [Option.some.injEq, MoveTo.mk.injEq]
        constructor
        · omega
        · omega
      · cases hfd

/-- Advisor steps on the mirrored board are the flipped advisor steps
of the opposite side. -/
theorem advisorMoves_mirror {b : Board} (hs : shapedB b.grid = true)
    (row col : Int) (s : Side) (m : MoveTo) :
    m ∈ advisorMoves (mirrorBoard b) (9 - row) col s ↔
      (⟨9 - m.toRow, m.toCol⟩ : MoveTo) ∈ advisorMoves b row col s.opp := by
  obtain ⟨mr, mc⟩ := m
  unfold advisorMoves
  cases s <;>
  · simp only [PALACE, Side.opp, List.mem_filterMap]
    constructor
    · rintro ⟨d, hd, hfd⟩
      split at hfd
      · rename_i hg
        cases hfd
        refine ⟨(-d.1, d.2), by fin_cases hd <;> norm_num, ?_⟩
        simp only [Bool.and_eq_true, decide_eq_true_eq] at hg
        obtain ⟨⟨⟨⟨hg1, hg2⟩, hg3⟩, hg4⟩, hg5⟩ := hg
        rw [canMoveTo_mirror hs] at hg5
        rw [show (9 : Int) - (9 - row + d.1) = row + -d.1 from by ring] at hg5
        rw [if_pos (by
          simp only [Bool.and_eq_true, decide_eq_true_eq]
          exact ⟨⟨⟨⟨by omega, by omega⟩, by omega⟩, by omega⟩, hg5⟩)]
        simp only [Option.some.injEq, MoveTo.mk.injEq]
        constructor
        · ring
        · trivial
      · cases hfd
    · rintro ⟨d, hd, hfd⟩
      split at hfd
      · rename_i hg
        simp only [Option.some.injEq, MoveTo.mk.injEq] at hfd
        obtain ⟨he1, he2⟩ := hfd
        refine ⟨(-d.1, d.2), by fin_cases hd <;> norm_num, ?_⟩
        simp only [Bool.and_eq_true, decide_eq_true_eq] at hg
        obtain ⟨⟨⟨⟨hg1, hg2⟩, hg3⟩, hg4⟩, hg5⟩ := hg
        rw [if_pos (by
          simp only [Bool.and_eq_true, decide_eq_true_eq]
          refine ⟨⟨⟨⟨by omega, by omega⟩, by omega⟩, by omega⟩, ?_⟩
          rw [canMoveTo_mirror hs]
          rw [show (9 : Int) - (9 - row + -d.1) = row + d.1 from by ring]
          exact hg5)]
        simp only [Option.some.injEq, MoveTo.mk.injEq]
        constructor
        · omega
        · omega
      · cases hfd

/-- Side membership of the opposite under recolouring. -/
theorem opp_eq_red {s : Side} : (s.opp = Side.red) ↔ (s = Side.black) := by
  cases s <;> simp [Side.opp]

/-- Side membership of the opposite under recolouring. -/
theorem opp_eq_black {s : Side} : (s.opp = Side.black) ↔ (s = Side.red) := by
  cases s <;> simp [Side.opp]


/-- Elephant steps on the mirrored board are the flipped elephant
steps of the opposite side. -/
theorem elephantMoves_mirror {b : Board} (hs : shapedB b.grid = true)
    (row col : Int) (s : Side) (m : MoveTo) :
    m ∈ elephantMoves (mirrorBoard b) (9 - row) col s ↔
      (⟨9 - m.toRow, m.toCol⟩ : MoveTo) ∈ elephantMoves b row col s.opp := by
  obtain ⟨mr, mc⟩ := m
  unfold elephantMoves
  simp only [List.mem_filterMap, RIVER_redMin, RIVER_blackMax]
  constructor
  · rintro ⟨d, hd, hfd⟩
    repeat' split at hfd
    any_goals exact Option.noConfusion hfd
    rename_i h1 h2 h3 h4 h5
    injection hfd with hm
    injection hm with hm1 hm2
    rw [not_not] at h1
    rw [show (9 : Int) - row + d.1.1 = 9 - (row + -d.1.1) from by ring] at h1
    rw [isInBoard_mirror] at h1
    rw [canMoveTo_mirror hs,
      show (9 : Int) - (9 - row + d.1.1) = row + -d.1.1 from by ring] at h5
    rw [getPiece_mirror hs,
      show (9 : Int) - (9 - row + d.2.1) = row + -d.2.1 from by ring] at h4
    simp only [Option.isSome_map'] at h4
    refine ⟨((-d.1.1, d.1.2), (-d.2.1, d.2.2)), by fin_cases hd <;> norm_num, ?_⟩
    dsimp only
    rw [if_neg (by rw [not_not]; exact h1)]
    rw [if_neg (fun hc => h3 ⟨opp_eq_red.mp hc.1, by omega⟩)]
    rw [if_neg (fun hc => h2 ⟨opp_eq_black.mp hc.1, by omega⟩)]
    rw [if_neg h4]
    rw [if_pos h5]
    simp only [Option.some.injEq, MoveTo.mk.injEq]
    exact ⟨by omega, by omega⟩
  · rintro ⟨d, hd, hfd⟩
    repeat' split at hfd
    any_goals exact Option.noConfusion hfd
    rename_i h1 h2 h3 h4 h5
    injection hfd with hm
    injection hm with hm1 hm2
    rw [not_not] at h1
    refine ⟨((-d.1.1, d.1.2), (-d.2.1, d.2.2)), by fin_cases hd <;> norm_num, ?_⟩
    dsimp only
    rw [if_neg (by
      rw [not_not,
        show (9 : Int) - row + -d.1.1 = 9 - (row + d.1.1) from by ring,
        isInBoard_mirror]
      exact h1)]
    rw [if_neg (fun hc => h3 ⟨opp_eq_black.mpr hc.1, by omega⟩)]
    rw [if_neg (fun hc => h2 ⟨opp_eq_red.mpr hc.1, by omega⟩)]
    rw [if_neg (by
      rw [getPiece_mirror hs,
        show (9 : Int) - (9 - row + -d.2.1) = row + d.2.1 from by ring]
      simp only [Option.isSome_map']
      exact h4)]
    rw [if_pos (by
      rw [canMoveTo_mirror hs,
        show (9 : Int) - (9 - row + -d.1.1) = row + d.1.1 from by ring]
      exact h5)]
    simp only [Option.some.injEq, MoveTo.mk.injEq]
    exact ⟨by omega, by omega⟩

/-- Horse jumps on the mirrored board are the flipped horse jumps of
the opposite side. -/
theorem horseMoves_mirror {b : Board} (hs : shapedB b.grid = true)
    (row col : Int) (s : Side) (m : MoveTo) :
    m ∈ horseMoves (mirrorBoard b) (9 - row) col s ↔
      (⟨9 - m.toRow, m.toCol⟩ : MoveTo) ∈ horseMoves b row col s.opp := by
  obtain ⟨mr, mc⟩ := m
  unfold horseMoves
  simp only [List.mem_filterMap]
  constructor
  · rintro ⟨d, hd, hfd⟩
    repeat' split at hfd
    any_goals exact Option.noConfusion hfd
    rename_i h1 h2 h3
    injection hfd with hm
    injection hm with hm1 hm2
    rw [not_not] at h1
    rw [show (9 : Int) - row + d.1.1 = 9 - (row + -d.1.1) from by ring] at h1
    rw [isInBoard_mirror] at h1
    rw [canMoveTo_mirror hs,
      show (9 : Int) - (9 - row + d.1.1) = row + -d.1.1 from by ring] at h3
    rw [getPiece_mirror hs,
      show (9 : Int) - (9 - row + d.2.1) = row + -d.2.1 from by ring] at h2
    simp only [Option.isSome_map'] at h2
    refine ⟨((-d.1.1, d.1.2), (-d.2.1, d.2.2)), by fin_cases hd <;> norm_num, ?_⟩
    dsimp only
    rw [if_neg (by rw [not_not]; exact h1)]
    rw [if_neg h2]
    rw [if_pos h3]
    refine congrArg some ?_
    have hco1 : row + -d.1.1 = 9 - mr := by omega
    rw [hco1, hm2]
  · rintro ⟨d, hd, hfd⟩
    repeat' split at hfd
    any_goals exact Option.noConfusion hfd
    rename_i h1 h2 h3
    injection hfd with hm
    injection hm with hm1 hm2
    rw [not_not] at h1
    refine ⟨((-d.1.1, d.1.2), (-d.2.1, d.2.2)), by fin_cases hd <;> norm_num, ?_⟩
    dsimp only
    rw [if_neg (by
      rw [not_not,
        show (9 : Int) - row + -d.1.1 = 9 - (row + d.1.1) from by ring,
        isInBoard_mirror]
      exact h1)]
    rw [if_neg (by
      rw [getPiece_mirror hs,
        show (9 : Int) - (9 - row + -d.2.1) = row + d.2.1 from by ring]
      simp only [Option.isSome_map']
      exact h2)]
    rw [if_pos (by
      rw [canMoveTo_mirror hs,
        show (9 : Int) - (9 - row + -d.1.1) = row + d.1.1 from by ring]
      exact h3)]
    refine congrArg some ?_
    have hco1 : (9 : Int) - row + -d.1.1 = mr := by omega
    rw [hco1, hm2]

/-- Unfolding of one rook ray step. -/
theorem rookRay_succ (b : Board) (s : Side) (dr dc r c : Int) (n : Nat) :
    rookRay b s dr dc r c (n + 1) =
    if isInBoard r c then
      match getPiece b r c with
      | none => ⟨r, c⟩ :: rookRay b s dr dc (r + dr) (c + dc) n
      | some t => if t.side ≠ s then [⟨r, c⟩] else []
    else [] := rfl

/-- Rook rays on the mirrored board are the flipped rook rays of the
opposite side, with the row direction negated. -/
theorem rookRay_mirror {b : Board} (hs : shapedB b.grid = true)
    (s : Side) (dr dc : Int) :
    ∀ (fuel : Nat) (r c : Int) (m : MoveTo),
    (m ∈ rookRay (mirrorBoard b) s (-dr) dc (9 - r) c fuel ↔
      (⟨9 - m.toRow, m.toCol⟩ : MoveTo) ∈ rookRay b s.opp dr dc r c fuel) := by
  intro fuel
  induction fuel with
  | zero =>
    intro r c m
    simp [rookRay]
  | succ n ih =>
    intro r c m
    obtain ⟨mr, mc⟩ := m
    rw [rookRay_succ, rookRay_succ]
    rw [isInBoard_mirror]
    by_cases hin : isInBoard r c = true
    · rw [if_pos hin, if_pos hin]
      have hco : (9 : Int) - r + -dr = 9 - (r + dr) := by ring
      rcases hp : getPiece b r c with _ | t
      · have hgp : getPiece (mirrorBoard b) (9 - r) c = none := by
          rw [getPiece_mirror hs, show (9 : Int) - (9 - r) = r from by ring, hp]
          rfl
        rw [hgp]
        dsimp only
        simp only [List.mem_cons, MoveTo.mk.injEq]
        rw [hco, ih (r + dr) (c + dc) ⟨mr, mc⟩]
        constructor
        · rintro (⟨h1, h2⟩ | h)
          · exact Or.inl ⟨by omega, h2⟩
          · exact Or.inr h
        · rintro (⟨h1, h2⟩ | h)
          · exact Or.inl ⟨by omega, h2⟩
          · exact Or.inr h
      · have hgp : getPiece (mirrorBoard b) (9 - r) c = some (mirrorPiece t) := by
          rw [getPiece_mirror hs, show (9 : Int) - (9 - r) = r from by ring, hp]
          rfl
        rw [hgp]
        dsimp only
        by_cases ht : t.side ≠ s.opp
        · rw [if_pos (mirrorPiece_side_ne t s |>.mpr ht), if_pos ht]
          simp only [List.mem_singleton, MoveTo.mk.injEq]
          constructor
          · rintro ⟨h1, h2⟩
            exact ⟨by omega, h2⟩
          · rintro ⟨h1, h2⟩
            exact ⟨by omega, h2⟩
        · rw [if_neg (fun hc => ht (mirrorPiece_side_ne t s |>.mp hc)),
            if_neg ht]
          simp
    · rw [if_neg hin, if_neg hin]
      simp

/-- Cannon rays on the mirrored board are the flipped cannon rays of
the opposite side, with the row direction negated. -/
theorem cannonRay_mirror {b : Board} (hs : shapedB b.grid = true)
    (s : Side) (dr dc : Int) :
    ∀ (fuel : Nat) (r c : Int) (j : Bool) (m : MoveTo),
    (m ∈ cannonRay (mirrorBoard b) s (-dr) dc (9 - r) c j fuel ↔
      (⟨9 - m.toRow, m.toCol⟩ : MoveTo) ∈ cannonRay b s.opp dr dc r c j fuel) := by
  intro fuel
  induction fuel with
  | zero =>
    intro r c j m
    simp [cannonRay]
  | succ n ih =>
    intro r c j m
    obtain ⟨mr, mc⟩ := m
    rw [cannonRay_succ, cannonRay_succ]
    rw [isInBoard_mirror]
    by_cases hin : isInBoard r c = true
    · rw [if_pos hin, if_pos hin]
      have hco : (9 : Int) - r + -dr = 9 - (r + dr) := by ring
      rcases hp : getPiece b r c with _ | t
      · have hgp : getPiece (mirrorBoard b) (9 - r) c = none := by
          rw [getPiece_mirror hs, show (9 : Int) - (9 - r) = r from by ring, hp]
          rfl
        rw [hgp]
        dsimp only
        cases j
        · simp only [List.mem_cons, MoveTo.mk.injEq]
          rw [hco, ih (r + dr) (c + dc) false ⟨mr, mc⟩]
          constructor
          · rintro (⟨h1, h2⟩ | h)
            · exact Or.inl ⟨by omega, h2⟩
            · exact Or.inr h
          · rintro (⟨h1, h2⟩ | h)
            · exact Or.inl ⟨by omega, h2⟩
            · exact Or.inr h
        · show _ ∈ cannonRay (mirrorBoard b) s (-dr) dc (9 - r + -dr) (c + dc)
            true n ↔ _
          rw [hco, ih (r + dr) (c + dc) true ⟨mr, mc⟩]
      · have hgp : getPiece (mirrorBoard b) (9 - r) c = some (mirrorPiece t) := by
          rw [getPiece_mirror hs, show (9 : Int) - (9 - r) = r from by ring, hp]
          rfl
        rw [hgp]
        dsimp only
        cases j
        · show _ ∈ cannonRay (mirrorBoard b) s (-dr) dc (9 - r + -dr) (c + dc)
            true n ↔ _
          rw [hco, ih (r + dr) (c + dc) true ⟨mr, mc⟩]
        · dsimp only
          by_cases ht : t.side ≠ s.opp
          · rw [if_pos (mirrorPiece_side_ne t s |>.mpr ht), if_pos ht]
            simp only [List.mem_singleton, MoveTo.mk.injEq]
            constructor
            · rintro ⟨h1, h2⟩
              exact ⟨by omega, h2⟩
            · rintro ⟨h1, h2⟩
              exact ⟨by omega, h2⟩
          · rw [if_neg (fun hc => ht (mirrorPiece_side_ne t s |>.mp hc)),
              if_neg ht]
            simp
    · rw [if_neg hin, if_neg hin]
      simp

/-- Rook moves on the mirrored board are the flipped rook moves of the
opposite side. -/
theorem rookMoves_mirror {b : Board} (hs : shapedB b.grid = true)
    (row col : Int) (s : Side) (m : MoveTo) :
    m ∈ rookMoves (mirrorBoard b) (9 - row) col s ↔
      (⟨9 - m.toRow, m.toCol⟩ : MoveTo) ∈ rookMoves b row col s.opp := by
  unfold rookMoves
  simp only [List.mem_flatMap]
  constructor
  · rintro ⟨d, hd, hm⟩
    refine ⟨(-d.1, d.2), by fin_cases hd <;> norm_num, ?_⟩
    dsimp only
    have h := rookRay_mirror hs s (-d.1) d.2 16 (row + -d.1) (col + d.2) m
    rw [show (-(-d.1)) = d.1 from by ring,
      show (9 : Int) - (row + -d.1) = 9 - row + d.1 from by ring] at h
    exact h.mp hm
  · rintro ⟨d, hd, hm⟩
    refine ⟨(-d.1, d.2), by fin_cases hd <;> norm_num, ?_⟩
    dsimp only
    have h := rookRay_mirror hs s d.1 d.2 16 (row + d.1) (col + d.2) m
    rw [show (9 : Int) - (row + d.1) = 9 - row + -d.1 from by ring] at h
    exact h.mpr hm

/-- Cannon moves on the mirrored board are the flipped cannon moves of
the opposite side. -/
theorem cannonMoves_mirror {b : Board} (hs : shapedB b.grid = true)
    (row col : Int) (s : Side) (m : MoveTo) :
    m ∈ cannonMoves (mirrorBoard b) (9 - row) col s ↔
      (⟨9 - m.toRow, m.toCol⟩ : MoveTo) ∈ cannonMoves b row col s.opp := by
  unfold cannonMoves
  simp only [List.mem_flatMap]
  constructor
  · rintro ⟨d, hd, hm⟩
    refine ⟨(-d.1, d.2), by fin_cases hd <;> norm_num, ?_⟩
    dsimp only
    have h := cannonRay_mirror hs s (-d.1) d.2 16 (row + -d.1) (col + d.2)
      false m
    rw [show (-(-d.1)) = d.1 from by ring,
      show (9 : Int) - (row + -d.1) = 9 - row + d.1 from by ring] at h
    exact h.mp hm
  · rintro ⟨d, hd, hm⟩
    refine ⟨(-d.1, d.2), by fin_cases hd <;> norm_num, ?_⟩
    dsimp only
    have h := cannonRay_mirror hs s d.1 d.2 16 (row + d.1) (col + d.2) false m
    rw [show (9 : Int) - (row + d.1) = 9 - row + -d.1 from by ring] at h
    exact h.mpr hm

/-- River crossing flips with the vertical mirror. -/
theorem hasCrossedRiver_mirror (row : Int) (s : Side) :
    hasCrossedRiver (9 - row) s = hasCrossedRiver row s.opp := by
  cases s <;>
  · simp only [hasCrossedRiver, Side.opp]
    rw [decide_eq_decide]
    omega

/-- Pawn moves on the mirrored board are the flipped pawn moves of the
opposite side. -/
theorem pawnMoves_mirror {b : Board} (hs : shapedB b.grid = true)
    (row col : Int) (s : Side) (m : MoveTo) :
    m ∈ pawnMoves (mirrorBoard b) (9 - row) col s ↔
      (⟨9 - m.toRow, m.toCol⟩ : MoveTo) ∈ pawnMoves b row col s.opp := by
  obtain ⟨mr, mc⟩ := m
  unfold pawnMoves
  dsimp only
  rw [hasCrossedRiver_mirror]
  rw [show (if s.opp = Side.red then (-1 : Int) else 1) =
      -(if s = Side.red then (-1 : Int) else 1) from by
    cases s <;> decide]
  generalize (if s = Side.red then (-1 : Int) else 1) = f
  simp only [List.mem_append]
  constructor
  · rintro (hm | hm)
    · left
      split at hm
      · rename_i hg
        simp only [List.mem_singleton, MoveTo.mk.injEq] at hm
        obtain ⟨hm1, hm2⟩ := hm
        rw [Bool.and_eq_true] at hg
        obtain ⟨hg1, hg2⟩ := hg
        rw [canMoveTo_mirror hs,
          show (9 : Int) - (9 - row + f) = row + -f from by ring] at hg2
        rw [show (9 : Int) - row + f = 9 - (row + -f) from by ring,
          isInBoard_mirror] at hg1
        rw [if_pos (by rw [Bool.and_eq_true]; exact ⟨hg1, hg2⟩)]
        simp only [List.mem_singleton, MoveTo.mk.injEq]
        exact ⟨by omega, by omega⟩
      · simp at hm
    · right
      split at hm
      · rename_i hcr
        rw [if_pos hcr]
        obtain ⟨dc, hdc, hfd⟩ := List.mem_filterMap.mp hm
        refine List.mem_filterMap.mpr ⟨dc, hdc, ?_⟩
        split at hfd
        · rename_i hg
          injection hfd with hm'
          injection hm' with hm1 hm2
          rw [Bool.and_eq_true] at hg
          obtain ⟨hg1, hg2⟩ := hg
          rw [canMoveTo_mirror hs,
            show (9 : Int) - (9 - row) = row from by ring] at hg2
          rw [isInBoard_mirror] at hg1
          rw [if_pos (by rw [Bool.and_eq_true]; exact ⟨hg1, hg2⟩)]
          refine congrArg some ?_
          have hr : row = 9 - mr := by omega
          rw [hr, hm2]
        · exact Option.noConfusion hfd
      · simp at hm
  · rintro (hm | hm)
    · left
      split at hm
      · rename_i hg
        simp only [List.mem_singleton, MoveTo.mk.injEq] at hm
        obtain ⟨hm1, hm2⟩ := hm
        rw [Bool.and_eq_true] at hg
        obtain ⟨hg1, hg2⟩ := hg
        rw [if_pos (by
          rw [Bool.and_eq_true]
          constructor
          · rw [show (9 : Int) - row + f = 9 - (row + -f) from by ring,
              isInBoard_mirror]
            exact hg1
          · rw [canMoveTo_mirror hs,
              show (9 : Int) - (9 - row + f) = row + -f from by ring]
            exact hg2)]
        simp only [List.mem_singleton, MoveTo.mk.injEq]
        exact ⟨by omega, by omega⟩
      · simp at hm
    · right
      split at hm
      · rename_i hcr
        rw [if_pos hcr]
        obtain ⟨dc, hdc, hfd⟩ := List.mem_filterMap.mp hm
        refine List.mem_filterMap.mpr ⟨dc, hdc, ?_⟩
        split at hfd
        · rename_i hg
          injection hfd with hm'
          injection hm' with hm1 hm2
          rw [Bool.and_eq_true] at hg
          obtain ⟨hg1, hg2⟩ := hg
          rw [if_pos (by
            rw [Bool.and_eq_true]
            constructor
            · rw [isInBoard_mirror]
              exact hg1
            · rw [canMoveTo_mirror hs,
                show (9 : Int) - (9 - row) = row from by ring]
              exact hg2)]
          refine congrArg some ?_
          have hr : (9 : Int) - row = mr := by omega
          rw [hr, hm2]
        · exact Option.noConfusion hfd
      · simp at hm

/-- Pseudo-legal moves of a square on the mirrored board are the
flipped pseudo-legal moves of the flipped square. -/
theorem generatePieceMoves_mirror {b : Board} (hs : shapedB b.grid = true)
    (row col : Int) (m : MoveTo) :
    m ∈ generatePieceMoves (mirrorBoard b) (9 - row) col ↔
      (⟨9 - m.toRow, m.toCol⟩ : MoveTo) ∈ generatePieceMoves b row col := by
  unfold generatePieceMoves
  rcases hp : getPiece b row col with _ | p
  · have hgp : getPiece (mirrorBoard b) (9 - row) col = none := by
      rw [getPiece_mirror hs, show (9 : Int) - (9 - row) = row from by ring, hp]
      rfl
    rw [hgp]
    simp
  · have hgp : getPiece (mirrorBoard b) (9 - row) col =
        some (mirrorPiece p) := by
      rw [getPiece_mirror hs, show (9 : Int) - (9 - row) = row from by ring, hp]
      rfl
    rw [hgp]
    obtain ⟨ty, sd⟩ := p
    dsimp only [mirrorPiece]
    cases ty <;>
      first
      | exact (by have h := kingMoves_mirror hs row col sd.opp m
                  rwa [opp_opp] at h)
      | exact (by have h := advisorMoves_mirror hs row col sd.opp m
                  rwa [opp_opp] at h)
      | exact (by have h := elephantMoves_mirror hs row col sd.opp m
                  rwa [opp_opp] at h)
      | exact (by have h := rookMoves_mirror hs row col sd.opp m
                  rwa [opp_opp] at h)
      | exact (by have h := horseMoves_mirror hs row col sd.opp m
                  rwa [opp_opp] at h)
      | exact (by have h := cannonMoves_mirror hs row col sd.opp m
                  rwa [opp_opp] at h)
      | exact (by have h := pawnMoves_mirror hs row col sd.opp m
                  rwa [opp_opp] at h)

/-- Membership characterization of the getPieces scan. -/
theorem getPieces_mem_iff {b : Board} {s : Side} {q : PP} :
    q ∈ getPieces b s ↔ ∃ (r c : Nat), r < 10 ∧ c < 9 ∧ q.row = (r : Int) ∧
      q.col = (c : Int) ∧ q.side = s ∧
      gridGet b.grid (r : Int) (c : Int) = some ⟨q.type, q.side⟩ := by
  unfold getPieces
  simp only [List.mem_flatMap, List.mem_range]
  constructor
  · rintro ⟨r, hr, c, hc, hcell⟩
    split at hcell
    · rename_i p heq
      split at hcell
      · rename_i hps
        simp only [List.mem_singleton] at hcell
        subst hcell
        exact ⟨r, c, hr, hc, rfl, rfl, hps, by rw [heq]⟩
      · simp at hcell
    · simp at hcell
  · rintro ⟨r, c, hr, hc, hrow, hcol, hside, hcell⟩
    obtain ⟨qt, qs, qr, qc⟩ := q
    refine ⟨r, hr, c, hc, ?_⟩
    rw [hcell]
    dsimp only at hside hrow hcol ⊢
    rw [if_pos hside]
    simp only [List.mem_singleton]
    rw [hrow, hcol]

/-- Pieces of the mirrored board are the recoloured, row-flipped
pieces of the opposite side. -/
theorem getPieces_mirror_mem {b : Board} (hs : shapedB b.grid = true)
    (s : Side) (q : PP) :
    q ∈ getPieces (mirrorBoard b) s ↔ mirrorPP q ∈ getPieces b s.opp := by
  rw [getPieces_mem_iff, getPieces_mem_iff]
  constructor
  · rintro ⟨r, c, hr, hc, hrow, hcol, hside, hcell⟩
    refine ⟨9 - r, c, by omega, hc, ?_, ?_, ?_, ?_⟩
    · dsimp only [mirrorPP]
      omega
    · dsimp only [mirrorPP]
      omega
    · dsimp only [mirrorPP]
      rw [hside]
    · have hcast : ((9 - r : Nat) : Int) = 9 - (r : Int) := by omega
      rw [hcast]
      rw [show (mirrorBoard b).grid = mirrorGrid b.grid from rfl] at hcell
      rw [gridGet_mirror hs (r : Int) (c : Int) (by omega) (by omega)] at hcell
      rcases hp : gridGet b.grid (9 - (r : Int)) (c : Int) with _ | p
      · rw [hp] at hcell
        cases hcell
      · rw [hp] at hcell
        injection hcell with he
        obtain ⟨pt, ps⟩ := p
        injection he with ht hsd
        refine congrArg some ?_
        dsimp only [mirrorPP]
        rw [← ht, ← hsd, opp_opp]
  · rintro ⟨r, c, hr, hc, hrow, hcol, hside, hcell⟩
    refine ⟨9 - r, c, by omega, hc, ?_, ?_, ?_, ?_⟩
    · dsimp only [mirrorPP] at hrow
      omega
    · dsimp only [mirrorPP] at hcol
      omega
    · dsimp only [mirrorPP] at hside
      cases s <;> cases hq : q.side <;> simp_all [Side.opp]
    · have hcast : ((9 - r : Nat) : Int) = 9 - (r : Int) := by omega
      rw [hcast]
      rw [show (mirrorBoard b).grid = mirrorGrid b.grid from rfl]
      rw [gridGet_mirror hs (9 - (r : Int)) (c : Int) (by omega) (by omega)]
      rw [show (9 : Int) - (9 - (r : Int)) = (r : Int) from by ring]
      rw [hcell]
      dsimp only [mirrorPP]
      refine congrArg some ?_
      dsimp only [mirrorPiece]
      rw [opp_opp]

/-- The mirror transform of getPieces entries is an involution. -/
theorem mirrorPP_mirrorPP (q : PP) : mirrorPP (mirrorPP q) = q := by
  obtain ⟨t, sd, r, c⟩ := q
  dsimp only [mirrorPP]
  rw [opp_opp]
  congr 1
  ring

/-- King attack on the mirrored board. -/
theorem isUnderAttack_mirror {b : Board} (hs : shapedB b.grid = true)
    (s : Side) :
    isUnderAttack (mirrorBoard b) s = isUnderAttack b s.opp := by
  unfold isUnderAttack
  rw [findKing_mirror]
  rcases hk : findKing b s.opp with _ | kp
  · rfl
  · simp only [Option.map_some']
    rw [opp_opp]
    rw [Bool.eq_iff_iff, List.any_eq_true, List.any_eq_true]
    constructor
    · rintro ⟨p, hp, hany⟩
      refine ⟨mirrorPP p, ?_, ?_⟩
      · have h := (getPieces_mirror_mem hs s.opp p).mp hp
        rwa [opp_opp] at h
      · rw [List.any_eq_true] at hany
        obtain ⟨m, hm, hcond⟩ := hany
        rw [List.any_eq_true]
        have h := generatePieceMoves_mirror hs (9 - p.row) p.col m
        rw [show (9 : Int) - (9 - p.row) = p.row from by ring] at h
        refine ⟨⟨9 - m.toRow, m.toCol⟩, ?_, ?_⟩
        · dsimp only [mirrorPP]
          exact h.mp hm
        · simp only [Bool.and_eq_true, decide_eq_true_eq] at hcond ⊢
          dsimp only [mirrorPos] at hcond
          exact ⟨by omega, hcond.2⟩
    · rintro ⟨q, hq, hany⟩
      refine ⟨mirrorPP q, ?_, ?_⟩
      · rw [getPieces_mirror_mem hs s.opp (mirrorPP q), opp_opp,
          mirrorPP_mirrorPP]
        exact hq
      · rw [List.any_eq_true] at hany
        obtain ⟨m, hm, hcond⟩ := hany
        rw [List.any_eq_true]
        have h := generatePieceMoves_mirror hs q.row q.col
          ⟨9 - m.toRow, m.toCol⟩
        dsimp only at h
        rw [show (9 : Int) - (9 - m.toRow) = m.toRow from by ring] at h
        refine ⟨⟨9 - m.toRow, m.toCol⟩, ?_, ?_⟩
        · dsimp only [mirrorPP]
          exact h.mpr hm
        · simp only [Bool.and_eq_true, decide_eq_true_eq] at hcond ⊢
          dsimp only [mirrorPos]
          exact ⟨by omega, hcond.2⟩

/-- Check detection on the mirrored board. -/
theorem isInCheck_mirror {b : Board} (hs : shapedB b.grid = true) (s : Side) :
    isInCheck (mirrorBoard b) s = isInCheck b s.opp :=
  isUnderAttack_mirror hs s

/-- The pieces of the mirrored board are a permutation of the
transformed pieces of the opposite side. -/
theorem getPieces_mirror_perm {b : Board} (hs : shapedB b.grid = true)
    (s : Side) :
    List.Perm (getPieces (mirrorBoard b) s)
      ((getPieces b s.opp).map mirrorPP) := by
  unfold getPieces
  have hrow : ∀ r ∈ List.range 10,
      ((List.range 9).flatMap (fun c =>
        match gridGet (mirrorBoard b).grid (r : Int) (c : Int) with
        | some p => if p.side = s then
            [(⟨p.type, p.side, (r : Int), (c : Int)⟩ : PP)] else []
        | none => [])) =
      (((List.range 9).flatMap (fun c =>
        match gridGet b.grid ((9 - r : Nat) : Int) (c : Int) with
        | some p => if p.side = s.opp then
            [(⟨p.type, p.side, ((9 - r : Nat) : Int), (c : Int)⟩ : PP)] else []
        | none => [])).map mirrorPP) := by
    intro r hr
    rw [List.mem_range] at hr
    rw [List.map_flatMap]
    refine List.flatMap_congr (fun c _ => ?_)
    have hcast : ((9 - r : Nat) : Int) = 9 - (r : Int) := by omega
    rw [hcast]
    rw [show (mirrorBoard b).grid = mirrorGrid b.grid from rfl]
    rw [gridGet_mirror hs (r : Int) (c : Int) (by omega) (by omega)]
    rcases hp : gridGet b.grid (9 - (r : Int)) (c : Int) with _ | p
    · rfl
    · obtain ⟨pt, psd⟩ := p
      show (if (mirrorPiece ⟨pt, psd⟩).side = s then
          [(⟨pt, (mirrorPiece ⟨pt, psd⟩).side, (r : Int), (c : Int)⟩ : PP)]
        else []) =
        ((if psd = s.opp then
          [(⟨pt, psd, 9 - (r : Int), (c : Int)⟩ : PP)] else []).map mirrorPP)
      by_cases hps : psd = s.opp
      · rw [if_pos (show (mirrorPiece ⟨pt, psd⟩).side = s from by
          dsimp only [mirrorPiece]
          rw [hps, opp_opp]), if_pos hps]
        dsimp only [List.map_cons, List.map_nil, mirrorPP, mirrorPiece]
        rw [show (9 : Int) - (9 - (r : Int)) = (r : Int) from by ring]
      · rw [if_neg (show ¬(mirrorPiece ⟨pt, psd⟩).side = s from by
          dsimp only [mirrorPiece]
          intro hc
          exact hps (by rw [← hc, opp_opp])), if_neg hps]
        rfl
  rw [List.flatMap_congr hrow]
  have hmap : (List.range 10).flatMap (fun r =>
      (((List.range 9).flatMap (fun c =>
        match gridGet b.grid ((9 - r : Nat) : Int) (c : Int) with
        | some p => if p.side = s.opp then
            [(⟨p.type, p.side, ((9 - r : Nat) : Int), (c : Int)⟩ : PP)] else []
        | none => [])).map mirrorPP)) =
      (((List.range 10).flatMap (fun r =>
        ((List.range 9).flatMap (fun c =>
        match gridGet b.grid ((9 - r : Nat) : Int) (c : Int) with
        | some p => if p.side = s.opp then
            [(⟨p.type, p.side, ((9 - r : Nat) : Int), (c : Int)⟩ : PP)] else []
        | none => [])))).map mirrorPP) :=
    (List.map_flatMap _ _ _).symm
  rw [hmap]
  refine List.Perm.map mirrorPP ?_
  have hrev : (List.range 10).flatMap (fun r =>
      ((List.range 9).flatMap (fun c =>
        match gridGet b.grid ((9 - r : Nat) : Int) (c : Int) with
        | some p => if p.side = s.opp then
            [(⟨p.type, p.side, ((9 - r : Nat) : Int), (c : Int)⟩ : PP)] else []
        | none => []))) =
      ((List.range 10).map (fun r => 9 - r)).flatMap (fun r =>
        ((List.range 9).flatMap (fun c =>
        match gridGet b.grid ((r : Nat) : Int) (c : Int) with
        | some p => if p.side = s.opp then
            [(⟨p.type, p.side, ((r : Nat) : Int), (c : Int)⟩ : PP)] else []
        | none => []))) :=
    (List.flatMap_map _ _ _).symm
  rw [hrev]
  rw [show (List.range 10).map (fun r => 9 - r) = (List.range 10).reverse
    from by decide]
  exact List.Perm.flatMap_right _ (List.reverse_perm (List.range 10))

/-- Transfer of a fold over the mirrored piece list to a fold over the
original list, for right-commutative accumulation. -/
theorem foldl_perm_map {β : Type} (f : β → PP → β) (g : β → PP → β)
    {l1 l2 : List PP} (hperm : List.Perm l1 (l2.map mirrorPP))
    (hcomm : ∀ z x y, f (f z x) y = f (f z y) x)
    (hpt : ∀ z p, f z (mirrorPP p) = g z p) (a : β) :
    l1.foldl f a = l2.foldl g a := by
  rw [List.Perm.foldl_eq' hperm (fun x _ y _ z => hcomm z x y) a]
  rw [List.foldl_map]
  have h : (fun (x : β) (y : PP) => f x (mirrorPP y)) = g :=
    funext fun z => funext fun p => hpt z p
  rw [h]

/-- Phase computation is mirror-invariant (sides swapped). -/
theorem calcPhase_mirror {b : Board} (hs : shapedB b.grid = true) (s : Side) :
    calcPhase (getPieces (mirrorBoard b) s) (getPieces (mirrorBoard b) s.opp) =
      calcPhase (getPieces b s.opp) (getPieces b s) := by
  unfold calcPhase
  dsimp only
  have h1 : ∀ (l2 l1 : List PP), List.Perm l1 (l2.map mirrorPP) →
      ∀ a : Int, l1.foldl (fun a p => a + PHASE_WEIGHTS p.type) a =
        l2.foldl (fun a p => a + PHASE_WEIGHTS p.type) a := by
    intro l2 l1 hp a
    exact foldl_perm_map _ _ hp (by intros; ring) (fun z p => rfl) a
  rw [h1 _ _ (getPieces_mirror_perm hs s), h1 _ _ (getPieces_mirror_perm hs s.opp)]
  rw [opp_opp]

/-- Tapered PST reading is mirror-equivariant. -/
theorem taperedPST_mirror (p : PP) (s : Side) (phase : Int) :
    taperedPST (mirrorPP p) s phase = taperedPST p s.opp phase := by
  unfold taperedPST
  cases s <;> dsimp only [mirrorPP, Side.opp]
  · rfl
  · rw [show (9 : Int) - (9 - p.row) = p.row from by ring]
    simp

/-- Own-material accumulation is mirror-equivariant. -/
theorem material_fold_mirror {b : Board} (hs : shapedB b.grid = true)
    (s : Side) (phase a : Int) :
    (getPieces (mirrorBoard b) s).foldl (fun acc p =>
      acc + PIECE_VALUES p.type + taperedPST p s phase) a =
    (getPieces b s.opp).foldl (fun acc p =>
      acc + PIECE_VALUES p.type + taperedPST p s.opp phase) a :=
  foldl_perm_map _ _ (getPieces_mirror_perm hs s) (fun z x y => by ring)
    (fun z p => by
      show z + PIECE_VALUES p.type + taperedPST (mirrorPP p) s phase = _
      rw [taperedPST_mirror]) a

/-- Opponent-material accumulation is mirror-equivariant. -/
theorem material_fold_neg_mirror {b : Board} (hs : shapedB b.grid = true)
    (s : Side) (phase a : Int) :
    (getPieces (mirrorBoard b) s).foldl (fun acc p =>
      acc - PIECE_VALUES p.type - taperedPST p s phase) a =
    (getPieces b s.opp).foldl (fun acc p =>
      acc - PIECE_VALUES p.type - taperedPST p s.opp phase) a :=
  foldl_perm_map _ _ (getPieces_mirror_perm hs s) (fun z x y => by ring)
    (fun z p => by
      show z - PIECE_VALUES p.type - taperedPST (mirrorPP p) s phase = _
      rw [taperedPST_mirror]) a

/-- King-safety term is mirror-equivariant. -/
theorem evalKingSafety_mirror {b : Board} (hs : shapedB b.grid = true)
    (s1 s2 : Side) :
    evalKingSafety (getPieces (mirrorBoard b) s1)
        (getPieces (mirrorBoard b) s2) =
      evalKingSafety (getPieces b s1.opp) (getPieces b s2.opp) := by
  unfold evalKingSafety
  dsimp only
  have hfold : (getPieces (mirrorBoard b) s1).foldl
      (fun (acc : Int × Int × Int) p =>
        if p.type = PieceType.elephant then
          ((if p.type = PieceType.advisor then
              (acc.1 + 20, acc.2.1 + 1, acc.2.2) else acc).1 + 12,
           (if p.type = PieceType.advisor then
              (acc.1 + 20, acc.2.1 + 1, acc.2.2) else acc).2.1,
           (if p.type = PieceType.advisor then
              (acc.1 + 20, acc.2.1 + 1, acc.2.2) else acc).2.2 + 1)
        else (if p.type = PieceType.advisor then
          (acc.1 + 20, acc.2.1 + 1, acc.2.2) else acc)) ((0 : Int), (0 : Int), (0 : Int)) =
      (getPieces b s1.opp).foldl
      (fun (acc : Int × Int × Int) p =>
        if p.type = PieceType.elephant then
          ((if p.type = PieceType.advisor then
              (acc.1 + 20, acc.2.1 + 1, acc.2.2) else acc).1 + 12,
           (if p.type = PieceType.advisor then
              (acc.1 + 20, acc.2.1 + 1, acc.2.2) else acc).2.1,
           (if p.type = PieceType.advisor then
              (acc.1 + 20, acc.2.1 + 1, acc.2.2) else acc).2.2 + 1)
        else (if p.type = PieceType.advisor then
          (acc.1 + 20, acc.2.1 + 1, acc.2.2) else acc)) ((0 : Int), (0 : Int), (0 : Int)) := by
    refine foldl_perm_map _ _ (getPieces_mirror_perm hs s1) (fun z x y => ?_)
      (fun z p => rfl) _
    dsimp only
    split_ifs <;> simp only [Prod.mk.injEq] <;>
      first
        | trivial
        | exact ⟨by ring, by ring, by ring⟩
        | exact ⟨by ring, by ring⟩
        | (constructor <;> first | trivial | ring)
  have hheavy : ((getPieces (mirrorBoard b) s2).filter (fun p =>
        decide (p.type = PieceType.rook ∨ p.type = PieceType.cannon))).length =
      ((getPieces b s2.opp).filter (fun p =>
        decide (p.type = PieceType.rook ∨ p.type = PieceType.cannon))).length := by
    rw [((getPieces_mirror_perm hs s2).filter _).length_eq]
    rw [List.filter_map, List.length_map]
    congr 1
  rw [hfold, hheavy]

/-- Activity term is mirror-equivariant. -/
theorem evalActivity_mirror {b : Board} (hs : shapedB b.grid = true)
    (s : Side) :
    evalActivity (getPieces (mirrorBoard b) s) s =
      evalActivity (getPieces b s.opp) s.opp := by
  unfold evalActivity
  refine foldl_perm_map _ _ (getPieces_mirror_perm hs s)
    (fun z x y => by dsimp only; split_ifs <;> ring) (fun z p => ?_) 0
  dsimp only [mirrorPP]
  have hcr : (if s = Side.red then decide (9 - p.row ≤ 4)
        else decide (9 - p.row ≥ 5)) =
      (if s.opp = Side.red then decide (p.row ≤ 4)
        else decide (p.row ≥ 5)) := by
    cases s <;> dsimp only [Side.opp] <;>
      simp only [reduceCtorEq, eq_self_iff_true, if_true, if_false] <;>
      (rw [decide_eq_decide]; omega)
  rw [hcr]

/-- King-tropism term is mirror-equivariant. -/
theorem evalKingTropism_mirror {b : Board} (hs : shapedB b.grid = true)
    (s : Side) (kp : Pos) :
    evalKingTropism (getPieces (mirrorBoard b) s) (mirrorPos kp) =
      evalKingTropism (getPieces b s.opp) kp := by
  unfold evalKingTropism
  refine foldl_perm_map _ _ (getPieces_mirror_perm hs s)
    (fun z x y => by dsimp only; split_ifs <;> ring) (fun z p => ?_) 0
  dsimp only [mirrorPP, mirrorPos]
  have hd : (9 - p.row - (9 - kp.row)).natAbs = (p.row - kp.row).natAbs := by
    omega
  rw [hd]

/-- Unordered-pair bonus is invariant under permutation. -/
theorem pawnPairs_perm : ∀ {l1 l2 : List PP}, List.Perm l1 l2 →
    pawnPairs l1 = pawnPairs l2 := by
  intro l1 l2 h
  induction h with
  | nil => rfl
  | cons x h ih =>
    dsimp only [pawnPairs]
    rw [ih, (h.filter _).length_eq]
  | swap x y l =>
    dsimp only [pawnPairs]
    simp only [List.filter_cons]
    have hsym : (decide (y.row = x.row ∧ (x.col - y.col).natAbs = 1) : Bool) =
        decide (x.row = y.row ∧ (y.col - x.col).natAbs = 1) := by
      rw [decide_eq_decide]
      constructor <;> rintro ⟨h1, h2⟩ <;> exact ⟨h1.symm, by omega⟩
    rw [hsym]
    cases hxy : (decide (x.row = y.row ∧ (y.col - x.col).natAbs = 1) : Bool)
    · simp only [Bool.false_eq_true, if_false]
      ring
    · simp only [eq_self_iff_true, if_true, List.length_cons]
      push_cast
      ring
  | trans h1 h2 ih1 ih2 => exact ih1.trans ih2

/-- Unordered-pair bonus is invariant under the mirror transform. -/
theorem pawnPairs_map_mirror : ∀ l : List PP,
    pawnPairs (l.map mirrorPP) = pawnPairs l := by
  intro l
  induction l with
  | nil => rfl
  | cons p t ih =>
    dsimp only [List.map_cons, pawnPairs]
    rw [List.filter_map, List.length_map, ih]
    have hpred : (fun q => decide ((mirrorPP q).row = (mirrorPP p).row ∧
          ((mirrorPP p).col - (mirrorPP q).col).natAbs = 1)) =
        (fun q => decide (q.row = p.row ∧ (p.col - q.col).natAbs = 1)) := by
      refine funext fun q => ?_
      dsimp only [mirrorPP]
      rw [decide_eq_decide]
      constructor <;> rintro ⟨h1, h2⟩ <;> exact ⟨by omega, by omega⟩
    rw [show ((fun q => decide (q.row = (mirrorPP p).row ∧
        ((mirrorPP p).col - q.col).natAbs = 1)) ∘ mirrorPP) =
        (fun q => decide ((mirrorPP q).row = (mirrorPP p).row ∧
          ((mirrorPP p).col - (mirrorPP q).col).natAbs = 1)) from rfl]
    rw [hpred]

/-- Pawn-structure term is mirror-equivariant. -/
theorem evalPawnStructure_mirror {b : Board} (hs : shapedB b.grid = true)
    (s : Side) :
    evalPawnStructure (getPieces (mirrorBoard b) s) =
      evalPawnStructure (getPieces b s.opp) := by
  unfold evalPawnStructure
  rw [pawnPairs_perm ((getPieces_mirror_perm hs s).filter _)]
  rw [List.filter_map]
  rw [show ((fun p => decide (p.type = PieceType.pawn)) ∘ mirrorPP) =
      (fun p => decide (p.type = PieceType.pawn)) from rfl]
  exact pawnPairs_map_mirror _

/-- Recolouring is an involution on the equality test. -/
theorem opp_eq_iff {a c : Side} : (a.opp = c) ↔ (a = c.opp) := by
  cases a <;> cases c <;> decide

/-- A count over the ten rows equals the count over the flipped
rows. -/
theorem countP_range10_flip (f g : Nat → Bool)
    (h : ∀ r, r < 10 → f r = g (9 - r)) :
    (List.range 10).countP f = (List.range 10).countP g := by
  have h1 : (List.range 10).countP f =
      (List.range 10).countP (fun r => g (9 - r)) :=
    List.countP_congr (fun r hr => by
      rw [List.mem_range] at hr
      rw [h r hr])
  rw [h1]
  rw [show (fun r => g (9 - r)) = (g ∘ (fun r => 9 - r)) from rfl,
    ← List.countP_map]
  rw [show (List.range 10).map (fun r => 9 - r) = (List.range 10).reverse
    from by decide]
  exact (List.reverse_perm (List.range 10)).countP_eq g

/-- Rook-file term is mirror-equivariant. -/
theorem evalRookFiles_mirror {b : Board} (hs : shapedB b.grid = true)
    (s : Side) :
    evalRookFiles (mirrorBoard b) (getPieces (mirrorBoard b) s) s =
      evalRookFiles b (getPieces b s.opp) s.opp := by
  unfold evalRookFiles
  refine foldl_perm_map _ _ (getPieces_mirror_perm hs s)
    (fun z x y => by dsimp only; split_ifs <;> ring) (fun z p => ?_) 0
  dsimp only [mirrorPP]
  have hcount : (List.range 10).countP (fun r =>
      match getPiece (mirrorBoard b) (Int.ofNat r) p.col with
      | some q => decide (q.type = PieceType.pawn ∧ q.side = s)
      | none => false) =
      (List.range 10).countP (fun r =>
      match getPiece b (Int.ofNat r) p.col with
      | some q => decide (q.type = PieceType.pawn ∧ q.side = s.opp)
      | none => false) := by
    refine countP_range10_flip _ _ (fun r hr => ?_)
    rw [getPiece_mirror hs]
    rw [show Int.ofNat (9 - r) = 9 - Int.ofNat r from by
      rw [Int.ofNat_eq_natCast, Int.ofNat_eq_natCast]; omega]
    rcases hq : getPiece b (9 - Int.ofNat r) p.col with _ | q
    · rfl
    · obtain ⟨qt, qs⟩ := q
      show decide (qt = PieceType.pawn ∧ qs.opp = s) = _
      rw [decide_eq_decide]
      constructor <;> rintro ⟨h1, h2⟩
      · exact ⟨h1, opp_eq_iff.mp h2⟩
      · exact ⟨h1, opp_eq_iff.mpr h2⟩
  rw [hcount]

/-- Cannon-screen term is mirror-equivariant. -/
theorem evalCannon_mirror {b : Board} (hs : shapedB b.grid = true)
    (s : Side) (total : Int) :
    evalCannon (mirrorBoard b) (getPieces (mirrorBoard b) s) total =
      evalCannon b (getPieces b s.opp) total := by
  unfold evalCannon
  refine foldl_perm_map _ _ (getPieces_mirror_perm hs s)
    (fun z x y => by dsimp only; split_ifs <;> ring) (fun z p => ?_) 0
  dsimp only [mirrorPP]
  have hrows : (List.range 10).countP (fun r =>
      decide ((Int.ofNat r) ≠ 9 - p.row) &&
        (getPiece (mirrorBoard b) (Int.ofNat r) p.col).isSome) =
      (List.range 10).countP (fun r =>
      decide ((Int.ofNat r) ≠ p.row) &&
        (getPiece b (Int.ofNat r) p.col).isSome) := by
    refine countP_range10_flip _ _ (fun r hr => ?_)
    rw [getPiece_mirror hs]
    rw [show Int.ofNat (9 - r) = 9 - Int.ofNat r from by
      rw [Int.ofNat_eq_natCast, Int.ofNat_eq_natCast]; omega]
    rw [Option.isSome_map']
    congr 1
    rw [decide_eq_decide]
    constructor <;> (intro h1 hc; apply h1; omega)
  have hcols : (List.range 9).countP (fun c =>
      decide ((Int.ofNat c) ≠ p.col) &&
        (getPiece (mirrorBoard b) (9 - p.row) (Int.ofNat c)).isSome) =
      (List.range 9).countP (fun c =>
      decide ((Int.ofNat c) ≠ p.col) &&
        (getPiece b p.row (Int.ofNat c)).isSome) := by
    refine List.countP_congr (fun c _ => ?_)
    rw [getPiece_mirror hs,
      show (9 : Int) - (9 - p.row) = p.row from by ring,
      Option.isSome_map']
  rw [hrows, hcols]

/-- Horse-mobility term is mirror-equivariant. -/
theorem evalHorseMobility_mirror {b : Board} (hs : shapedB b.grid = true)
    (s : Side) :
    evalHorseMobility (mirrorBoard b) (getPieces (mirrorBoard b) s) =
      evalHorseMobility b (getPieces b s.opp) := by
  unfold evalHorseMobility
  refine foldl_perm_map _ _ (getPieces_mirror_perm hs s)
    (fun z x y => by dsimp only; split_ifs <;> ring) (fun z p => ?_) 0
  dsimp only [mirrorPP]
  have k1 : (isInBoard (9 - p.row + -1) (p.col + 0) &&
      (getPiece (mirrorBoard b) (9 - p.row + -1) (p.col + 0)).isSome) =
      (isInBoard (p.row + 1) (p.col + 0) &&
      (getPiece b (p.row + 1) (p.col + 0)).isSome) := by
    rw [show (9 : Int) - p.row + -1 = 9 - (p.row + 1) from by ring,
      isInBoard_mirror, getPiece_mirror hs,
      show (9 : Int) - (9 - (p.row + 1)) = p.row + 1 from by ring,
      Option.isSome_map']
  have k2 : (isInBoard (9 - p.row + 1) (p.col + 0) &&
      (getPiece (mirrorBoard b) (9 - p.row + 1) (p.col + 0)).isSome) =
      (isInBoard (p.row + -1) (p.col + 0) &&
      (getPiece b (p.row + -1) (p.col + 0)).isSome) := by
    rw [show (9 : Int) - p.row + 1 = 9 - (p.row + -1) from by ring,
      isInBoard_mirror, getPiece_mirror hs,
      show (9 : Int) - (9 - (p.row + -1)) = p.row + -1 from by ring,
      Option.isSome_map']
  have k3 : (isInBoard (9 - p.row + 0) (p.col + -1) &&
      (getPiece (mirrorBoard b) (9 - p.row + 0) (p.col + -1)).isSome) =
      (isInBoard (p.row + 0) (p.col + -1) &&
      (getPiece b (p.row + 0) (p.col + -1)).isSome) := by
    rw [show (9 : Int) - p.row + 0 = 9 - (p.row + 0) from by ring,
      isInBoard_mirror, getPiece_mirror hs,
      show (9 : Int) - (9 - (p.row + 0)) = p.row + 0 from by ring,
      Option.isSome_map']
  have k4 : (isInBoard (9 - p.row + 0) (p.col + 1) &&
      (getPiece (mirrorBoard b) (9 - p.row + 0) (p.col + 1)).isSome) =
      (isInBoard (p.row + 0) (p.col + 1) &&
      (getPiece b (p.row + 0) (p.col + 1)).isSome) := by
    rw [show (9 : Int) - p.row + 0 = 9 - (p.row + 0) from by ring,
      isInBoard_mirror, getPiece_mirror hs,
      show (9 : Int) - (9 - (p.row + 0)) = p.row + 0 from by ring,
      Option.isSome_map']
  have hlen : ([((-1 : Int), (0 : Int)), (1, 0), (0, -1), (0, 1)].filter
      (fun d => isInBoard (9 - p.row + d.1) (p.col + d.2) &&
        (getPiece (mirrorBoard b) (9 - p.row + d.1) (p.col + d.2)).isSome)).length =
      ([((-1 : Int), (0 : Int)), (1, 0), (0, -1), (0, 1)].filter
      (fun d => isInBoard (p.row + d.1) (p.col + d.2) &&
        (getPiece b (p.row + d.1) (p.col + d.2)).isSome)).length := by
    rw [← List.countP_eq_length_filter, ← List.countP_eq_length_filter]
    simp only [List.countP_cons, List.countP_nil]
    dsimp only
    rw [k1, k2, k3, k4]
    omega
  rw [hlen]

/-- Unfolding of one king-exposure walk step. -/
theorem exposureWalk_succ (b : Board) (col : Int) (oppS : Side)
    (forward r blockers pen : Int) (n : Nat) :
    exposureWalk b col oppS forward r blockers pen (n + 1) =
    (if decide (0 ≤ r) && decide (r < 10) then
      match getPiece b r col with
      | some p =>
        let pen := if p.side = oppS ∧ p.type = PieceType.rook ∧ blockers = 0
          then pen + 40 else pen
        let pen := if p.side = oppS ∧ p.type = PieceType.cannon ∧ blockers = 1
          then pen + 35 else pen
        let blockers := blockers + 1
        if blockers ≥ 2 then pen
        else exposureWalk b col oppS forward (r + forward) blockers pen n
      | none => exposureWalk b col oppS forward (r + forward) blockers pen n
    else pen) := rfl

/-- The king-exposure file walk is mirror-equivariant. -/
theorem exposureWalk_mirror {b : Board} (hs : shapedB b.grid = true)
    (col : Int) (oppS : Side) (f : Int) :
    ∀ (fuel : Nat) (r blockers pen : Int),
    exposureWalk (mirrorBoard b) col oppS (-f) (9 - r) blockers pen fuel =
      exposureWalk b col oppS.opp f r blockers pen fuel := by
  intro fuel
  induction fuel with
  | zero => intro r blockers pen; rfl
  | succ n ih =>
    intro r blockers pen
    rw [exposureWalk_succ, exposureWalk_succ]
    have hb : (decide (0 ≤ 9 - r) && decide (9 - r < 10)) =
        (decide (0 ≤ r) && decide (r < 10)) := by
      rw [Bool.eq_iff_iff]
      simp only [Bool.and_eq_true, decide_eq_true_eq]
      omega
    rw [hb]
    by_cases hin : (decide (0 ≤ r) && decide (r < 10)) = true
    · rw [if_pos hin, if_pos hin]
      rw [getPiece_mirror hs, show (9 : Int) - (9 - r) = r from by ring]
      rcases hq : getPiece b r col with _ | q
      · dsimp only [Option.map_none']
        rw [show (9 : Int) - r + -f = 9 - (r + f) from by ring]
        exact ih (r + f) blockers pen
      · dsimp only [Option.map_some']
        have hc1 : ((mirrorPiece q).side = oppS ∧
            (mirrorPiece q).type = PieceType.rook ∧ blockers = 0) ↔
            (q.side = oppS.opp ∧ q.type = PieceType.rook ∧ blockers = 0) := by
          obtain ⟨qt, qs⟩ := q
          dsimp only [mirrorPiece]
          constructor <;> rintro ⟨h1, h2, h3⟩
          · exact ⟨opp_eq_iff.mp h1, h2, h3⟩
          · exact ⟨opp_eq_iff.mpr h1, h2, h3⟩
        have hc2 : ((mirrorPiece q).side = oppS ∧
            (mirrorPiece q).type = PieceType.cannon ∧ blockers = 1) ↔
            (q.side = oppS.opp ∧ q.type = PieceType.cannon ∧ blockers = 1) := by
          obtain ⟨qt, qs⟩ := q
          dsimp only [mirrorPiece]
          constructor <;> rintro ⟨h1, h2, h3⟩
          · exact ⟨opp_eq_iff.mp h1, h2, h3⟩
          · exact ⟨opp_eq_iff.mpr h1, h2, h3⟩
        simp only [hc1, hc2]
        by_cases h2 : blockers + 1 ≥ 2
        · rw [if_pos h2, if_pos h2]
        · rw [if_neg h2, if_neg h2]
          rw [show (9 : Int) - r + -f = 9 - (r + f) from by ring]
          exact ih (r + f) (blockers + 1) _
    · rw [if_neg hin, if_neg hin]

/-- King-exposure term is mirror-equivariant. -/
theorem evalKingExposure_mirror {b : Board} (hs : shapedB b.grid = true)
    (kp : Pos) (s : Side) :
    evalKingExposure (mirrorBoard b) (mirrorPos kp) s =
      evalKingExposure b kp s.opp := by
  unfold evalKingExposure
  dsimp only [mirrorPos]
  rw [show (if s.opp = Side.red then (-1 : Int) else 1) =
      -(if s = Side.red then (-1 : Int) else 1) from by cases s <;> decide]
  generalize (if s = Side.red then (-1 : Int) else 1) = f
  rw [show (9 : Int) - kp.row + f = 9 - (kp.row + -f) from by ring]
  have h := exposureWalk_mirror hs kp.col s.opp (-f) 16 (kp.row + -f) 0 0
  rw [show (-(-f)) = f from by ring] at h
  exact h

/-- The full evaluation is mirror-equivariant: evaluating the
recoloured, row-flipped board for a side equals evaluating the
original board for the opposite side. -/
theorem evaluate_mirror {b : Board} (hs : shapedB b.grid = true) (s : Side)
    (rnd jit : Int) :
    evaluate (mirrorBoard b) s rnd jit = evaluate b s.opp rnd jit := by
  unfold evaluate
  dsimp only
  rw [opp_opp]
  rw [calcPhase_mirror hs s]
  have hlen1 : (getPieces (mirrorBoard b) s).length =
      (getPieces b s.opp).length := by
    rw [(getPieces_mirror_perm hs s).length_eq, List.length_map]
  have hlen2 : (getPieces (mirrorBoard b) s.opp).length =
      (getPieces b s).length := by
    rw [(getPieces_mirror_perm hs s.opp).length_eq, List.length_map, opp_opp]
  rw [hlen1, hlen2]
  rw [material_fold_mirror hs s]
  rw [material_fold_neg_mirror hs s.opp]
  rw [isInCheck_mirror hs s.opp]
  rw [evalKingSafety_mirror hs s s.opp, evalKingSafety_mirror hs s.opp s]
  rw [evalActivity_mirror hs s, evalActivity_mirror hs s.opp]
  rw [evalPawnStructure_mirror hs s, evalPawnStructure_mirror hs s.opp]
  rw [evalRookFiles_mirror hs s, evalRookFiles_mirror hs s.opp]
  rw [evalCannon_mirror hs s, evalCannon_mirror hs s.opp]
  rw [evalHorseMobility_mirror hs s, evalHorseMobility_mirror hs s.opp]
  rw [findKing_mirror b s.opp, findKing_mirror b s]
  simp only [opp_opp]
  rcases hk1 : findKing b s with _ | ko <;>
    rcases hk2 : findKing b s.opp with _ | kw <;>
    dsimp only [Option.map_none', Option.map_some'] <;>
    simp only [evalKingTropism_mirror hs s, evalKingTropism_mirror hs s.opp,
      evalKingExposure_mirror hs, opp_opp]

/-- C5: the mirror law as stated fails.  On the demo position Red is
in check and Black is not, so the one-sided check bonus of evaluate
breaks the sign-flip: evaluating the recoloured, row-flipped board for
Red is not the negation of evaluating the original for Red, even with
randomness 0. -/
theorem C5_mirror_counterexample :
    ¬ (evaluate (mirrorBoard evalDemoBoard) Side.red 0 0 =
       -(evaluate evalDemoBoard Side.red 0 0)) := by decide

/-- C5 (amended): the evaluator satisfies a side-swap law instead of
the sign-flip law: for every board with a well-shaped grid, every
side, and every randomness setting, evaluating the recoloured,
row-flipped board for a side equals evaluating the original board for
the opposite side. -/
theorem C5_mirror_equivariance (b : Board) (s : Side) (rnd jit : Int)
    (hs : shapedB b.grid = true) :
    evaluate (mirrorBoard b) s rnd jit = evaluate b s.opp rnd jit :=
  evaluate_mirror hs s rnd jit

/-- The side-swap law instantiated on the demo position. -/
theorem C5_mirror_equivariance_witness :
    shapedB evalDemoBoard.grid = true ∧
    evaluate (mirrorBoard evalDemoBoard) Side.black 0 0 =
      evaluate evalDemoBoard Side.black.opp 0 0 :=
  ⟨by decide, C5_mirror_equivariance evalDemoBoard Side.black 0 0 (by decide)⟩

/-- Full characterization of the king cache after movePiece. -/
theorem movePiece_kingPos (b : Board) (fr fc tr tc : Int) (s : Side) :
    (movePiece b fr fc tr tc).1.kingPos s =
    (match gridGet b.grid fr fc, gridGet b.grid tr tc with
     | some m, some cp =>
       if m.type = PieceType.king ∧ m.side = s then some ⟨tr, tc⟩
       else if cp.type = PieceType.king ∧ cp.side = s then none
       else b.kingPos s
     | some m, none =>
       if m.type = PieceType.king ∧ m.side = s then some ⟨tr, tc⟩
       else b.kingPos s
     | none, some cp =>
       if cp.type = PieceType.king ∧ cp.side = s then none
       else b.kingPos s
     | none, none => b.kingPos s) := by
  simp only [movePiece]
  rcases gridGet b.grid fr fc with _ | m <;>
    rcases gridGet b.grid tr tc with _ | cp <;>
    simp only [kingPos_fields]
  · by_cases hck2 : cp.type = PieceType.king
    · rw [if_pos hck2]
      by_cases hcs : cp.side = s
      · subst hcs
        rw [kingPos_setKing_same,
          if_pos (show cp.type = PieceType.king ∧ cp.side = cp.side from
            ⟨hck2, rfl⟩)]
      · rw [kingPos_setKing_other _ hcs,
          if_neg (show ¬(cp.type = PieceType.king ∧ cp.side = s) from
            fun h => hcs h.2), kingPos_fields]
    · rw [if_neg hck2,
        if_neg (show ¬(cp.type = PieceType.king ∧ cp.side = s) from
          fun h => hck2 h.1), kingPos_fields]
  · by_cases hmk : m.type = PieceType.king
    · rw [if_pos hmk]
      by_cases hms : m.side = s
      · subst hms
        rw [kingPos_setKing_same,
          if_pos (show m.type = PieceType.king ∧ m.side = m.side from
            ⟨hmk, rfl⟩)]
      · rw [kingPos_setKing_other _ hms,
          if_neg (show ¬(m.type = PieceType.king ∧ m.side = s) from
            fun h => hms h.2), kingPos_fields]
    · rw [if_neg hmk,
        if_neg (show ¬(m.type = PieceType.king ∧ m.side = s) from
          fun h => hmk h.1), kingPos_fields]
  · by_cases hmk : m.type = PieceType.king
    · rw [if_pos hmk]
      by_cases hms : m.side = s
      · subst hms
        rw [kingPos_setKing_same,
          if_pos (show m.type = PieceType.king ∧ m.side = m.side from
            ⟨hmk, rfl⟩)]
      · rw [kingPos_setKing_other _ hms,
          if_neg (show ¬(m.type = PieceType.king ∧ m.side = s) from
            fun h => hms h.2)]
        by_cases hck2 : cp.type = PieceType.king
        · rw [if_pos hck2]
          by_cases hcs : cp.side = s
          · subst hcs
            rw [kingPos_setKing_same,
              if_pos (show cp.type = PieceType.king ∧ cp.side = cp.side from
                ⟨hck2, rfl⟩)]
          · rw [kingPos_setKing_other _ hcs,
              if_neg (show ¬(cp.type = PieceType.king ∧ cp.side = s) from
                fun h => hcs h.2), kingPos_fields]
        · rw [if_neg hck2,
            if_neg (show ¬(cp.type = PieceType.king ∧ cp.side = s) from
              fun h => hck2 h.1), kingPos_fields]
    · rw [if_neg hmk,
        if_neg (show ¬(m.type = PieceType.king ∧ m.side = s) from
          fun h => hmk h.1)]
      by_cases hck2 : cp.type = PieceType.king
      · rw [if_pos hck2]
        by_cases hcs : cp.side = s
        · subst hcs
          rw [kingPos_setKing_same,
            if_pos (show cp.type = PieceType.king ∧ cp.side = cp.side from
              ⟨hck2, rfl⟩)]
        · rw [kingPos_setKing_other _ hcs,
            if_neg (show ¬(cp.type = PieceType.king ∧ cp.side = s) from
              fun h => hcs h.2), kingPos_fields]
      · rw [if_neg hck2,
          if_neg (show ¬(cp.type = PieceType.king ∧ cp.side = s) from
            fun h => hck2 h.1), kingPos_fields]

/-- movePiece keeps the grid well-shaped. -/
theorem movePiece_shaped {b : Board} (fr fc tr tc : Int)
    (hsh : shapedB b.grid = true) :
    shapedB (movePiece b fr fc tr tc).1.grid = true := by
  rw [movePiece_grid]
  exact shaped_gridSet (shaped_gridSet hsh _ _ _) _ _ _

/-- movePiece keeps the king cache consistent with the grid. -/
theorem movePiece_cacheOk {b : Board} {fr fc tr tc : Int} {p : Piece}
    (hsh : shapedB b.grid = true) (hck : cacheOkB b = true)
    (hp : gridGet b.grid fr fc = some p)
    (hinFrom : isInBoard fr fc = true) (hinTo : isInBoard tr tc = true)
    (hne : ¬(tr = fr ∧ tc = fc)) :
    cacheOkB (movePiece b fr fc tr tc).1 = true := by
  have hsh1 : shapedB (gridSet b.grid tr tc (gridGet b.grid fr fc)) = true :=
    shaped_gridSet hsh _ _ _
  have hne' : ¬(fr = tr ∧ fc = tc) := fun h => hne ⟨h.1.symm, h.2.symm⟩
  simp only [cacheOkB, List.all_eq_true, List.mem_range]
  intro r hr c hc
  have hin : isInBoard (Int.ofNat r) (Int.ofNat c) = true := by
    have e1 : Int.ofNat r = (r : Int) := rfl
    have e2 : Int.ofNat c = (c : Int) := rfl
    rw [isInBoard_iff, e1, e2]
    omega
  rw [movePiece_grid]
  by_cases hF : Int.ofNat r = fr ∧ Int.ofNat c = fc
  · rw [hF.1, hF.2, gridGet_gridSet_self hsh1 hinFrom]
  · rw [gridGet_gridSet_ne hsh1 hinFrom hin
      (fun h => hF ⟨h.1.symm, h.2.symm⟩)]
    by_cases hT : Int.ofNat r = tr ∧ Int.ofNat c = tc
    · rw [hT.1, hT.2, gridGet_gridSet_self hsh hinTo, hp]
      dsimp only
      by_cases hpk : p.type = PieceType.king
      · rw [if_pos hpk, movePiece_kingPos, hp]
        rcases gridGet b.grid tr tc with _ | cp <;> dsimp only <;>
          rw [if_pos ⟨hpk, rfl⟩] <;> rw [← hT.1, ← hT.2] <;>
          simp [Int.ofNat_toNat]
      · rw [if_neg hpk]
    · rw [gridGet_gridSet_ne hsh hinTo hin
        (fun h => hT ⟨h.1.symm, h.2.symm⟩)]
      rcases hq : gridGet b.grid (Int.ofNat r) (Int.ofNat c) with _ | q
      · rfl
      · dsimp only
        by_cases hqk : q.type = PieceType.king
        · rw [if_pos hqk]
          have hqpos : b.kingPos q.side = some ⟨Int.ofNat r, Int.ofNat c⟩ := by
            have := cacheOk_king hck (p := q)
              (by rw [getPiece_eq_gridGet hin]; exact hq) hqk
            exact this
          rw [movePiece_kingPos, hp]
          have hnotmover : ¬(p.type = PieceType.king ∧ p.side = q.side) := by
            rintro ⟨hpk, hps⟩
            have hppos : b.kingPos p.side = some ⟨fr, fc⟩ :=
              cacheOk_king hck
                (by rw [getPiece_eq_gridGet hinFrom]; exact hp) hpk
            rw [hps, hqpos] at hppos
            injection hppos with heq
            have h1 : fr = Int.ofNat r := congrArg Pos.row heq.symm
            have h2 : fc = Int.ofNat c := congrArg Pos.col heq.symm
            exact hF ⟨h1.symm, h2.symm⟩
          rcases hcap : gridGet b.grid tr tc with _ | cp <;> dsimp only
          · rw [if_neg hnotmover, hqpos]
            simp [Int.ofNat_toNat]
          · rw [if_neg hnotmover]
            have hnotcap : ¬(cp.type = PieceType.king ∧ cp.side = q.side) := by
              rintro ⟨hcpk, hcps⟩
              have hcppos : b.kingPos cp.side = some ⟨tr, tc⟩ :=
                cacheOk_king hck
                  (by rw [getPiece_eq_gridGet hinTo]; exact hcap) hcpk
              rw [hcps, hqpos] at hcppos
              injection hcppos with heq
              have h1 : tr = Int.ofNat r := congrArg Pos.row heq.symm
              have h2 : tc = Int.ofNat c := congrArg Pos.col heq.symm
              exact hT ⟨h1.symm, h2.symm⟩
            rw [if_neg hnotcap, hqpos]
            simp [Int.ofNat_toNat]
        · rw [if_neg hqk]

/-- Every generated legal move can be made and unmade: occupied
origin, in-board squares, target distinct from the origin. -/
theorem generateAllLegalMoves_ok {b : Board} {s : Side} {m : Move}
    (hm : m ∈ generateAllLegalMoves b s) : moveOk b m := by
  unfold generateAllLegalMoves at hm
  obtain ⟨q, hq, hmm⟩ := List.mem_flatMap.mp hm
  obtain ⟨mt, hmt, hfm⟩ := List.mem_filterMap.mp hmm
  split at hfm
  · cases hfm
  · injection hfm with hfm
    subst hfm
    obtain ⟨p, hp, hin, hne, _⟩ := generatePieceMoves_sound hmt
    obtain ⟨r, c, hr, hc, hrow, hcol, _, hcell⟩ := getPieces_mem_iff.mp hq
    have hinF : isInBoard q.row q.col = true := by
      rw [hrow, hcol, isInBoard_iff]
      omega
    refine ⟨⟨⟨q.type, q.side⟩, ?_⟩, hinF, hin, hne⟩
    rw [hrow, hcol]
    exact hcell

/-- Frame property of quiesce and its capture loop: with a well-formed
board whose pending moves are all generated legal moves, the returned
board is the input board, at every fuel. -/
theorem quiesce_frames (o : Oracles) : ∀ f : Nat,
    (∀ es b alpha beta side md, shapedB b.grid = true → cacheOkB b = true →
      (quiesce o f es b alpha beta side md).2.1 = b) ∧
    (∀ ms es b alpha beta side opp md,
      shapedB b.grid = true → cacheOkB b = true →
      (∀ m ∈ ms, moveOk b m) →
      (quiesceLoop o f es b alpha beta side opp md ms).2.1 = b) := by
  intro f
  induction f with
  | zero =>
    constructor
    · intro es b alpha beta side md _ _
      rw [quiesce]
    · intro ms es b alpha beta side opp md _ _ _
      cases ms <;> rw [quiesceLoop]
  | succ f ih =>
    constructor
    · intro es b alpha beta side md hsh hck
      rw [quiesce]
      dsimp only
      repeat' split
      all_goals try rfl
      all_goals refine ih.2 _ _ _ _ _ _ _ _ hsh hck ?_
      all_goals intro m hm
      all_goals rw [List.mem_mergeSort] at hm
      all_goals first
        | exact generateAllLegalMoves_ok hm
        | exact generateAllLegalMoves_ok (List.mem_filter.mp hm).1
    · intro ms es b alpha beta side opp md hsh hck hmv
      revert hmv
      induction ms generalizing es alpha with
      | nil =>
        intro _
        rw [quiesceLoop]
      | cons move rest ihms =>
        intro hmv
        obtain ⟨⟨p, hp⟩, hinF, hinT, hne⟩ :=
          hmv move (List.mem_cons_self _ _)
        have hb1sh : shapedB (movePiece b move.fromRow move.fromCol move.toRow
            move.toCol).1.grid = true := movePiece_shaped _ _ _ _ hsh
        have hb1ck : cacheOkB (movePiece b move.fromRow move.fromCol move.toRow
            move.toCol).1 = true :=
          movePiece_cacheOk hsh hck hp hinF hinT hne
        rw [quiesceLoop]
        dsimp only
        rw [ih.1 _ _ (Score.neg beta) (Score.neg alpha) opp (md - 1) hb1sh
          hb1ck]
        rw [moveUndo_restore hsh hck hp hinF hinT hne]
        split
        · rfl
        · exact ihms _ _ (fun m hm => hmv m (List.mem_cons_of_mem _ hm))

/-- orderMoves is a permutation: membership is unchanged. -/
theorem orderMoves_mem {es : AIEngine} {b : Board} {moves : List Move}
    {pm : Option Move} {ply : Nat} {side : Side} {m : Move} :
    m ∈ orderMoves es b moves pm ply side ↔ m ∈ moves := by
  unfold orderMoves
  exact List.mem_mergeSort

/-- Frame property of the per-move search ladder, given the frame
property of negamax at the same fuel on the same board. -/
theorem searchMove_frame (o : Oracles) (f : Nat) {b1 : Board}
    (hfr : ∀ es depth alpha beta side ply an,
      (negamax o f es b1 depth alpha beta side ply an).2.1 = b1)
    (es : AIEngine) (depth : Int) (alpha beta : Score) (opp : Side)
    (ply msr : Nat) (red : Int) :
    (searchMove o f es b1 depth alpha beta opp ply msr red).2.1 = b1 := by
  rw [searchMove]
  dsimp only
  simp only [hfr]
  repeat' split
  all_goals rfl

/-- Frame property of negamax and its move loop: with a well-formed
board whose pending moves can all be made and unmade, the returned
board is the input board, at every fuel. -/
theorem negamax_frames (o : Oracles) : ∀ f : Nat,
    (∀ b, shapedB b.grid = true → cacheOkB b = true →
      ∀ es depth alpha beta side ply an,
        (negamax o f es b depth alpha beta side ply an).2.1 = b) ∧
    (∀ b, shapedB b.grid = true → cacheOkB b = true →
      ∀ ms, (∀ m ∈ ms, moveOk b m) →
      ∀ es depth alpha beta side opp ply ic se ao bm bs msr,
        (negamaxLoop o f es b depth alpha beta side opp ply ic se ao bm bs
          msr ms).2.1 = b) := by
  intro f
  induction f with
  | zero =>
    constructor
    · intro b _ _ es depth alpha beta side ply an
      rw [negamax]
    · intro b _ _ ms _ es depth alpha beta side opp ply ic se ao bm bs msr
      cases ms <;> rw [negamaxLoop]
  | succ f ih =>
    constructor
    · intro b hsh hck es depth alpha beta side ply an
      have hframe := ih.1 b hsh hck
      have hlframe := ih.2 b hsh hck
      rw [negamax]
      dsimp only
      simp only [hframe]
      split
      · rfl
      split
      · rfl
      split
      · rfl
      split <;>
        (split
         · exact (quiesce_frames o f).1 _ _ _ _ _ _ hsh hck
         · split
           · rename_i heq
             repeat' split at heq
             all_goals injection heq with h1 h23
             all_goals injection h23 with hb he
             all_goals subst hb
             all_goals subst he
             all_goals try injection h1
             all_goals rfl
           · rename_i heq
             repeat' split at heq
             all_goals injection heq with h1 h23
             all_goals injection h23 with hb he
             all_goals subst hb
             all_goals subst he
             all_goals try injection h1
             all_goals
               (split
                · rfl
                · apply hlframe
                  intro m hm
                  rw [orderMoves_mem] at hm
                  exact generateAllLegalMoves_ok hm))
    · intro b hsh hck ms hmv
      induction ms with
      | nil =>
        intro es depth alpha beta side opp ply ic se ao bm bs msr
        rw [negamaxLoop]
      | cons move rest ihms =>
        intro es depth alpha beta side opp ply ic se ao bm bs msr
        obtain ⟨⟨p, hp⟩, hinF, hinT, hne⟩ :=
          hmv move (List.mem_cons_self _ _)
        have hmvrest : ∀ m ∈ rest, moveOk b m :=
          fun m hm => hmv m (List.mem_cons_of_mem _ hm)
        have hb1sh : shapedB (movePiece b move.fromRow move.fromCol move.toRow
            move.toCol).1.grid = true := movePiece_shaped _ _ _ _ hsh
        have hb1ck : cacheOkB (movePiece b move.fromRow move.fromCol move.toRow
            move.toCol).1 = true :=
          movePiece_cacheOk hsh hck hp hinF hinT hne
        have hframe1 := ih.1 _ hb1sh hb1ck
        rw [negamaxLoop.eq_def]
        dsimp only
        split
        · exact ihms hmvrest _ _ _ _ _ _ _ _ _ _ _ _ _
        · simp only [searchMove_frame o f hframe1]
          rw [moveUndo_restore hsh hck hp hinF hinT hne]
          repeat' split
          all_goals try rfl
          all_goals exact ihms hmvrest _ _ _ _ _ _ _ _ _ _ _ _ _

/-- Frame property of the root PVS loop. -/
theorem searchRootLoop_frame (o : Oracles) (f : Nat) {b : Board}
    (hsh : shapedB b.grid = true) (hck : cacheOkB b = true) :
    ∀ ms, (∀ m ∈ ms, moveOk b m) →
    ∀ es side opp depth alpha beta bm bs isF,
      (searchRootLoop o f es b side opp depth alpha beta bm bs isF
        ms).2.2.1 = b := by
  intro ms
  induction ms with
  | nil =>
    intro _ es side opp depth alpha beta bm bs isF
    rfl
  | cons move rest ihr =>
    intro hmv es side opp depth alpha beta bm bs isF
    obtain ⟨⟨p, hp⟩, hinF, hinT, hne⟩ := hmv move (List.mem_cons_self _ _)
    have hmvrest : ∀ m ∈ rest, moveOk b m :=
      fun m hm => hmv m (List.mem_cons_of_mem _ hm)
    have hb1sh : shapedB (movePiece b move.fromRow move.fromCol move.toRow
        move.toCol).1.grid = true := movePiece_shaped _ _ _ _ hsh
    have hb1ck : cacheOkB (movePiece b move.fromRow move.fromCol move.toRow
        move.toCol).1 = true :=
      movePiece_cacheOk hsh hck hp hinF hinT hne
    have hframe1 := (negamax_frames o f).1 _ hb1sh hb1ck
    rw [searchRootLoop]
    dsimp only
    repeat' split
    all_goals simp only [hframe1]
    all_goals rw [moveUndo_restore hsh hck hp hinF hinT hne]
    all_goals try rfl
    all_goals exact ihr hmvrest _ _ _ _ _ _ _ _ _

/-- Frame property of searchRoot: the board comes back unchanged, and
the returned (sorted) move list still holds make/unmake-safe moves. -/
theorem searchRoot_frame (o : Oracles) (f : Nat) {b : Board}
    (hsh : shapedB b.grid = true) (hck : cacheOkB b = true)
    {moves : List Move} (hmv : ∀ m ∈ moves, moveOk b m) :
    ∀ es side opp depth alpha beta,
      (searchRoot o f es b moves side opp depth alpha beta).2.2.2.1 = b ∧
      ∀ m ∈ (searchRoot o f es b moves side opp depth alpha beta).1,
        moveOk b m := by
  intro es side opp depth alpha beta
  unfold searchRoot
  rcases es.tt.probe b.hash 0 alpha beta with _ | r <;> dsimp only <;>
    try (rcases r.bestMove with _ | pm <;> dsimp only)
  all_goals refine ⟨searchRootLoop_frame o f hsh hck _ ?_ _ _ _ _ _ _ _ _ _,
    ?_⟩
  all_goals intro m hm
  all_goals simp only [orderMoves_mem] at hm
  all_goals exact hmv m hm

/-- Frame property of the iterative-deepening loop: board unchanged,
returned move list still make/unmake-safe. -/
theorem deepenLoop_frame (o : Oracles) (f : Nat) {b : Board}
    (hsh : shapedB b.grid = true) (hck : cacheOkB b = true) :
    ∀ k (moves : List Move), (∀ m ∈ moves, moveOk b m) →
    ∀ es side opp depth bm bs,
      (deepenLoop o f k es b moves side opp depth bm bs).2.2.2.1 = b ∧
      ∀ m ∈ (deepenLoop o f k es b moves side opp depth bm bs).2.2.1,
        moveOk b m := by
  intro k
  induction k with
  | zero =>
    intro moves hmv es side opp depth bm bs
    exact ⟨rfl, hmv⟩
  | succ k ihk =>
    intro moves hmv es side opp depth bm bs
    have hA := searchRoot_frame o f hsh hck hmv
    have hA1 : ∀ es1 al be,
        (searchRoot o f es1 b moves side opp depth al be).2.2.2.1 = b :=
      fun es1 al be => (hA es1 side opp depth al be).1
    have hB1 : ∀ es1 al be es2,
        (searchRoot o f es2 b
          (searchRoot o f es1 b moves side opp depth al be).1 side opp depth
          Score.ninf Score.pinf).2.2.2.1 = b :=
      fun es1 al be es2 =>
        (searchRoot_frame o f hsh hck (hA es1 side opp depth al be).2 es2
          side opp depth Score.ninf Score.pinf).1
    rw [deepenLoop]
    try dsimp only
    simp only [hA1, hB1]
    repeat' split
    all_goals try simp only [hA1, hB1]
    all_goals first
      | exact ihk _ (hA _ side opp depth _ _).2 _ _ _ _ _ _
      | exact ihk _
          (searchRoot_frame o f hsh hck (hA _ side opp depth _ _).2 _ side
            opp depth Score.ninf Score.pinf).2 _ _ _ _ _ _
      | (refine ⟨by first | rfl | trivial, ?_⟩
         intro m hm
         first
           | exact (hA _ side opp depth _ _).2 m hm
           | exact (searchRoot_frame o f hsh hck
               (hA _ side opp depth _ _).2 _ side opp depth Score.ninf
               Score.pinf).2 m hm)

/-- Frame property of the randomness re-scoring pass. -/
theorem randomPass_frame (o : Oracles) (f : Nat) {b : Board}
    (hsh : shapedB b.grid = true) (hck : cacheOkB b = true) :
    ∀ ms, (∀ m ∈ ms, moveOk b m) → ∀ es opp,
      (randomPass o f es b ms opp).2.1 = b := by
  intro ms
  induction ms with
  | nil =>
    intro _ es opp
    rfl
  | cons move rest ihr =>
    intro hmv es opp
    obtain ⟨⟨p, hp⟩, hinF, hinT, hne⟩ := hmv move (List.mem_cons_self _ _)
    have hmvrest : ∀ m ∈ rest, moveOk b m :=
      fun m hm => hmv m (List.mem_cons_of_mem _ hm)
    have hb1sh : shapedB (movePiece b move.fromRow move.fromCol move.toRow
        move.toCol).1.grid = true := movePiece_shaped _ _ _ _ hsh
    have hb1ck : cacheOkB (movePiece b move.fromRow move.fromCol move.toRow
        move.toCol).1 = true :=
      movePiece_cacheOk hsh hck hp hinF hinT hne
    have hframe1 := (negamax_frames o f).1 _ hb1sh hb1ck
    rw [randomPass]
    dsimp only
    simp only [hframe1]
    rw [moveUndo_restore hsh hck hp hinF hinT hne]
    exact ihr hmvrest _ _

/-- C3: findBestMove is frame-safe on the board.  For every
well-formed board (well-shaped grid with a consistent king cache),
side, difficulty, fuel, and environment oracles (time checks and
random draws), the board returned by findBestMove is the input board:
grid, hash, pieceCount and the king cache all equal their pre-call
values, on every path including aborted searches and the randomness
re-scoring pass. -/
theorem C3_search_frame (o : Oracles) (f : Nat) (es : AIEngine) (b : Board)
    (side : Side) (diff : Difficulty) (hwf : boardWF b = true) :
    (findBestMove o f es b side diff).2.1 = b := by
  have hwf' := hwf
  unfold boardWF at hwf'
  rw [Bool.and_eq_true] at hwf'
  obtain ⟨hsh, hck⟩ := hwf'
  unfold findBestMove
  try dsimp only
  split
  · rfl
  split
  · rfl
  have hmv : ∀ m ∈ generateAllLegalMoves b side, moveOk b m :=
    fun m hm => generateAllLegalMoves_ok hm
  have hD := deepenLoop_frame o f hsh hck
  have hD1 : ∀ k es1 depth bm bs,
      (deepenLoop o f k es1 b (generateAllLegalMoves b side) side side.opp
        depth bm bs).2.2.2.1 = b :=
    fun k es1 depth bm bs => (hD k _ hmv es1 side side.opp depth bm bs).1
  simp only [hD1]
  split
  · exact randomPass_frame o f hsh hck _
      (fun m hm => (hD _ _ hmv _ side side.opp _ _ _).2 m
        (orderMoves_mem.mp hm)) _ _
  · rfl

/-- Witness for C3: a concrete well-formed three-piece board, the
medium difficulty, constantly-expiring time oracles and zero random
draws; findBestMove hands the board back unchanged. -/
theorem C3_search_frame_witness :
    boardWF evalDemoBoard = true ∧
    (findBestMove ⟨fun _ => true, fun _ => true, fun _ => 0⟩ 2
      ⟨0, 0, 0, 0, TranspositionTable.empty, fun _ => none, fun _ => 0,
        false, 0⟩ evalDemoBoard Side.red Difficulty.medium).2.1 =
      evalDemoBoard :=
  ⟨by decide,
   C3_search_frame ⟨fun _ => true, fun _ => true, fun _ => 0⟩ 2
     ⟨0, 0, 0, 0, TranspositionTable.empty, fun _ => none, fun _ => 0,
       false, 0⟩ evalDemoBoard Side.red Difficulty.medium (by decide)⟩
